import Mathlib

/-!
# Verification of `pkg/bridge/gen.go` (terraform-bridge code generator)

A shallow embedding of the generator: the Terraform schema data model, the
package-level generation state (`saltValue`, `prefixTemplateData`, `code`),
and the functions `deriveGoType`, `getGoType`, `getGoTypeWithPtr`,
`generatePrefix`, `generateResourceType`, `generateResource` and `Generate`.

Modelling conventions.

* Go strings are Lean `String`s. `sort.Strings` orders strings bytewise; on
  valid UTF-8 that is the lexicographic order of the code points, which is the
  order `stringLE` below.
* A Go `map[string]T` is an association list `List (String × T)`; the order of
  the list is the enumeration order of `range`. A Go map has no duplicate keys,
  which is the hypothesis `Nodup` on the keys wherever a statement needs it.
  `m[name]` is `List.lookup`; an absent key yields the nil pointer, whose
  dereference panics.
* The pointers stored in `ResourcesMap` and in the attribute maps are not nil.
  `Schema.Elem` is an `interface{}`: besides the nil interface it may hold a
  nil `*schema.Schema` or `*schema.Resource`, which the type switch of
  `getGoType` sends to the pointer case, where the first field access panics.
* `saltValue` is a Go `int` (64 bits): `saltValue++` wraps around, `wrapInt`.
* A text fragment of `code` is the result of executing one of the three fixed
  templates on a data record, so it is represented by the pair of template and
  data (`Fragment`). `formatCode` and `writeSourceFile` (go/format, os) lie
  outside the model: `Generate` is modelled up to and including
  `generatePrefix`.
* The functions `getGoType` and `generateResourceType` are mutually recursive
  over the schema tree. `getGoType` takes a fuel argument bounding the nesting
  depth; on a supported schema any fuel from `Schema.depth` on gives the
  result (`getGoType_total`).
-/

namespace Bridge

/-! ## Data model (github.com/hashicorp/terraform/helper/schema) -/

/-- The enumeration `schema.ValueType` with the constants the library declares. -/
inductive ValueType
  | TypeInvalid | TypeBool | TypeInt | TypeFloat | TypeString
  | TypeList | TypeMap | TypeSet | typeObject
  deriving DecidableEq

mutual
/-- The fields of `schema.Schema` the generator reads. -/
inductive Schema where
  | mk (Type_ : ValueType) (Required : Bool) (ForceNew : Bool) (Elem : ElemVal)
/-- The dynamic value of `Schema.Elem` (an `interface{}`): a nil interface, a value
of any other type, a `*schema.Schema`, a `*schema.Resource`, or the nil pointer
of one of these two pointer types. -/
inductive ElemVal where
  | nil
  | other
  | schema (s : Schema)
  | resource (r : Resource)
  | nilSchema
  | nilResource
/-- A `schema.Resource`: its attribute map `Schema map[string]*Schema`. -/
inductive Resource where
  | mk (Schema : List (String × Schema))
end

/-- Field `Type` of a schema. -/
def Schema.Type_ : Schema → ValueType
  | .mk t _ _ _ => t

/-- Field `Required` of a schema. -/
def Schema.Required : Schema → Bool
  | .mk _ r _ _ => r

/-- Field `ForceNew` of a schema. -/
def Schema.ForceNew : Schema → Bool
  | .mk _ _ f _ => f

/-- Field `Elem` of a schema. -/
def Schema.Elem : Schema → ElemVal
  | .mk _ _ _ e => e

/-- Field `Schema` of a resource. -/
def Resource.Schema : Resource → List (String × Schema)
  | .mk m => m

/-- A `schema.Provider`: its `ResourcesMap map[string]*Resource`. -/
structure Provider where
  ResourcesMap : List (String × Resource)

mutual
/-- Nesting depth of a schema: the number of `getGoType` activations on the
longest chain of nested calls. -/
def Schema.depth : Schema → Nat
  | .mk _ _ _ e => e.depth + 1
/-- Nesting depth below an `Elem` value. -/
def ElemVal.depth : ElemVal → Nat
  | .nil => 0
  | .other => 0
  | .schema s => s.depth
  | .resource r => r.depth
  | .nilSchema => 0
  | .nilResource => 0
/-- Nesting depth of a resource: the deepest of its attributes. -/
def Resource.depth : Resource → Nat
  | .mk m => depthAttrs m
/-- Deepest schema of an attribute map. -/
def depthAttrs : List (String × Schema) → Nat
  | [] => 0
  | (_, s) :: rest => max s.depth (depthAttrs rest)
end

mutual
/-- A supported attribute schema: a primitive or a map, or a list or set whose
element is a supported attribute schema or a nested resource all of whose
attributes are supported. -/
def Schema.supported : Schema → Bool
  | .mk t _ _ e =>
    match t with
    | .TypeBool => true
    | .TypeInt => true
    | .TypeFloat => true
    | .TypeString => true
    | .TypeMap => true
    | .TypeList => e.supported
    | .TypeSet => e.supported
    | _ => false
/-- An element that is an attribute schema or a nested resource, itself supported. -/
def ElemVal.supported : ElemVal → Bool
  | .schema s => s.supported
  | .resource r => r.supported
  | _ => false
/-- A resource all of whose attributes are supported. -/
def Resource.supported : Resource → Bool
  | .mk m => supportedAttrs m
/-- Every schema of the attribute map is supported. -/
def supportedAttrs : List (String × Schema) → Bool
  | [] => true
  | (_, s) :: rest => s.supported && supportedAttrs rest
end

/-- Deepest resource of a provider. -/
def Provider.depth (p : Provider) : Nat :=
  (p.ResourcesMap.map (fun e => e.2.depth)).foldr max 0

/-- Every resource of the provider is supported. -/
def Provider.supported (p : Provider) : Bool :=
  p.ResourcesMap.all (fun e => e.2.supported)

/-- The flag `Required` of the attribute `m[name]` (false for an absent key). -/
def attrRequired (m : List (String × Schema)) (name : String) : Bool :=
  match m.lookup name with
  | some s => s.Required
  | none => false

/-- The flag `ForceNew` of the attribute `m[name]` (false for an absent key). -/
def attrForceNew (m : List (String × Schema)) (name : String) : Bool :=
  match m.lookup name with
  | some s => s.ForceNew
  | none => false

/-! ## Generation state and template data -/

/-- Data of `prefixTemplate`. -/
structure prefixData where
  Namespace : String
  StructTypes : List String
  deriving DecidableEq

/-- Data of `providerTemplate`. -/
structure providerData where
  StructType : String
  NativeType : String
  ProvidedAttributes : List String
  ImmutableAttributes : List String
  deriving DecidableEq

/-- One field of an aggregate. -/
structure structField where
  FieldName : String
  FieldType : String
  deriving DecidableEq

/-- Data of `typeTemplate`. -/
structure structData where
  StructType : String
  StructFields : List structField
  InsertID : Bool
  deriving DecidableEq

/-- An element of the emission list `code`: the text obtained by executing the
named template on the given data. -/
inductive Fragment
  | prefixTemplate (d : prefixData)
  | typeTemplate (d : structData)
  | providerTemplate (d : providerData)
  deriving DecidableEq

/-- The package-level variables `saltValue`, `prefixTemplateData`, `code`. -/
structure GenState where
  saltValue : Int
  prefixTemplateData : prefixData
  code : List Fragment
  deriving DecidableEq

/-- The ways a call can panic. `nilDereference` is the runtime panic on reading
a field through a nil pointer: the one that `r.Schema[name]` yields for an
absent key, or an `Elem` that is a nil `*schema.Schema` or `*schema.Resource`. -/
inductive Panic
  | unsupportedTypeList
  | unsupportedTypeSet
  | unknownSchemaType
  | nilDereference
  deriving DecidableEq

/-- Outcome of a call that may update the generation state. -/
inductive Result (α : Type)
  | ok (a : α) (st : GenState)
  | panic (p : Panic)
  | outOfFuel
  deriving DecidableEq

/-! ## Template projections

The parts of the three templates that depend on the data. -/

/-- The field declarations that `typeTemplate` writes between the braces: the
identity field when `.InsertID` holds, then one line per element of
`.StructFields`. -/
def typeTemplateFields (d : structData) : List structField :=
  (if d.InsertID then [⟨d.StructType ++ "_id", "*string"⟩] else []) ++ d.StructFields

/-- The arguments of `rtb.ProvidedAttributes(...)` written by `providerTemplate`. -/
def rtbProvidedAttributes (d : providerData) : List String :=
  (d.NativeType ++ "_id") :: d.ProvidedAttributes

/-- The arguments of `rtb.ImmutableAttributes(...)` written by `providerTemplate`. -/
def rtbImmutableAttributes (d : providerData) : List String :=
  d.ImmutableAttributes

/-- The aggregate names over which `prefixTemplate` ranges to write one
`RegisterTypes` and one `RegisterHandler` call each in `Initialize`. -/
def initializeRegistrations (d : prefixData) : List String :=
  d.StructTypes

/-! ## Library functions: `sort.Strings`, `strings.Title`, `int` arithmetic -/

/-- Code points of a string; comparing them lexicographically is Go's string order. -/
def stringKey (s : String) : List Nat := s.data.map Char.toNat

/-- Go's `a <= b` on strings. -/
def stringLE (a b : String) : Prop := stringKey a ≤ stringKey b

instance : DecidableRel stringLE :=
  fun a b => inferInstanceAs (Decidable (stringKey a ≤ stringKey b))

/-- The function `sort.Strings`: the increasing rearrangement of the slice. -/
def sortStrings (l : List String) : List String := l.insertionSort stringLE

/-- The Unicode tables consulted by `strings.Title` for runes above `MaxASCII`;
they are data of the Go `unicode` package and are taken as a parameter. -/
structure UnicodeTables where
  IsLetter : Char → Bool
  IsDigit : Char → Bool
  IsSpace : Char → Bool
  ToTitle : Char → Char

/-- The function `isSeparator` of package `strings`. -/
def isSeparator (U : UnicodeTables) (r : Char) : Bool :=
  if r.toNat ≤ 0x7F then
    if 48 ≤ r.toNat ∧ r.toNat ≤ 57 then false
    else if 97 ≤ r.toNat ∧ r.toNat ≤ 122 then false
    else if 65 ≤ r.toNat ∧ r.toNat ≤ 90 then false
    else if r = '_' then false
    else true
  else if U.IsLetter r || U.IsDigit r then false
  else U.IsSpace r

/-- The function `unicode.ToTitle`. -/
def ToTitle (U : UnicodeTables) (r : Char) : Char :=
  if r.toNat ≤ 0x7F then
    if 97 ≤ r.toNat ∧ r.toNat ≤ 122 then Char.ofNat (r.toNat - 32) else r
  else U.ToTitle r

/-- The closure `strings.Title` passes to `strings.Map`, run over the runes of
the string: `prev` is the rune seen before. -/
def titleMap (U : UnicodeTables) : Char → List Char → List Char
  | _, [] => []
  | prev, r :: rest =>
    (if isSeparator U prev then ToTitle U r else r) :: titleMap U r rest

/-- The function `strings.Title`: every rune that follows a separator (or starts
the string) is mapped to title case. -/
def Title (U : UnicodeTables) (s : String) : String := ⟨titleMap U ' ' s.data⟩

/-- Tables that classify no rune above `MaxASCII` and leave each unchanged; used
to evaluate the generator on ASCII inputs, which never consult the tables. -/
def asciiTables : UnicodeTables :=
  { IsLetter := fun _ => false, IsDigit := fun _ => false,
    IsSpace := fun _ => false, ToTitle := fun r => r }

/-- Two's-complement wrap-around of a 64-bit `int`. -/
def wrapInt (x : Int) : Int := (x + 2 ^ 63) % 2 ^ 64 - 2 ^ 63

/-! ## The generator -/

/-- Go: `deriveGoType`. -/
def deriveGoType (goType name : String) (st : GenState) : String × GenState :=
  let salt := wrapInt (st.saltValue + 1)
  (goType ++ "_" ++ name ++ "_" ++ toString salt, { st with saltValue := salt })

/-- The signature of `getGoType` with its state made explicit. -/
abbrev TypeMapper := String → String → Schema → GenState → Result String

/-- Go: `getGoTypeWithPtr`, over a given type mapper. -/
def getGoTypeWithPtrUsing (get : TypeMapper) (goType name : String) (s : Schema)
    (st : GenState) : Result String :=
  match get goType name s st with
  | .ok t st1 => .ok (if !s.Required then "*" ++ t else t) st1
  | .panic p => .panic p
  | .outOfFuel => .outOfFuel

/-- The first loop of `generateResourceType`: classification of the sorted
names into provided and immutable attributes. -/
def classifyLoop (m : List (String × Schema)) :
    List String → List String → List String → Option (List String × List String)
  | [], providedAttributes, immutableAttributes =>
    some (providedAttributes, immutableAttributes)
  | name :: rest, providedAttributes, immutableAttributes =>
    match m.lookup name with
    | none => none
    | some schema =>
      classifyLoop m rest
        (if !schema.Required then providedAttributes ++ [name] else providedAttributes)
        (if schema.ForceNew then immutableAttributes ++ [name] else immutableAttributes)

/-- The second loop of `generateResourceType`: one struct field per sorted name. -/
def structFieldsLoop (U : UnicodeTables) (get : TypeMapper) (structType : String)
    (m : List (String × Schema)) :
    List String → List structField → GenState → Result (List structField)
  | [], structFields, st => .ok structFields st
  | name :: rest, structFields, st =>
    match m.lookup name with
    | none => .panic .nilDereference
    | some s =>
      match getGoTypeWithPtrUsing get structType name s st with
      | .ok t st1 =>
        structFieldsLoop U get structType m rest
          (structFields ++ [⟨Title U name, t⟩]) st1
      | .panic p => .panic p
      | .outOfFuel => .outOfFuel

/-- Go: `generateResourceType`, over a given type mapper. -/
def generateResourceTypeUsing (U : UnicodeTables) (get : TypeMapper)
    (nativeType : String) (r : Resource) (insertID : Bool) (st : GenState) :
    Result (List String × List String) :=
  let names := sortStrings (r.Schema.map Prod.fst)
  match classifyLoop r.Schema names [] [] with
  | none => .panic .nilDereference
  | some (providedAttributes, immutableAttributes) =>
    let structType := Title U nativeType
    match structFieldsLoop U get structType r.Schema names [] st with
    | .ok structFields st1 =>
      .ok (providedAttributes, immutableAttributes)
        { st1 with code := st1.code ++
            [Fragment.typeTemplate
              { StructType := structType, StructFields := structFields,
                InsertID := insertID }] }
    | .panic p => .panic p
    | .outOfFuel => .outOfFuel

/-- The `*schema.Resource` case shared by `TypeList` and `TypeSet`. -/
def nestedResourceCase (U : UnicodeTables) (get : TypeMapper) (goType name : String)
    (r : Resource) (st : GenState) : Result String :=
  match generateResourceTypeUsing U get (deriveGoType goType name st).1 r false
      (deriveGoType goType name st).2 with
  | .ok _ st2 => .ok ("[]" ++ (deriveGoType goType name st).1) st2
  | .panic p => .panic p
  | .outOfFuel => .outOfFuel

/-- The `*schema.Schema` case shared by `TypeList` and `TypeSet`. -/
def elemSchemaCase (get : TypeMapper) (goType name : String) (e : Schema)
    (st : GenState) : Result String :=
  match get goType name e st with
  | .ok t st1 => .ok ("[]" ++ t) st1
  | .panic p => .panic p
  | .outOfFuel => .outOfFuel

/-- Go: `getGoType`. The first argument bounds the nesting depth. -/
def getGoType (U : UnicodeTables) : Nat → TypeMapper
  | 0, _, _, _, _ => .outOfFuel
  | fuel + 1, goType, name, s, st =>
    match s.Type_ with
    | .TypeBool => .ok "bool" st
    | .TypeInt => .ok "int" st
    | .TypeFloat => .ok "float64" st
    | .TypeString => .ok "string" st
    | .TypeList =>
      match s.Elem with
      | .resource r => nestedResourceCase U (getGoType U fuel) goType name r st
      | .schema e => elemSchemaCase (getGoType U fuel) goType name e st
      | .nilResource => .panic .nilDereference
      | .nilSchema => .panic .nilDereference
      | _ => .panic .unsupportedTypeList
    | .TypeMap => .ok "map[string]string" st
    | .TypeSet =>
      match s.Elem with
      | .resource r => nestedResourceCase U (getGoType U fuel) goType name r st
      | .schema e => elemSchemaCase (getGoType U fuel) goType name e st
      | .nilResource => .panic .nilDereference
      | .nilSchema => .panic .nilDereference
      | _ => .panic .unsupportedTypeSet
    | _ => .panic .unknownSchemaType

/-- Go: `getGoTypeWithPtr`. -/
def getGoTypeWithPtr (U : UnicodeTables) (fuel : Nat) : TypeMapper :=
  getGoTypeWithPtrUsing (getGoType U fuel)

/-- Go: `generateResourceType`. -/
def generateResourceType (U : UnicodeTables) (fuel : Nat) (nativeType : String)
    (r : Resource) (insertID : Bool) (st : GenState) :
    Result (List String × List String) :=
  generateResourceTypeUsing U (getGoType U fuel) nativeType r insertID st

/-- Go: `generatePrefix`. -/
def generatePrefix (st : GenState) : GenState :=
  { st with code := Fragment.prefixTemplate st.prefixTemplateData :: st.code }

/-- Go: `generateResource`. -/
def generateResource (U : UnicodeTables) (fuel : Nat) (nativeType : String)
    (r : Resource) (st : GenState) : Result Unit :=
  match generateResourceType U fuel nativeType r true st with
  | .ok (providedAttributes, immutableAttributes) st1 =>
    let structType := Title U nativeType
    .ok ()
      { st1 with
        prefixTemplateData :=
          { st1.prefixTemplateData with
            StructTypes := st1.prefixTemplateData.StructTypes ++ [structType] }
        code := st1.code ++
          [Fragment.providerTemplate
            { StructType := structType, NativeType := nativeType,
              ProvidedAttributes := providedAttributes,
              ImmutableAttributes := immutableAttributes }] }
  | .panic p => .panic p
  | .outOfFuel => .outOfFuel

/-- The loop of `Generate` over the sorted native types. -/
def resourcesLoop (U : UnicodeTables) (fuel : Nat) (m : List (String × Resource)) :
    List String → GenState → Result Unit
  | [], st => .ok () st
  | nativeType :: rest, st =>
    match m.lookup nativeType with
    | none => .panic .nilDereference
    | some r =>
      match generateResource U fuel nativeType r st with
      | .ok _ st1 => resourcesLoop U fuel m rest st1
      | .panic p => .panic p
      | .outOfFuel => .outOfFuel

/-- Go: `Generate`, up to and including `generatePrefix`. The last argument is
the generation state left by whatever ran before. -/
def Generate (U : UnicodeTables) (fuel : Nat) (p : Provider) (ns : String)
    (_old : GenState) : Result Unit :=
  let st0 : GenState :=
    { saltValue := 0, prefixTemplateData := { Namespace := ns, StructTypes := [] },
      code := [] }
  let nativeTypes := sortStrings (p.ResourcesMap.map Prod.fst)
  match resourcesLoop U fuel p.ResourcesMap nativeTypes st0 with
  | .ok _ st1 => .ok () (generatePrefix st1)
  | .panic p => .panic p
  | .outOfFuel => .outOfFuel

/-! ## Predicates used in the statements -/

/-- The aggregate name `name` is the capitalised form of a name minted by
`deriveGoType` with counter value `k`. -/
def MintedWith (U : UnicodeTables) (name : String) (k : Int) : Prop :=
  ∃ goType attr : String, name = Title U (goType ++ "_" ++ attr ++ "_" ++ toString k)

/-- The counter after `k` executions of `saltValue++` from the value `x`. -/
def advance (x : Int) : Nat → Int
  | 0 => x
  | k + 1 => wrapInt (advance x k + 1)

/-- The counter goes from `x` to `y` while the nested aggregate definitions `ds`
are emitted: the counter advances once per definition, none of the definitions
has an identity field, and each bears its own one of the counter values
minted on the way. -/
def Minting (U : UnicodeTables) (x y : Int) (ds : List structData) : Prop :=
  y = advance x ds.length ∧
  (∀ d ∈ ds, d.InsertID = false) ∧
  ∃ ks : List Nat, ks.Nodup ∧ (∀ k ∈ ks, 1 ≤ k ∧ k ≤ ds.length) ∧
    List.Forall₂ (fun d k => MintedWith U d.StructType (advance x k)) ds ks

/-- The effect of a traversal that starts in `st0` and ends in `st1`: the prefix
data is untouched and the nested aggregate definitions `ds` are appended to the
emission list, the counter advancing accordingly. -/
def NestedRun (U : UnicodeTables) (st0 st1 : GenState) (ds : List structData) : Prop :=
  st1.prefixTemplateData = st0.prefixTemplateData ∧
  st1.code = st0.code ++ ds.map Fragment.typeTemplate ∧
  Minting U st0.saltValue st1.saltValue ds

/-- What one `generateResource` call appends to the emission list: the nested
aggregate definitions, the aggregate of the resource, the handler block. -/
structure ResourceBlock where
  nested : List structData
  top : structData
  handler : providerData

/-- The fragments of a block, in emission order. -/
def ResourceBlock.fragments (b : ResourceBlock) : List Fragment :=
  b.nested.map Fragment.typeTemplate ++
    [Fragment.typeTemplate b.top, Fragment.providerTemplate b.handler]

/-- The block that `generateResource` appends for the native type `nt`. -/
def BlockFor (U : UnicodeTables) (m : List (String × Resource)) (nt : String)
    (b : ResourceBlock) : Prop :=
  b.top.StructType = Title U nt ∧ b.top.InsertID = true ∧
  b.handler.StructType = Title U nt ∧ b.handler.NativeType = nt ∧
  ∃ r, m.lookup nt = some r ∧
    b.handler.ProvidedAttributes =
      (sortStrings (r.Schema.map Prod.fst)).filter (fun n => !attrRequired r.Schema n) ∧
    b.handler.ImmutableAttributes =
      (sortStrings (r.Schema.map Prod.fst)).filter (fun n => attrForceNew r.Schema n) ∧
    b.top.StructFields.map (fun f => f.FieldName) =
      (sortStrings (r.Schema.map Prod.fst)).map (Title U)

/-- Names of the aggregate definitions of the emission list that carry the
identity field, in emission order. -/
def topLevelTypes (code : List Fragment) : List String :=
  code.filterMap (fun f =>
    match f with
    | .typeTemplate d => if d.InsertID then some d.StructType else none
    | _ => none)

/-- Names of the aggregate definitions of the emission list that carry no
identity field, in emission order. -/
def nestedTypes (code : List Fragment) : List String :=
  code.filterMap (fun f =>
    match f with
    | .typeTemplate d => if d.InsertID then none else some d.StructType
    | _ => none)

/-- Native names of the handler blocks of the emission list, in emission order. -/
def handlerTypes (code : List Fragment) : List String :=
  code.filterMap (fun f =>
    match f with
    | .providerTemplate d => some d.NativeType
    | _ => none)

/-- Names of all aggregate definitions of the emission list, in emission order. -/
def aggregateNames (code : List Fragment) : List String :=
  code.filterMap (fun f =>
    match f with
    | .typeTemplate d => some d.StructType
    | _ => none)

/-! ## Scenarios of the specification -/

/-- Scenario B: `widget {name: String required, size: Int optional, tags: Map optional}`. -/
def widgetResource : Resource :=
  .mk [("tags", .mk .TypeMap false false .nil),
       ("name", .mk .TypeString true false .nil),
       ("size", .mk .TypeInt false false .nil)]

/-- Scenario C, the nested resource `{id: String required, price: Float optional forceNew}`. -/
def itemResource : Resource :=
  .mk [("price", .mk .TypeFloat false true .nil),
       ("id", .mk .TypeString true false .nil)]

/-- Scenario C, the attribute `items: List<Resource>` (not required). -/
def itemsSchema : Schema := .mk .TypeList false false (.resource itemResource)

/-- Scenario C: the resource `thing`. -/
def thingResource : Resource := .mk [("items", itemsSchema)]

/-- Scenario D: the resources `alpha` and `beta`, each with one required String
attribute `name`; the map is enumerated with `beta` first. -/
def alphaBetaProvider : Provider :=
  { ResourcesMap :=
      [("beta", .mk [("name", .mk .TypeString true false .nil)]),
       ("alpha", .mk [("name", .mk .TypeString true false .nil)])] }

/-- A provider with the resource `a`, whose attribute `b` is a list of nested
resources, and the resource `a_b_1`. -/
def collisionProvider : Provider :=
  { ResourcesMap :=
      [("a", .mk [("b", .mk .TypeList true false
          (.resource (.mk [("x", .mk .TypeString true false .nil)])))]),
       ("a_b_1", .mk [("x", .mk .TypeString true false .nil)])] }

/-- The state in which `Generate` leaves the run on `collisionProvider`. -/
def collisionOutput : GenState :=
  { saltValue := 1,
    prefixTemplateData := { Namespace := "N", StructTypes := ["A", "A_b_1"] },
    code :=
      [Fragment.prefixTemplate { Namespace := "N", StructTypes := ["A", "A_b_1"] },
       Fragment.typeTemplate
        { StructType := "A_b_1", StructFields := [⟨"X", "string"⟩], InsertID := false },
       Fragment.typeTemplate
        { StructType := "A", StructFields := [⟨"B", "[]A_b_1"⟩], InsertID := true },
       Fragment.providerTemplate
        { StructType := "A", NativeType := "a",
          ProvidedAttributes := [], ImmutableAttributes := [] },
       Fragment.typeTemplate
        { StructType := "A_b_1", StructFields := [⟨"X", "string"⟩], InsertID := true },
       Fragment.providerTemplate
        { StructType := "A_b_1", NativeType := "a_b_1",
          ProvidedAttributes := [], ImmutableAttributes := [] }] }

/-- Scenario C as a provider: the single resource `thing`. -/
def thingProvider : Provider := { ResourcesMap := [("thing", thingResource)] }

/-- Scenario A: the provider without resources. -/
def emptyProvider : Provider := { ResourcesMap := [] }

/-- A resource `net` whose attribute `rules` is a list of nested resources that
have themselves a list `ports` of nested resources. -/
def netResource : Resource :=
  .mk [("rules", .mk .TypeList true false
    (.resource (.mk
      [("ports", .mk .TypeList true false
          (.resource (.mk [("from", .mk .TypeInt true false .nil)]))),
       ("name", .mk .TypeString true false .nil)])))]

/-- The provider with the single resource `net`. -/
def netProvider : Provider := { ResourcesMap := [("net", netResource)] }

/-- A state whose counter holds the largest `int`. -/
def maxCounterState : GenState :=
  { saltValue := 2 ^ 63 - 1, prefixTemplateData := { Namespace := "N", StructTypes := [] },
    code := [] }

/-- The state at the start of a run with namespace `ns`. -/
def initState (ns : String) : GenState :=
  { saltValue := 0, prefixTemplateData := { Namespace := ns, StructTypes := [] },
    code := [] }

/-! ## Further scenarios and name classes -/

/-- A required Set of the nested resources of Scenario C. -/
def itemsSetSchema : Schema := .mk .TypeSet true false (.resource itemResource)

/-- The state in which `Generate` leaves the run on `netProvider`. -/
def netOutput : GenState :=
  { saltValue := 2,
    prefixTemplateData := { Namespace := "N", StructTypes := ["Net"] },
    code :=
      [Fragment.prefixTemplate { Namespace := "N", StructTypes := ["Net"] },
       Fragment.typeTemplate
        { StructType := "Net_rules_1_ports_2", StructFields := [⟨"From", "int"⟩],
          InsertID := false },
       Fragment.typeTemplate
        { StructType := "Net_rules_1",
          StructFields := [⟨"Name", "string"⟩, ⟨"Ports", "[]Net_rules_1_ports_2"⟩],
          InsertID := false },
       Fragment.typeTemplate
        { StructType := "Net", StructFields := [⟨"Rules", "[]Net_rules_1"⟩],
          InsertID := true },
       Fragment.providerTemplate
        { StructType := "Net", NativeType := "net",
          ProvidedAttributes := [], ImmutableAttributes := [] }] }

/-- The state in which `Generate` leaves the run on `thingProvider`. -/
def thingOutput : GenState :=
  { saltValue := 1,
    prefixTemplateData := { Namespace := "N", StructTypes := ["Thing"] },
    code :=
      [Fragment.prefixTemplate { Namespace := "N", StructTypes := ["Thing"] },
       Fragment.typeTemplate
        { StructType := "Thing_items_1",
          StructFields := [⟨"Id", "string"⟩, ⟨"Price", "*float64"⟩],
          InsertID := false },
       Fragment.typeTemplate
        { StructType := "Thing",
          StructFields := [⟨"Items", "*[]Thing_items_1"⟩],
          InsertID := true },
       Fragment.providerTemplate
        { StructType := "Thing", NativeType := "thing",
          ProvidedAttributes := ["items"], ImmutableAttributes := [] }] }

/-- ASCII letters, digits and the underscore: the characters of Go identifiers
and of Terraform names that `strings.Title` does not treat as separators. -/
def plainChar (c : Char) : Bool :=
  decide ((48 ≤ c.toNat ∧ c.toNat ≤ 57) ∨ (65 ≤ c.toNat ∧ c.toNat ≤ 90) ∨
    (97 ≤ c.toNat ∧ c.toNat ≤ 122) ∨ c.toNat = 95)

/-- Lower-case ASCII letters, digits and the underscore: the characters of the
names Terraform accepts for attributes. -/
def lowerChar (c : Char) : Bool :=
  decide ((48 ≤ c.toNat ∧ c.toNat ≤ 57) ∨ (97 ≤ c.toNat ∧ c.toNat ≤ 122) ∨ c.toNat = 95)

/-- A name made of ASCII letters, digits and underscores. -/
def plainName (s : String) : Bool := s.data.all plainChar

/-- A name made of lower-case ASCII letters, digits and underscores. -/
def lowerName (s : String) : Bool := s.data.all lowerChar

/-- The string with its first rune mapped to title case and every other rune
unchanged. -/
def capitalizeFirst (U : UnicodeTables) (s : String) : String :=
  match s.data with
  | [] => s
  | c :: rest => ⟨ToTitle U c :: rest⟩

/-- A resource whose only attribute is named `foo-bar`. -/
def dashResource : Resource := .mk [("foo-bar", .mk .TypeString true false .nil)]

/-- A resource with the optional String attribute `a_id`. -/
def idClashResource : Resource := .mk [("a_id", .mk .TypeString false false .nil)]

/-- A resource with the attributes `foo` and `Foo`. -/
def caseClashResource : Resource :=
  .mk [("foo", .mk .TypeString true false .nil), ("Foo", .mk .TypeInt true false .nil)]

/-! ## Well-formed schemas and the unsupported shapes -/

mutual
/-- A well-formed schema tree: every attribute map in it is a map (no duplicate
keys) and no `Elem` in it is a nil `*schema.Schema` or `*schema.Resource`. -/
def Schema.wellFormed : Schema → Bool
  | .mk _ _ _ e => e.wellFormed
/-- The `Elem` value is no nil pointer and the tree below it is well formed. -/
def ElemVal.wellFormed : ElemVal → Bool
  | .schema s => s.wellFormed
  | .resource r => r.wellFormed
  | .nilSchema => false
  | .nilResource => false
  | _ => true
/-- The attribute map of the resource has no duplicate keys and its schemas are
well formed. -/
def Resource.wellFormed : Resource → Bool
  | .mk m => decide ((m.map Prod.fst).Nodup) && wellFormedAttrs m
/-- Every schema of the attribute map is well formed. -/
def wellFormedAttrs : List (String × Schema) → Bool
  | [] => true
  | (_, s) :: rest => s.wellFormed && wellFormedAttrs rest
end

/-- The resource map of the provider has no duplicate keys and its resources are
well formed. -/
def Provider.wellFormed (p : Provider) : Bool :=
  decide ((p.ResourcesMap.map Prod.fst).Nodup) && p.ResourcesMap.all (fun e => e.2.wellFormed)

/-- The panics raised by `getGoType` itself: the unsupported-schema errors. -/
def Panic.unsupportedSchema : Panic → Bool
  | .unsupportedTypeList => true
  | .unsupportedTypeSet => true
  | .unknownSchemaType => true
  | .nilDereference => false

/-- The shapes at which `getGoType` raises one of its own panics: a List or Set
whose `Elem` has a dynamic type other than `*schema.Schema` and
`*schema.Resource` (the nil interface included), or a kind outside Bool, Int,
Float, String, Map, List, Set. -/
def Schema.offending (s : Schema) : Bool :=
  match s.Type_ with
  | .TypeBool => false
  | .TypeInt => false
  | .TypeFloat => false
  | .TypeString => false
  | .TypeMap => false
  | .TypeList =>
    match s.Elem with
    | .schema _ => false
    | .resource _ => false
    | .nilSchema => false
    | .nilResource => false
    | _ => true
  | .TypeSet =>
    match s.Elem with
    | .schema _ => false
    | .resource _ => false
    | .nilSchema => false
    | .nilResource => false
    | _ => true
  | _ => true

/-- The attribute schemas of the traversal of `s`: `s` itself, and for a List or
Set those of its element schema or of the attributes of its nested resource. -/
inductive Reaches : Schema → Schema → Prop
  | self (s : Schema) : Reaches s s
  | elem (ty : ValueType) (req fn : Bool) (e a : Schema) :
      (ty = .TypeList ∨ ty = .TypeSet) → Reaches e a →
      Reaches (.mk ty req fn (.schema e)) a
  | attr (ty : ValueType) (req fn : Bool) (m : List (String × Schema)) (name : String)
      (c a : Schema) :
      (ty = .TypeList ∨ ty = .TypeSet) → (name, c) ∈ m → Reaches c a →
      Reaches (.mk ty req fn (.resource (.mk m))) a

/-- The attribute schemas of the traversal of a resource. -/
def Resource.reaches (r : Resource) (a : Bridge.Schema) : Prop :=
  ∃ name c, (name, c) ∈ r.Schema ∧ Reaches c a

/-- The attribute schemas of the traversal of a provider. -/
def Provider.reaches (p : Provider) (a : Schema) : Prop :=
  ∃ nt r, (nt, r) ∈ p.ResourcesMap ∧ r.reaches a

/-- Scenario E: a List attribute whose element is neither an attribute schema nor
a nested resource. -/
def oddListSchema : Schema := .mk .TypeList false false .other

/-- A List attribute whose `Elem` is the nil pointer of type `*schema.Resource`. -/
def nilResourceSchema : Schema := .mk .TypeList false false .nilResource

/-- A Set attribute whose `Elem` is the nil pointer of type `*schema.Schema`. -/
def nilSchemaSchema : Schema := .mk .TypeSet true false .nilSchema

/-- A resource whose attribute `items` is a list of nested resources with a Set
attribute `x` that has no `Elem`. -/
def oddResource : Resource :=
  .mk [("items", .mk .TypeList false false
          (.resource (.mk [("x", .mk .TypeSet true false .nil),
                           ("label", .mk .TypeString true false .nil)])))]

/-- The provider with the resources `widget` (supported) and `odd`. -/
def oddProvider : Provider :=
  { ResourcesMap := [("widget", widgetResource), ("odd", oddResource)] }

/-! ## Enumeration orders of a provider -/

mutual
/-- Two attribute schemas that agree up to the enumeration order of the
attribute maps of the resources nested in them. -/
inductive SameSchema : Schema → Schema → Prop
  | mk (t : ValueType) (req fn : Bool) (e e2 : ElemVal) : SameElem e e2 →
      SameSchema (.mk t req fn e) (.mk t req fn e2)
/-- Two `Elem` values that agree up to the enumeration order of attribute maps. -/
inductive SameElem : ElemVal → ElemVal → Prop
  | nil : SameElem .nil .nil
  | other : SameElem .other .other
  | nilSchema : SameElem .nilSchema .nilSchema
  | nilResource : SameElem .nilResource .nilResource
  | schema (s s2 : Schema) : SameSchema s s2 → SameElem (.schema s) (.schema s2)
  | resource (r r2 : Resource) : SameResource r r2 → SameElem (.resource r) (.resource r2)
/-- Two enumerations of one resource: the attribute maps have the same keys, without
duplicates, and the schemas under each key agree up to enumeration order. -/
inductive SameResource : Resource → Resource → Prop
  | mk (m m2 : List (String × Schema)) :
      (m.map Prod.fst).Nodup → (m2.map Prod.fst).Perm (m.map Prod.fst) →
      (∀ name s s2, m.lookup name = some s → m2.lookup name = some s2 → SameSchema s s2) →
      SameResource (.mk m) (.mk m2)
end

/-- Two enumerations of one provider: the resource maps have the same keys, without
duplicates, and the resources under each key agree up to enumeration order. -/
def SameProvider (p p2 : Provider) : Prop :=
  (p.ResourcesMap.map Prod.fst).Nodup ∧
  (p2.ResourcesMap.map Prod.fst).Perm (p.ResourcesMap.map Prod.fst) ∧
  ∀ nt r r2, p.ResourcesMap.lookup nt = some r → p2.ResourcesMap.lookup nt = some r2 →
    SameResource r r2

/-- A provider with a nested resource, in one enumeration order. -/
def shopProvider : Provider :=
  { ResourcesMap :=
      [("thing", .mk [("name", .mk .TypeString true false .nil), ("items", itemsSchema)]),
       ("alpha", .mk [("name", .mk .TypeString true false .nil)])] }

/-- The provider `shopProvider` with the resource map and the attribute maps, the
nested one included, enumerated in another order. -/
def shopProviderReordered : Provider :=
  { ResourcesMap :=
      [("alpha", .mk [("name", .mk .TypeString true false .nil)]),
       ("thing",
         .mk [("items", .mk .TypeList false false
                 (.resource (.mk [("id", .mk .TypeString true false .nil),
                                  ("price", .mk .TypeFloat false true .nil)]))),
              ("name", .mk .TypeString true false .nil)])] }

/-! ## The post-order listing of the nested aggregates -/

/-- The signature of the post-order listing: parent aggregate name, attribute name,
attribute schema and counter to the names listed and the counter afterwards. -/
abbrev NameLister := String → String → Schema → Int → List String × Int

/-- Post-order listing for the attributes `names` of the map `m`, in the order
given, inside the aggregate `parent`: the listings of the attributes follow
one another, the counter running on from one to the next. -/
def postOrderLoop (f : NameLister) (parent : String) (m : List (String × Schema)) :
    List String → Int → List String × Int
  | [], c => ([], c)
  | name :: rest, c =>
    match m.lookup name with
    | none => ([], c)
    | some s =>
      ((f parent name s c).1 ++ (postOrderLoop f parent m rest (f parent name s c).2).1,
        (postOrderLoop f parent m rest (f parent name s c).2).2)

/-- Post-order listing for an `Elem` value. An element schema is listed like the
attribute itself. A nested resource takes the next counter value `c + 1` for
its own aggregate name `own`; the nested resources of its attributes, taken
in sorted order inside the aggregate `own`, are numbered after it and listed
before it. -/
def postOrderElem (U : UnicodeTables) (f : NameLister) (parent name : String) (e : ElemVal)
    (c : Int) : List String × Int :=
  match e with
  | .schema a => f parent name a c
  | .resource r =>
    ((postOrderLoop f
        (Title U (parent ++ "_" ++ name ++ "_" ++ toString (wrapInt (c + 1)))) r.Schema
        (sortStrings (r.Schema.map Prod.fst)) (wrapInt (c + 1))).1 ++
      [Title U (parent ++ "_" ++ name ++ "_" ++ toString (wrapInt (c + 1)))],
     (postOrderLoop f
        (Title U (parent ++ "_" ++ name ++ "_" ++ toString (wrapInt (c + 1)))) r.Schema
        (sortStrings (r.Schema.map Prod.fst)) (wrapInt (c + 1))).2)
  | _ => ([], c)

/-- The names of the nested aggregates of the attribute `name` with schema `s`
inside the aggregate `parent`, in post-order, with `c` names minted before;
the second component is the counter afterwards. The first argument bounds
the nesting depth. -/
def postOrderNames (U : UnicodeTables) : Nat → NameLister
  | 0, _, _, _, c => ([], c)
  | fuel + 1, parent, name, s, c =>
    match s.Type_ with
    | .TypeList => postOrderElem U (postOrderNames U fuel) parent name s.Elem c
    | .TypeSet => postOrderElem U (postOrderNames U fuel) parent name s.Elem c
    | _ => ([], c)

/-- The post-order listings of the resources `names` of the map `m`, one list per
resource, the counter running on from one resource to the next. -/
def postOrderRun (U : UnicodeTables) (fuel : Nat) (m : List (String × Resource)) :
    List String → Int → List (List String) × Int
  | [], c => ([], c)
  | nt :: rest, c =>
    match m.lookup nt with
    | none => ([], c)
    | some r =>
      ((postOrderLoop (postOrderNames U fuel) (Title U nt) r.Schema
          (sortStrings (r.Schema.map Prod.fst)) c).1 ::
        (postOrderRun U fuel m rest
          (postOrderLoop (postOrderNames U fuel) (Title U nt) r.Schema
            (sortStrings (r.Schema.map Prod.fst)) c).2).1,
       (postOrderRun U fuel m rest
          (postOrderLoop (postOrderNames U fuel) (Title U nt) r.Schema
            (sortStrings (r.Schema.map Prod.fst)) c).2).2)

/-- The provider with the resources `thing` (Scenario C) and `net`. -/
def netThingProvider : Provider :=
  { ResourcesMap := [("thing", thingResource), ("net", netResource)] }

/-! ## The form of minted names -/

/-- A decimal digit. -/
def isDigitChar (c : Char) : Bool := decide (48 ≤ c.toNat) && decide (c.toNat ≤ 57)

/-- The name ends in an underscore followed by one or more decimal digits, the
form of the names minted by `deriveGoType`. -/
def endsInCounter (s : String) : Bool :=
  !(s.data.reverse.takeWhile isDigitChar).isEmpty &&
    ((s.data.reverse.dropWhile isDigitChar).head? == some '_')

/-! ## Auxiliary facts: strings, sorting, map lookup -/

theorem charToNat_injective : Function.Injective Char.toNat := by
  intro x y hxy
  have := congrArg Char.ofNat hxy
  simpa using this

theorem stringKey_injective : Function.Injective stringKey := by
  intro a b h
  unfold stringKey at h
  exact String.ext (List.map_injective_iff.mpr charToNat_injective h)

theorem stringLE_total : IsTotal String stringLE :=
  ⟨fun a b => le_total (stringKey a) (stringKey b)⟩

theorem stringLE_trans : IsTrans String stringLE :=
  ⟨fun a b c h1 h2 => @le_trans (List Nat) _ (stringKey a) (stringKey b) (stringKey c) h1 h2⟩

theorem stringLE_antisymm : IsAntisymm String stringLE :=
  ⟨fun a b h1 h2 =>
    stringKey_injective (@le_antisymm (List Nat) _ (stringKey a) (stringKey b) h1 h2)⟩

theorem sortStrings_perm (l : List String) : (sortStrings l).Perm l :=
  List.perm_insertionSort stringLE l

theorem sortStrings_sorted (l : List String) : (sortStrings l).Sorted stringLE := by
  haveI := stringLE_total
  haveI := stringLE_trans
  exact List.sorted_insertionSort stringLE l

theorem sortStrings_eq_of_perm {l1 l2 : List String} (h : l1.Perm l2) :
    sortStrings l1 = sortStrings l2 := by
  haveI := stringLE_antisymm
  exact List.eq_of_perm_of_sorted
    ((sortStrings_perm l1).trans (h.trans (sortStrings_perm l2).symm))
    (sortStrings_sorted l1) (sortStrings_sorted l2)

theorem mem_sortStrings {l : List String} {x : String} : x ∈ sortStrings l ↔ x ∈ l :=
  (sortStrings_perm l).mem_iff

theorem sortStrings_nodup {l : List String} (h : l.Nodup) : (sortStrings l).Nodup :=
  (sortStrings_perm l).nodup_iff.mpr h

theorem lookup_of_mem_keys {α : Type} (m : List (String × α)) (name : String)
    (h : name ∈ m.map Prod.fst) : ∃ v, m.lookup name = some v ∧ (name, v) ∈ m := by
  induction m with
  | nil => simp at h
  | cons e rest ih =>
    obtain ⟨k, v⟩ := e
    by_cases hk : name = k
    · subst hk
      exact ⟨v, by simp [List.lookup], by simp⟩
    · have hne : (name == k) = false := by simpa using hk
      have h2 : name ∈ rest.map Prod.fst := by
        simp only [List.map_cons, List.mem_cons] at h
        rcases h with h | h
        · exact absurd h hk
        · exact h
      obtain ⟨w, hw, hmem⟩ := ih h2
      exact ⟨w, by simp [List.lookup, hne, hw], List.mem_cons_of_mem _ hmem⟩

theorem lookup_eq_of_mem_nodup {α : Type} (m : List (String × α)) (name : String) (v : α)
    (hnd : (m.map Prod.fst).Nodup) (h : (name, v) ∈ m) : m.lookup name = some v := by
  induction m with
  | nil => simp at h
  | cons e rest ih =>
    obtain ⟨k, w⟩ := e
    simp only [List.map_cons, List.nodup_cons] at hnd
    simp only [List.mem_cons, Prod.mk.injEq] at h
    rcases h with ⟨h1, h2⟩ | h
    · subst h1; subst h2
      simp [List.lookup]
    · have hne : name ≠ k := by
        rintro rfl
        exact hnd.1 (List.mem_map_of_mem Prod.fst h)
      have hne2 : (name == k) = false := by simpa using hne
      simp [List.lookup, hne2, ih hnd.2 h]

theorem mem_of_lookup_eq_some {α : Type} (m : List (String × α)) (name : String) (v : α)
    (h : m.lookup name = some v) : (name, v) ∈ m := by
  induction m with
  | nil => simp at h
  | cons e rest ih =>
    obtain ⟨k, w⟩ := e
    by_cases hk : name = k
    · subst hk
      simp [List.lookup] at h
      subst h
      simp
    · have hne : (name == k) = false := by simpa using hk
      simp only [List.lookup, hne] at h
      exact List.mem_cons_of_mem _ (ih h)

theorem lookup_perm {α : Type} {m1 m2 : List (String × α)} (hp : m1.Perm m2)
    (hnd : (m1.map Prod.fst).Nodup) (name : String) : m1.lookup name = m2.lookup name := by
  have hnd2 : (m2.map Prod.fst).Nodup := (hp.map Prod.fst).nodup_iff.mp hnd
  by_cases hk : name ∈ m1.map Prod.fst
  · obtain ⟨v, hv, hmem⟩ := lookup_of_mem_keys m1 name hk
    rw [hv, lookup_eq_of_mem_nodup m2 name v hnd2 (hp.mem_iff.mp hmem)]
  · have h1 : m1.lookup name = none := by
      cases h : m1.lookup name with
      | none => rfl
      | some v =>
        exact absurd (List.mem_map_of_mem Prod.fst (mem_of_lookup_eq_some _ _ _ h)) hk
    have hk2 : name ∉ m2.map Prod.fst := fun h => hk ((hp.map Prod.fst).mem_iff.mpr h)
    have h2 : m2.lookup name = none := by
      cases h : m2.lookup name with
      | none => rfl
      | some v =>
        exact absurd (List.mem_map_of_mem Prod.fst (mem_of_lookup_eq_some _ _ _ h)) hk2
    rw [h1, h2]

/-! ## The loops of `generateResourceType` -/

theorem attrRequired_of_lookup {m : List (String × Schema)} {name : String} {s : Schema}
    (h : m.lookup name = some s) : attrRequired m name = s.Required := by
  simp [attrRequired, h]

theorem attrForceNew_of_lookup {m : List (String × Schema)} {name : String} {s : Schema}
    (h : m.lookup name = some s) : attrForceNew m name = s.ForceNew := by
  simp [attrForceNew, h]

theorem classifyLoop_eq (m : List (String × Schema)) :
    ∀ (names p i : List String), (∀ n ∈ names, n ∈ m.map Prod.fst) →
      classifyLoop m names p i =
        some (p ++ names.filter (fun n => !attrRequired m n),
              i ++ names.filter (fun n => attrForceNew m n)) := by
  intro names
  induction names with
  | nil => intro p i _; simp [classifyLoop]
  | cons name rest ih =>
    intro p i hmem
    obtain ⟨s, hs, _⟩ := lookup_of_mem_keys m name (hmem name (List.mem_cons_self _ _))
    have hrest : ∀ n ∈ rest, n ∈ m.map Prod.fst := fun n hn => hmem n (List.mem_cons_of_mem _ hn)
    simp only [classifyLoop, hs]
    rw [ih _ _ hrest]
    have hr := attrRequired_of_lookup hs
    have hf := attrForceNew_of_lookup hs
    cases hreq : s.Required <;> cases hfn : s.ForceNew <;>
      simp [List.filter_cons, hr, hf, hreq, hfn]

theorem getGoTypeWithPtrUsing_ok {get : TypeMapper} {g n : String} {s : Schema}
    {st st1 : GenState} {t : String} (h : get g n s st = .ok t st1) :
    getGoTypeWithPtrUsing get g n s st = .ok (if !s.Required then "*" ++ t else t) st1 := by
  simp [getGoTypeWithPtrUsing, h]

theorem getGoTypeWithPtrUsing_ok_inv {get : TypeMapper} {g n : String} {s : Schema}
    {st st1 : GenState} {t' : String} (h : getGoTypeWithPtrUsing get g n s st = .ok t' st1) :
    ∃ t, get g n s st = .ok t st1 ∧ t' = (if !s.Required then "*" ++ t else t) := by
  unfold getGoTypeWithPtrUsing at h
  split at h
  · next t st2 heq =>
    simp only [Result.ok.injEq] at h
    obtain ⟨h1, h2⟩ := h
    subst h2
    exact ⟨t, heq, h1.symm⟩
  · simp at h
  · simp at h

theorem structFieldsLoop_fields (U : UnicodeTables) (get : TypeMapper) (structType : String)
    (m : List (String × Schema)) :
    ∀ (names : List String) (acc : List structField) (st : GenState)
      (fields : List structField) (st1 : GenState),
      structFieldsLoop U get structType m names acc st = .ok fields st1 →
      ∃ new, fields = acc ++ new ∧
        List.Forall₂ (fun name f => f.FieldName = Title U name ∧
          ∃ s sa sb, m.lookup name = some s ∧
            getGoTypeWithPtrUsing get structType name s sa = .ok f.FieldType sb) names new := by
  intro names
  induction names with
  | nil =>
    intro acc st fields st1 h
    simp only [structFieldsLoop, Result.ok.injEq] at h
    exact ⟨[], by simp [h.1], List.Forall₂.nil⟩
  | cons name rest ih =>
    intro acc st fields st1 h
    unfold structFieldsLoop at h
    split at h
    · simp at h
    · next s hs =>
      split at h
      · next t st2 hget =>
        obtain ⟨new, hnew, hall⟩ := ih _ _ _ _ h
        refine ⟨⟨Title U name, t⟩ :: new, by simp [hnew], ?_⟩
        exact List.Forall₂.cons ⟨rfl, s, st, st2, hs, hget⟩ hall
      · simp at h
      · simp at h

theorem structFieldsLoop_inv (U : UnicodeTables) (get : TypeMapper) (structType : String)
    (m : List (String × Schema)) (R : GenState → GenState → Prop)
    (hrefl : ∀ st, R st st) (htrans : ∀ a b c, R a b → R b c → R a c)
    (hstep : ∀ name s st t st1, m.lookup name = some s →
      get structType name s st = .ok t st1 → R st st1) :
    ∀ (names : List String) (acc : List structField) (st : GenState)
      (fields : List structField) (st1 : GenState),
      structFieldsLoop U get structType m names acc st = .ok fields st1 → R st st1 := by
  intro names
  induction names with
  | nil =>
    intro acc st fields st1 h
    simp only [structFieldsLoop, Result.ok.injEq] at h
    rw [← h.2]
    exact hrefl st
  | cons name rest ih =>
    intro acc st fields st1 h
    unfold structFieldsLoop at h
    split at h
    · simp at h
    · next s hs =>
      split at h
      · next t st2 hget =>
        obtain ⟨t0, hget0, _⟩ := getGoTypeWithPtrUsing_ok_inv hget
        exact htrans _ _ _ (hstep name s st t0 st2 hs hget0) (ih _ _ _ _ h)
      · simp at h
      · simp at h

theorem structFieldsLoop_total (U : UnicodeTables) (get : TypeMapper) (structType : String)
    (m : List (String × Schema)) :
    ∀ (names : List String),
      (∀ name ∈ names, ∃ s, m.lookup name = some s ∧
        ∀ st, ∃ t st1, get structType name s st = .ok t st1) →
      ∀ (acc : List structField) (st : GenState),
        ∃ fields st1, structFieldsLoop U get structType m names acc st = .ok fields st1 := by
  intro names
  induction names with
  | nil => intro _ acc st; exact ⟨acc, st, rfl⟩
  | cons name rest ih =>
    intro hall acc st
    obtain ⟨s, hs, hget⟩ := hall name (List.mem_cons_self _ _)
    obtain ⟨t, st2, ht⟩ := hget st
    have hrest := ih (fun n hn => hall n (List.mem_cons_of_mem _ hn))
    obtain ⟨fields, st1, hloop⟩ :=
      hrest (acc ++ [⟨Title U name, if !s.Required then "*" ++ t else t⟩]) st2
    refine ⟨fields, st1, ?_⟩
    simp only [structFieldsLoop, hs, getGoTypeWithPtrUsing_ok ht]
    exact hloop

theorem generateResourceTypeUsing_ok_inv {U : UnicodeTables} {get : TypeMapper}
    {nativeType : String} {r : Resource} {insertID : Bool} {st st1 : GenState}
    {pi : List String × List String}
    (h : generateResourceTypeUsing U get nativeType r insertID st = .ok pi st1) :
    ∃ fields stm,
      structFieldsLoop U get (Title U nativeType) r.Schema
        (sortStrings (r.Schema.map Prod.fst)) [] st = .ok fields stm ∧
      st1 = { stm with code := stm.code ++
        [Fragment.typeTemplate
          { StructType := Title U nativeType, StructFields := fields,
            InsertID := insertID }] } ∧
      pi = ((sortStrings (r.Schema.map Prod.fst)).filter (fun n => !attrRequired r.Schema n),
            (sortStrings (r.Schema.map Prod.fst)).filter (fun n => attrForceNew r.Schema n)) := by
  unfold generateResourceTypeUsing at h
  have hc := classifyLoop_eq r.Schema (sortStrings (r.Schema.map Prod.fst)) [] []
    (fun n hn => mem_sortStrings.mp hn)
  simp only [hc, List.nil_append] at h
  split at h
  · next fields stm hloop =>
    simp only [Result.ok.injEq] at h
    exact ⟨fields, stm, hloop, h.2.symm, h.1.symm⟩
  · simp at h
  · simp at h

theorem generateResourceTypeUsing_total (U : UnicodeTables) (get : TypeMapper)
    (nativeType : String) (r : Resource) (insertID : Bool) (st : GenState)
    (hget : ∀ name s, (name, s) ∈ r.Schema →
      ∀ st, ∃ t st1, get (Title U nativeType) name s st = .ok t st1) :
    ∃ pi st1, generateResourceTypeUsing U get nativeType r insertID st = .ok pi st1 := by
  unfold generateResourceTypeUsing
  have hc := classifyLoop_eq r.Schema (sortStrings (r.Schema.map Prod.fst)) [] []
    (fun n hn => mem_sortStrings.mp hn)
  simp only [hc, List.nil_append]
  have hloop := structFieldsLoop_total U get (Title U nativeType) r.Schema
    (sortStrings (r.Schema.map Prod.fst))
    (fun name hn => by
      obtain ⟨s, hs, hmem⟩ := lookup_of_mem_keys r.Schema name (mem_sortStrings.mp hn)
      exact ⟨s, hs, hget name s hmem⟩) [] st
  obtain ⟨fields, st1, hl⟩ := hloop
  simp only [hl]
  exact ⟨_, _, rfl⟩

/-! ## Termination: enough fuel gives a result on supported schemas -/

theorem supported_of_mem {m : List (String × Schema)} (h : supportedAttrs m = true)
    {name : String} {s : Schema} (hmem : (name, s) ∈ m) : s.supported = true := by
  induction m with
  | nil => simp at hmem
  | cons e rest ih =>
    obtain ⟨k, w⟩ := e
    simp only [supportedAttrs, Bool.and_eq_true] at h
    simp only [List.mem_cons, Prod.mk.injEq] at hmem
    rcases hmem with ⟨_, h2⟩ | hmem
    · subst h2; exact h.1
    · exact ih h.2 hmem

theorem depth_le_of_mem {m : List (String × Schema)}
    {name : String} {s : Schema} (hmem : (name, s) ∈ m) : s.depth ≤ depthAttrs m := by
  induction m with
  | nil => simp at hmem
  | cons e rest ih =>
    obtain ⟨k, w⟩ := e
    simp only [depthAttrs]
    simp only [List.mem_cons, Prod.mk.injEq] at hmem
    rcases hmem with ⟨_, h2⟩ | hmem
    · subst h2; exact le_max_left _ _
    · exact le_trans (ih hmem) (le_max_right _ _)

theorem nestedResourceCase_total (U : UnicodeTables) (get : TypeMapper) (g n : String)
    (r : Resource) (st : GenState)
    (hget : ∀ name s, (name, s) ∈ r.Schema → ∀ gt st, ∃ t st1, get gt name s st = .ok t st1) :
    ∃ st1, nestedResourceCase U get g n r st = .ok ("[]" ++ (deriveGoType g n st).1) st1 := by
  unfold nestedResourceCase
  obtain ⟨pi, st1, h⟩ := generateResourceTypeUsing_total U get
    (deriveGoType g n st).1 r false (deriveGoType g n st).2 (fun name s hmem st => hget name s hmem _ st)
  simp only [h]
  exact ⟨st1, rfl⟩

theorem getGoType_total (U : UnicodeTables) :
    ∀ (fuel : Nat) (s : Schema), s.supported = true → s.depth ≤ fuel →
      ∀ (g n : String) (st : GenState), ∃ t st1, getGoType U fuel g n s st = .ok t st1 := by
  intro fuel
  induction fuel with
  | zero =>
    intro s _ hd
    cases s with
    | mk t req fn e => simp [Schema.depth] at hd
  | succ fuel ih =>
    intro s hs hd g n st
    cases s with
    | mk t req fn e =>
      simp only [Schema.depth, Nat.add_le_add_iff_right] at hd
      cases t <;> simp only [Schema.supported, Bool.false_eq_true] at hs <;>
        try (exact ⟨_, _, rfl⟩)
      all_goals
          (cases e with
           | nil => simp [ElemVal.supported] at hs
           | other => simp [ElemVal.supported] at hs
           | nilSchema => simp [ElemVal.supported] at hs
           | nilResource => simp [ElemVal.supported] at hs
           | schema s2 =>
             simp only [ElemVal.supported] at hs
             simp only [ElemVal.depth] at hd
             obtain ⟨t2, st2, h2⟩ := ih s2 hs hd g n st
             refine ⟨"[]" ++ t2, st2, ?_⟩
             simp [getGoType, Schema.Type_, Schema.Elem, elemSchemaCase, h2]
           | resource r =>
             simp only [ElemVal.supported] at hs
             simp only [ElemVal.depth] at hd
             cases r with
             | mk m =>
               simp only [Resource.supported] at hs
               simp only [Resource.depth] at hd
               obtain ⟨st2, h2⟩ := nestedResourceCase_total U (getGoType U fuel)
                 g n (Resource.mk m) st
                 (fun name s hmem gt st =>
                   ih s (supported_of_mem hs hmem) (le_trans (depth_le_of_mem hmem) hd) gt name st)
               refine ⟨"[]" ++ (deriveGoType g n st).1, st2, ?_⟩
               simp [getGoType, Schema.Type_, Schema.Elem, h2])

/-! ## Case analysis of a successful `getGoType` call -/

theorem elemSchemaCase_ok_inv {get : TypeMapper} {g n : String} {e : Schema}
    {st st1 : GenState} {t : String} (h : elemSchemaCase get g n e st = .ok t st1) :
    ∃ t0, get g n e st = .ok t0 st1 ∧ t = "[]" ++ t0 := by
  unfold elemSchemaCase at h
  split at h
  · next t0 st2 heq =>
    simp only [Result.ok.injEq] at h
    obtain ⟨h1, h2⟩ := h
    subst h2
    exact ⟨t0, heq, h1.symm⟩
  · simp at h
  · simp at h

theorem nestedResourceCase_ok_inv {U : UnicodeTables} {get : TypeMapper} {g n : String}
    {r : Resource} {st st1 : GenState} {t : String}
    (h : nestedResourceCase U get g n r st = .ok t st1) :
    t = "[]" ++ (deriveGoType g n st).1 ∧
      ∃ pi, generateResourceTypeUsing U get (deriveGoType g n st).1 r false
        (deriveGoType g n st).2 = .ok pi st1 := by
  unfold nestedResourceCase at h
  split at h
  · next pi st2 heq =>
    simp only [Result.ok.injEq] at h
    obtain ⟨h1, h2⟩ := h
    subst h2
    exact ⟨h1.symm, pi, heq⟩
  · simp at h
  · simp at h

theorem getGoType_zero (U : UnicodeTables) (g n : String) (s : Schema) (st : GenState) :
    getGoType U 0 g n s st = .outOfFuel := rfl

theorem getGoType_succ_ok_inv {U : UnicodeTables} {fuel : Nat} {g n : String} {s : Schema}
    {st st1 : GenState} {t : String} (h : getGoType U (fuel + 1) g n s st = .ok t st1) :
    (st1 = st ∧
      ((s.Type_ = .TypeBool ∧ t = "bool") ∨ (s.Type_ = .TypeInt ∧ t = "int") ∨
       (s.Type_ = .TypeFloat ∧ t = "float64") ∨ (s.Type_ = .TypeString ∧ t = "string") ∨
       (s.Type_ = .TypeMap ∧ t = "map[string]string"))) ∨
    ((s.Type_ = .TypeList ∨ s.Type_ = .TypeSet) ∧ ∃ e, s.Elem = .schema e ∧
      elemSchemaCase (getGoType U fuel) g n e st = .ok t st1) ∨
    ((s.Type_ = .TypeList ∨ s.Type_ = .TypeSet) ∧ ∃ r, s.Elem = .resource r ∧
      nestedResourceCase U (getGoType U fuel) g n r st = .ok t st1) := by
  cases s with
  | mk ty req fn e =>
    cases ty <;> simp only [getGoType, Schema.Type_, Schema.Elem] at h
    case TypeInvalid => simp at h
    case typeObject => simp at h
    case TypeBool => simp only [Result.ok.injEq] at h; simp [Schema.Type_, h.1.symm, h.2.symm]
    case TypeInt => simp only [Result.ok.injEq] at h; simp [Schema.Type_, h.1.symm, h.2.symm]
    case TypeFloat => simp only [Result.ok.injEq] at h; simp [Schema.Type_, h.1.symm, h.2.symm]
    case TypeString => simp only [Result.ok.injEq] at h; simp [Schema.Type_, h.1.symm, h.2.symm]
    case TypeMap => simp only [Result.ok.injEq] at h; simp [Schema.Type_, h.1.symm, h.2.symm]
    case TypeList =>
      cases e with
      | nil => simp at h
      | other => simp at h
      | nilSchema => simp at h
      | nilResource => simp at h
      | schema e2 => exact Or.inr (Or.inl ⟨Or.inl rfl, e2, rfl, h⟩)
      | resource r => exact Or.inr (Or.inr ⟨Or.inl rfl, r, rfl, h⟩)
    case TypeSet =>
      cases e with
      | nil => simp at h
      | other => simp at h
      | nilSchema => simp at h
      | nilResource => simp at h
      | schema e2 => exact Or.inr (Or.inl ⟨Or.inr rfl, e2, rfl, h⟩)
      | resource r => exact Or.inr (Or.inr ⟨Or.inr rfl, r, rfl, h⟩)

theorem head_brackets (t : String) : ("[]" ++ t).data.head? = some '[' := by
  simp [String.data_append]

theorem head_star (t : String) : ("*" ++ t).data.head? = some '*' := by
  simp [String.data_append]

theorem getGoType_head_ne_star {U : UnicodeTables} {fuel : Nat} {g n : String} {s : Schema}
    {st st1 : GenState} {t : String} (h : getGoType U fuel g n s st = .ok t st1) :
    t.data.head? ≠ some '*' := by
  cases fuel with
  | zero => simp [getGoType_zero] at h
  | succ fuel =>
    rcases getGoType_succ_ok_inv h with ⟨_, hp⟩ | ⟨_, e, _, he⟩ | ⟨_, r, _, hr⟩
    · rcases hp with ⟨_, rfl⟩ | ⟨_, rfl⟩ | ⟨_, rfl⟩ | ⟨_, rfl⟩ | ⟨_, rfl⟩ <;> decide
    · obtain ⟨t0, _, rfl⟩ := elemSchemaCase_ok_inv he
      rw [head_brackets]; decide
    · obtain ⟨rfl, _⟩ := nestedResourceCase_ok_inv hr
      rw [head_brackets]; decide

/-! ## The effect of a traversal on the generation state -/

theorem wrapInt_of_range {x : Int} (h1 : -2 ^ 63 ≤ x) (h2 : x < 2 ^ 63) : wrapInt x = x := by
  unfold wrapInt
  norm_num at h1 h2 ⊢
  omega

theorem wrapInt_add_wrapInt (x y : Int) : wrapInt (wrapInt x + y) = wrapInt (x + y) := by
  unfold wrapInt
  norm_num
  omega

theorem advance_add (x : Int) (a b : Nat) : advance (advance x a) b = advance x (a + b) := by
  induction b with
  | zero => rfl
  | succ b ih =>
    show wrapInt (advance (advance x a) b + 1) = wrapInt (advance x (a + b) + 1)
    rw [ih]

theorem advance_one_add (x : Int) (k : Nat) :
    advance (wrapInt (x + 1)) k = advance x (k + 1) := by
  have h := advance_add x 1 k
  simp only [advance] at h
  rw [h, Nat.add_comm]

theorem Minting_refl (U : UnicodeTables) (x : Int) : Minting U x x [] :=
  ⟨rfl, by simp, [], List.nodup_nil, by simp, List.Forall₂.nil⟩

theorem Minting_trans {U : UnicodeTables} {x y z : Int} {ds1 ds2 : List structData}
    (h1 : Minting U x y ds1) (h2 : Minting U y z ds2) : Minting U x z (ds1 ++ ds2) := by
  obtain ⟨hs1, hi1, ks1, hnd1, hb1, hf1⟩ := h1
  obtain ⟨hs2, hi2, ks2, hnd2, hb2, hf2⟩ := h2
  refine ⟨?_, ?_, ks1 ++ ks2.map (fun k => ds1.length + k), ?_, ?_, ?_⟩
  · rw [hs2, hs1, advance_add, List.length_append]
  · intro d hd
    rcases List.mem_append.mp hd with hd | hd
    · exact hi1 d hd
    · exact hi2 d hd
  · rw [List.nodup_append]
    refine ⟨hnd1, hnd2.map (fun x y hxy => by simpa using hxy), ?_⟩
    intro k hk1 hk2
    obtain ⟨j, hj, rfl⟩ := List.mem_map.mp hk2
    have := hb1 _ hk1
    have := hb2 _ hj
    omega
  · intro k hk
    rw [List.length_append]
    rcases List.mem_append.mp hk with hk | hk
    · have := hb1 _ hk
      omega
    · obtain ⟨j, hj, rfl⟩ := List.mem_map.mp hk
      have := hb2 _ hj
      omega
  · refine List.rel_append hf1 ?_
    rw [List.forall₂_map_right_iff]
    refine hf2.imp ?_
    intro d k hm
    rw [hs1, advance_add] at hm
    exact hm

theorem Minting_mint {U : UnicodeTables} {x y : Int} {g n : String}
    {ds : List structData} (fields : List structField)
    (h : Minting U (wrapInt (x + 1)) y ds) :
    Minting U x y
      (ds ++ [{ StructType := Title U (g ++ "_" ++ n ++ "_" ++ toString (wrapInt (x + 1))),
                StructFields := fields, InsertID := false }]) := by
  obtain ⟨hs, hi, ks, hnd, hb, hf⟩ := h
  refine ⟨?_, ?_, ks.map (fun k => k + 1) ++ [1], ?_, ?_, ?_⟩
  · rw [hs, advance_one_add, List.length_append]
    rfl
  · intro d hd
    rcases List.mem_append.mp hd with hd | hd
    · exact hi d hd
    · simp only [List.mem_singleton] at hd
      rw [hd]
  · rw [List.nodup_append]
    refine ⟨hnd.map (fun x y hxy => by simpa using hxy), by simp, ?_⟩
    intro k hk1 hk2
    obtain ⟨j, hj, rfl⟩ := List.mem_map.mp hk1
    have := hb _ hj
    simp only [List.mem_singleton] at hk2
    omega
  · intro k hk
    rw [List.length_append]
    rcases List.mem_append.mp hk with hk | hk
    · obtain ⟨j, hj, rfl⟩ := List.mem_map.mp hk
      have := hb _ hj
      simp only [List.length_singleton]
      omega
    · simp only [List.mem_singleton] at hk
      simp only [List.length_singleton]
      omega
  · refine List.rel_append ?_ ?_
    · rw [List.forall₂_map_right_iff]
      refine hf.imp ?_
      intro d k hm
      rw [advance_one_add] at hm
      exact hm
    · refine List.Forall₂.cons ?_ List.Forall₂.nil
      exact ⟨g, n, rfl⟩

theorem NestedRun_refl (U : UnicodeTables) (st : GenState) : NestedRun U st st [] :=
  ⟨rfl, by simp, Minting_refl U _⟩

theorem NestedRun_trans {U : UnicodeTables} {a b c : GenState} {ds1 ds2 : List structData}
    (h1 : NestedRun U a b ds1) (h2 : NestedRun U b c ds2) : NestedRun U a c (ds1 ++ ds2) := by
  obtain ⟨hp1, hc1, hm1⟩ := h1
  obtain ⟨hp2, hc2, hm2⟩ := h2
  refine ⟨hp2.trans hp1, ?_, Minting_trans hm1 hm2⟩
  rw [hc2, hc1, List.map_append, List.append_assoc]

theorem NestedRun_mint {U : UnicodeTables} {st st2 : GenState} {g n : String}
    {ds : List structData} (fields : List structField)
    (h : NestedRun U (deriveGoType g n st).2 st2 ds) :
    NestedRun U st
      { st2 with code := st2.code ++
        [Fragment.typeTemplate
          { StructType := Title U (deriveGoType g n st).1, StructFields := fields,
            InsertID := false }] }
      (ds ++ [{ StructType := Title U (deriveGoType g n st).1, StructFields := fields,
                InsertID := false }]) := by
  obtain ⟨hp, hc, hm⟩ := h
  refine ⟨hp, ?_, Minting_mint fields hm⟩
  show st2.code ++ _ = st.code ++ _
  rw [hc, List.map_append, ← List.append_assoc]
  rfl

theorem structFieldsLoop_nestedRun {U : UnicodeTables} {get : TypeMapper}
    {structType : String} {m : List (String × Schema)}
    (hget : ∀ g n s st t st1, get g n s st = .ok t st1 → ∃ ds, NestedRun U st st1 ds)
    {names : List String} {acc fields : List structField} {st st1 : GenState}
    (h : structFieldsLoop U get structType m names acc st = .ok fields st1) :
    ∃ ds, NestedRun U st st1 ds :=
  structFieldsLoop_inv U get structType m (fun a b => ∃ ds, NestedRun U a b ds)
    (fun st => ⟨[], NestedRun_refl U st⟩)
    (fun _ _ _ ⟨ds1, h1⟩ ⟨ds2, h2⟩ => ⟨ds1 ++ ds2, NestedRun_trans h1 h2⟩)
    (fun name s st t st1 _ hg => hget structType name s st t st1 hg)
    names acc st fields st1 h

theorem getGoType_nestedRun (U : UnicodeTables) :
    ∀ (fuel : Nat) (g n : String) (s : Schema) (st : GenState) (t : String) (st1 : GenState),
      getGoType U fuel g n s st = .ok t st1 → ∃ ds, NestedRun U st st1 ds := by
  intro fuel
  induction fuel with
  | zero => intro g n s st t st1 h; simp [getGoType_zero] at h
  | succ fuel ih =>
    intro g n s st t st1 h
    rcases getGoType_succ_ok_inv h with ⟨hst, _⟩ | ⟨_, e, _, he⟩ | ⟨_, r, _, hr⟩
    · subst hst
      exact ⟨[], NestedRun_refl U _⟩
    · obtain ⟨t0, h0, _⟩ := elemSchemaCase_ok_inv he
      exact ih _ _ _ _ _ _ h0
    · obtain ⟨_, pi, hgen⟩ := nestedResourceCase_ok_inv hr
      obtain ⟨fields, stm, hloop, hst1, _⟩ := generateResourceTypeUsing_ok_inv hgen
      obtain ⟨ds, hds⟩ := structFieldsLoop_nestedRun (U := U) ih hloop
      rw [hst1]
      exact ⟨_, NestedRun_mint fields hds⟩

/-- The shape of a successful `generateResourceType` call: a traversal that
appends nested aggregate definitions, then the definition of the resource. -/
theorem generateResourceType_shape {U : UnicodeTables} {fuel : Nat} {nativeType : String}
    {r : Resource} {insertID : Bool} {st st1 : GenState} {pi : List String × List String}
    (h : generateResourceType U fuel nativeType r insertID st = .ok pi st1) :
    ∃ ds fields stm, NestedRun U st stm ds ∧
      st1 = { stm with code := stm.code ++
        [Fragment.typeTemplate
          { StructType := Title U nativeType, StructFields := fields,
            InsertID := insertID }] } ∧
      List.Forall₂ (fun name f => f.FieldName = Title U name ∧
          ∃ s sa sb, r.Schema.lookup name = some s ∧
            getGoTypeWithPtr U fuel (Title U nativeType) name s sa = .ok f.FieldType sb)
        (sortStrings (r.Schema.map Prod.fst)) fields ∧
      pi = ((sortStrings (r.Schema.map Prod.fst)).filter (fun n => !attrRequired r.Schema n),
            (sortStrings (r.Schema.map Prod.fst)).filter (fun n => attrForceNew r.Schema n)) := by
  obtain ⟨fields, stm, hloop, hst1, hpi⟩ := generateResourceTypeUsing_ok_inv h
  obtain ⟨ds, hds⟩ := structFieldsLoop_nestedRun (U := U) (getGoType_nestedRun U fuel) hloop
  obtain ⟨new, hnew, hall⟩ := structFieldsLoop_fields U _ _ _ _ _ _ _ _ hloop
  simp only [List.nil_append] at hnew
  subst hnew
  exact ⟨ds, fields, stm, hds, hst1, hall, hpi⟩

theorem generateResourceType_total (U : UnicodeTables) (fuel : Nat) (nativeType : String)
    {r : Resource} (insertID : Bool) (st : GenState)
    (hs : r.supported = true) (hf : r.depth ≤ fuel) :
    ∃ pi st1, generateResourceType U fuel nativeType r insertID st = .ok pi st1 := by
  cases r with
  | mk m =>
    simp only [Resource.supported] at hs
    simp only [Resource.depth] at hf
    exact generateResourceTypeUsing_total U (getGoType U fuel) nativeType (Resource.mk m)
      insertID st (fun name s hmem st =>
      getGoType_total U fuel s (supported_of_mem hs hmem)
        (le_trans (depth_le_of_mem hmem) hf) _ name st)

/-! ## Independence of the enumeration order of a map -/

theorem classifyLoop_congr {m m' : List (String × Schema)}
    (h : ∀ name, m'.lookup name = m.lookup name) :
    ∀ (names p i : List String), classifyLoop m' names p i = classifyLoop m names p i := by
  intro names
  induction names with
  | nil => intro p i; rfl
  | cons name rest ih =>
    intro p i
    simp only [classifyLoop, h name]
    cases m.lookup name with
    | none => rfl
    | some s => exact ih _ _

theorem structFieldsLoop_congr {U : UnicodeTables} {get : TypeMapper} {structType : String}
    {m m' : List (String × Schema)} (h : ∀ name, m'.lookup name = m.lookup name) :
    ∀ (names : List String) (acc : List structField) (st : GenState),
      structFieldsLoop U get structType m' names acc st =
        structFieldsLoop U get structType m names acc st := by
  intro names
  induction names with
  | nil => intro acc st; rfl
  | cons name rest ih =>
    intro acc st
    simp only [structFieldsLoop, h name, ih]

theorem generateResourceTypeUsing_perm {U : UnicodeTables} {get : TypeMapper}
    {m m' : List (String × Schema)} (hnd : (m.map Prod.fst).Nodup) (hperm : m'.Perm m)
    (nativeType : String) (insertID : Bool) (st : GenState) :
    generateResourceTypeUsing U get nativeType (.mk m') insertID st =
      generateResourceTypeUsing U get nativeType (.mk m) insertID st := by
  have hnd' : (m'.map Prod.fst).Nodup := (hperm.map Prod.fst).nodup_iff.mpr hnd
  have hl : ∀ name, m'.lookup name = m.lookup name := fun name => lookup_perm hperm hnd' name
  have hsort : sortStrings (m'.map Prod.fst) = sortStrings (m.map Prod.fst) :=
    sortStrings_eq_of_perm (hperm.map Prod.fst)
  simp only [generateResourceTypeUsing, Resource.Schema, hsort, classifyLoop_congr hl,
    structFieldsLoop_congr hl]

theorem mem_filter_forceNew {m : List (String × Schema)} (hnd : (m.map Prod.fst).Nodup)
    (name : String) :
    name ∈ (sortStrings (m.map Prod.fst)).filter (fun n => attrForceNew m n) ↔
      ∃ s, (name, s) ∈ m ∧ s.ForceNew = true := by
  rw [List.mem_filter, mem_sortStrings]
  constructor
  · rintro ⟨hk, hf⟩
    obtain ⟨s, hs, hmem⟩ := lookup_of_mem_keys m name hk
    rw [attrForceNew_of_lookup hs] at hf
    exact ⟨s, hmem, hf⟩
  · rintro ⟨s, hmem, hf⟩
    have hs := lookup_eq_of_mem_nodup m name s hnd hmem
    refine ⟨List.mem_map_of_mem Prod.fst hmem, ?_⟩
    rw [attrForceNew_of_lookup hs]
    exact hf

theorem mem_filter_notRequired {m : List (String × Schema)} (hnd : (m.map Prod.fst).Nodup)
    (name : String) :
    name ∈ (sortStrings (m.map Prod.fst)).filter (fun n => !attrRequired m n) ↔
      ∃ s, (name, s) ∈ m ∧ s.Required = false := by
  rw [List.mem_filter, mem_sortStrings]
  constructor
  · rintro ⟨hk, hf⟩
    obtain ⟨s, hs, hmem⟩ := lookup_of_mem_keys m name hk
    rw [attrRequired_of_lookup hs] at hf
    exact ⟨s, hmem, by simpa using hf⟩
  · rintro ⟨s, hmem, hf⟩
    have hs := lookup_eq_of_mem_nodup m name s hnd hmem
    refine ⟨List.mem_map_of_mem Prod.fst hmem, ?_⟩
    rw [attrRequired_of_lookup hs]
    simpa using hf

theorem getGoType_flags_irrelevant (U : UnicodeTables) (fuel : Nat) (g n : String)
    (ty : ValueType) (r1 f1 r2 f2 : Bool) (e : ElemVal) (st : GenState) :
    getGoType U fuel g n (.mk ty r1 f1 e) st = getGoType U fuel g n (.mk ty r2 f2 e) st := by
  cases fuel with
  | zero => rfl
  | succ fuel => cases ty <;> rfl

theorem supported_flags_irrelevant (ty : ValueType) (r1 f1 r2 f2 : Bool) (e : ElemVal) :
    (Schema.mk ty r1 f1 e).supported = (Schema.mk ty r2 f2 e).supported := by
  cases ty <;> simp [Schema.supported]

theorem fieldNames_of_forall₂ {U : UnicodeTables} {P : String → structField → Prop}
    {names : List String} {fields : List structField}
    (h : List.Forall₂ (fun name f => f.FieldName = Title U name ∧ P name f) names fields) :
    fields.map (fun f => f.FieldName) = names.map (Title U) := by
  induction h with
  | nil => rfl
  | cons hd _ ih => simp [hd.1, ih]

/-! ## The shape of a `generateResource` call -/

theorem generateResource_shape {U : UnicodeTables} {fuel : Nat} {nativeType : String}
    {r : Resource} {st st2 : GenState} {u : Unit}
    (h : generateResource U fuel nativeType r st = .ok u st2) :
    ∃ (ds : List structData) (fields : List structField),
      st2.code = st.code ++ ds.map Fragment.typeTemplate ++
        [Fragment.typeTemplate
          { StructType := Title U nativeType, StructFields := fields, InsertID := true },
         Fragment.providerTemplate
          { StructType := Title U nativeType, NativeType := nativeType,
            ProvidedAttributes :=
              (sortStrings (r.Schema.map Prod.fst)).filter (fun n => !attrRequired r.Schema n),
            ImmutableAttributes :=
              (sortStrings (r.Schema.map Prod.fst)).filter
                (fun n => attrForceNew r.Schema n) }] ∧
      st2.prefixTemplateData =
        { st.prefixTemplateData with
          StructTypes := st.prefixTemplateData.StructTypes ++ [Title U nativeType] } ∧
      Minting U st.saltValue st2.saltValue ds ∧
      List.Forall₂ (fun name f => f.FieldName = Title U name ∧
          ∃ s sa sb, r.Schema.lookup name = some s ∧
            getGoTypeWithPtr U fuel (Title U nativeType) name s sa = .ok f.FieldType sb)
        (sortStrings (r.Schema.map Prod.fst)) fields := by
  unfold generateResource at h
  split at h
  · next prov imm st1 hgen =>
    obtain ⟨ds, fields, stm, ⟨hp, hc, hm⟩, hst1, hall, hpi⟩ := generateResourceType_shape hgen
    simp only [Result.ok.injEq, true_and] at h
    simp only [Prod.mk.injEq] at hpi
    refine ⟨ds, fields, ?_, ?_, ?_, hall⟩
    · rw [← h, hst1, hpi.1, hpi.2]
      show (stm.code ++ _) ++ _ = _
      rw [hc]
      simp
    · rw [← h, hst1]
      show _ = _
      simp only [hp]
    · rw [← h, hst1]
      exact hm
  · simp at h
  · simp at h

theorem generateResource_total (U : UnicodeTables) (fuel : Nat) (nativeType : String)
    {r : Resource} (st : GenState) (hs : r.supported = true) (hf : r.depth ≤ fuel) :
    ∃ st2, generateResource U fuel nativeType r st = .ok () st2 := by
  obtain ⟨pi, st1, hgen⟩ := generateResourceType_total U fuel
    nativeType true st hs hf
  obtain ⟨prov, imm⟩ := pi
  unfold generateResource
  simp only [hgen]
  exact ⟨_, rfl⟩

/-! ## The shape of a `Generate` run -/

theorem provider_supported_of_mem {p : Provider} (h : p.supported = true)
    {nt : String} {r : Resource} (hmem : (nt, r) ∈ p.ResourcesMap) : r.supported = true := by
  unfold Provider.supported at h
  rw [List.all_eq_true] at h
  exact h (nt, r) hmem

theorem foldr_max_ge {l : List Nat} {x : Nat} (h : x ∈ l) : x ≤ l.foldr max 0 := by
  induction l with
  | nil => simp at h
  | cons y rest ih =>
    simp only [List.foldr_cons]
    rcases List.mem_cons.mp h with rfl | h
    · exact le_max_left _ _
    · exact le_trans (ih h) (le_max_right _ _)

theorem provider_depth_of_mem {p : Provider}
    {nt : String} {r : Resource} (hmem : (nt, r) ∈ p.ResourcesMap) : r.depth ≤ p.depth := by
  unfold Provider.depth
  exact foldr_max_ge (List.mem_map.mpr ⟨(nt, r), hmem, rfl⟩)

theorem resourcesLoop_total (U : UnicodeTables) (fuel : Nat) (m : List (String × Resource)) :
    ∀ (names : List String),
      (∀ nt ∈ names, ∃ r, m.lookup nt = some r ∧ r.supported = true ∧ r.depth ≤ fuel) →
      ∀ st, ∃ st1, resourcesLoop U fuel m names st = .ok () st1 := by
  intro names
  induction names with
  | nil => intro _ st; exact ⟨st, rfl⟩
  | cons nt rest ih =>
    intro hall st
    obtain ⟨r, hl, hs, hf⟩ := hall nt (List.mem_cons_self _ _)
    obtain ⟨st2, h2⟩ := generateResource_total U fuel nt st hs hf
    obtain ⟨st1, h1⟩ := ih (fun n hn => hall n (List.mem_cons_of_mem _ hn)) st2
    refine ⟨st1, ?_⟩
    simp only [resourcesLoop, hl, h2]
    exact h1

theorem resourcesLoop_shape (U : UnicodeTables) (fuel : Nat) (m : List (String × Resource)) :
    ∀ (names : List String) (st st1 : GenState) (u : Unit),
      resourcesLoop U fuel m names st = .ok u st1 →
      ∃ blocks : List ResourceBlock,
        st1.code = st.code ++ (blocks.map ResourceBlock.fragments).flatten ∧
        st1.prefixTemplateData =
          { st.prefixTemplateData with
            StructTypes := st.prefixTemplateData.StructTypes ++ names.map (Title U) } ∧
        Minting U st.saltValue st1.saltValue (blocks.map (fun b => b.nested)).flatten ∧
        List.Forall₂ (BlockFor U m) names blocks := by
  intro names
  induction names with
  | nil =>
    intro st st1 u h
    simp only [resourcesLoop, Result.ok.injEq] at h
    obtain ⟨_, h⟩ := h
    subst h
    exact ⟨[], by simp, by simp, Minting_refl U _, List.Forall₂.nil⟩
  | cons nt rest ih =>
    intro st st1 u h
    unfold resourcesLoop at h
    split at h
    · simp at h
    · next r hl =>
      split at h
      · next u2 st2 hres =>
        obtain ⟨ds, fields, hcode, hpre, hmint, hall⟩ := generateResource_shape hres
        obtain ⟨blocks, hcode1, hpre1, hmint1, hall1⟩ := ih _ _ _ h
        refine ⟨⟨ds, { StructType := Title U nt, StructFields := fields, InsertID := true },
            { StructType := Title U nt, NativeType := nt,
              ProvidedAttributes :=
                (sortStrings (r.Schema.map Prod.fst)).filter
                  (fun n => !attrRequired r.Schema n),
              ImmutableAttributes :=
                (sortStrings (r.Schema.map Prod.fst)).filter
                  (fun n => attrForceNew r.Schema n) }⟩ :: blocks, ?_, ?_, ?_, ?_⟩
        · rw [hcode1, hcode]
          simp [ResourceBlock.fragments]
        · rw [hpre1, hpre]
          simp
        · simp only [List.map_cons, List.flatten_cons]
          exact Minting_trans hmint hmint1
        · refine List.Forall₂.cons ?_ hall1
          exact ⟨rfl, rfl, rfl, rfl, r, hl, rfl, rfl, fieldNames_of_forall₂ hall⟩
      · simp at h
      · simp at h

theorem Generate_total (U : UnicodeTables) (fuel : Nat) (p : Provider) (ns : String)
    (old : GenState) (hs : p.supported = true) (hf : p.depth ≤ fuel) :
    ∃ st, Generate U fuel p ns old = .ok () st := by
  obtain ⟨st1, h1⟩ := resourcesLoop_total U fuel p.ResourcesMap
    (sortStrings (p.ResourcesMap.map Prod.fst))
    (fun nt hn => by
      obtain ⟨r, hl, hmem⟩ := lookup_of_mem_keys p.ResourcesMap nt (mem_sortStrings.mp hn)
      exact ⟨r, hl, provider_supported_of_mem hs hmem,
        le_trans (provider_depth_of_mem hmem) hf⟩)
    { saltValue := 0, prefixTemplateData := { Namespace := ns, StructTypes := [] },
      code := [] }
  unfold Generate
  simp only [h1]
  exact ⟨_, rfl⟩

theorem Generate_shape {U : UnicodeTables} {fuel : Nat} {p : Provider} {ns : String}
    {old st : GenState} {u : Unit} (h : Generate U fuel p ns old = .ok u st) :
    ∃ blocks : List ResourceBlock,
      st.code =
        Fragment.prefixTemplate
          { Namespace := ns,
            StructTypes := (sortStrings (p.ResourcesMap.map Prod.fst)).map (Title U) } ::
          (blocks.map ResourceBlock.fragments).flatten ∧
      st.prefixTemplateData =
        { Namespace := ns,
          StructTypes := (sortStrings (p.ResourcesMap.map Prod.fst)).map (Title U) } ∧
      Minting U 0 st.saltValue (blocks.map (fun b => b.nested)).flatten ∧
      List.Forall₂ (BlockFor U p.ResourcesMap)
        (sortStrings (p.ResourcesMap.map Prod.fst)) blocks := by
  simp only [Generate] at h
  split at h
  · next u1 st1 hloop =>
    obtain ⟨blocks, hcode, hpre, hmint, hall⟩ := resourcesLoop_shape U fuel _ _ _ _ _ hloop
    simp only [Result.ok.injEq, true_and] at h
    simp only [List.nil_append] at hcode hpre
    refine ⟨blocks, ?_, ?_, ?_, hall⟩
    · rw [← h]
      simp only [generatePrefix, hpre, hcode]
    · rw [← h]
      simp only [generatePrefix, hpre]
    · rw [← h]
      exact hmint
  · simp at h
  · simp at h

/-! ## Reading the emission list -/

theorem topLevelTypes_append (a b : List Fragment) :
    topLevelTypes (a ++ b) = topLevelTypes a ++ topLevelTypes b := by
  simp [topLevelTypes, List.filterMap_append]

theorem nestedTypes_append (a b : List Fragment) :
    nestedTypes (a ++ b) = nestedTypes a ++ nestedTypes b := by
  simp [nestedTypes, List.filterMap_append]

theorem handlerTypes_append (a b : List Fragment) :
    handlerTypes (a ++ b) = handlerTypes a ++ handlerTypes b := by
  simp [handlerTypes, List.filterMap_append]

theorem topLevelTypes_nested (ds : List structData) (h : ∀ d ∈ ds, d.InsertID = false) :
    topLevelTypes (ds.map Fragment.typeTemplate) = [] := by
  induction ds with
  | nil => rfl
  | cons d rest ih =>
    have hd := h d (List.mem_cons_self _ _)
    have hr := ih (fun x hx => h x (List.mem_cons_of_mem _ hx))
    simp only [topLevelTypes] at hr
    simp [topLevelTypes, hd, hr]

theorem nestedTypes_nested (ds : List structData) (h : ∀ d ∈ ds, d.InsertID = false) :
    nestedTypes (ds.map Fragment.typeTemplate) = ds.map (fun d => d.StructType) := by
  induction ds with
  | nil => rfl
  | cons d rest ih =>
    have hd := h d (List.mem_cons_self _ _)
    have hr := ih (fun x hx => h x (List.mem_cons_of_mem _ hx))
    simp only [nestedTypes] at hr
    simp [nestedTypes, hd, hr]

theorem handlerTypes_nested (ds : List structData) :
    handlerTypes (ds.map Fragment.typeTemplate) = [] := by
  induction ds with
  | nil => rfl
  | cons d rest ih =>
    simp only [handlerTypes] at ih
    simp [handlerTypes, ih]

theorem topLevelTypes_blocks (blocks : List ResourceBlock)
    (hn : ∀ d ∈ (blocks.map (fun b => b.nested)).flatten, d.InsertID = false)
    (ht : ∀ b ∈ blocks, b.top.InsertID = true) :
    topLevelTypes (blocks.map ResourceBlock.fragments).flatten =
      blocks.map (fun b => b.top.StructType) := by
  induction blocks with
  | nil => rfl
  | cons b rest ih =>
    simp only [List.map_cons, List.flatten_cons, List.mem_append] at hn
    have hb := ht b (List.mem_cons_self _ _)
    have hr := ih (fun d hd => hn d (Or.inr hd)) (fun x hx => ht x (List.mem_cons_of_mem _ hx))
    simp only [List.map_cons, List.flatten_cons, topLevelTypes_append, hr,
      ResourceBlock.fragments, topLevelTypes_nested b.nested (fun d hd => hn d (Or.inl hd))]
    simp [topLevelTypes, hb]

theorem nestedTypes_blocks (blocks : List ResourceBlock)
    (hn : ∀ d ∈ (blocks.map (fun b => b.nested)).flatten, d.InsertID = false)
    (ht : ∀ b ∈ blocks, b.top.InsertID = true) :
    nestedTypes (blocks.map ResourceBlock.fragments).flatten =
      ((blocks.map (fun b => b.nested)).flatten).map (fun d => d.StructType) := by
  induction blocks with
  | nil => rfl
  | cons b rest ih =>
    simp only [List.map_cons, List.flatten_cons, List.mem_append] at hn
    have hb := ht b (List.mem_cons_self _ _)
    have hr := ih (fun d hd => hn d (Or.inr hd)) (fun x hx => ht x (List.mem_cons_of_mem _ hx))
    simp only [List.map_cons, List.flatten_cons, nestedTypes_append, hr,
      ResourceBlock.fragments, nestedTypes_nested b.nested (fun d hd => hn d (Or.inl hd)),
      List.map_append]
    simp [nestedTypes, hb]

theorem handlerTypes_blocks (blocks : List ResourceBlock) :
    handlerTypes (blocks.map ResourceBlock.fragments).flatten =
      blocks.map (fun b => b.handler.NativeType) := by
  induction blocks with
  | nil => rfl
  | cons b rest ih =>
    simp only [List.map_cons, List.flatten_cons, handlerTypes_append, ih,
      ResourceBlock.fragments, handlerTypes_nested]
    simp [handlerTypes]

theorem blocks_of_forall₂ {U : UnicodeTables} {m : List (String × Resource)}
    {names : List String} {blocks : List ResourceBlock}
    (h : List.Forall₂ (BlockFor U m) names blocks) :
    blocks.map (fun b => b.top.StructType) = names.map (Title U) ∧
    blocks.map (fun b => b.handler.NativeType) = names ∧
    ∀ b ∈ blocks, b.top.InsertID = true := by
  induction h with
  | nil => simp
  | cons hd _ ih =>
    obtain ⟨h1, h2, _, h4, _⟩ := hd
    obtain ⟨i1, i2, i3⟩ := ih
    refine ⟨by simp [h1, i1], by simp [h4, i2], ?_⟩
    intro b hb
    rcases List.mem_cons.mp hb with rfl | hb
    · exact h2
    · exact i3 b hb

theorem blocks_forall₂_order {U : UnicodeTables} {m : List (String × Resource)}
    {names : List String} {blocks : List ResourceBlock}
    (h : List.Forall₂ (BlockFor U m) names blocks)
    (hins : ∀ b ∈ blocks, ∀ d ∈ b.nested, d.InsertID = false) :
    List.Forall₂ (fun nt b => b.top.StructType = Title U nt ∧ b.top.InsertID = true ∧
        b.handler.NativeType = nt ∧ ∀ d ∈ b.nested, d.InsertID = false) names blocks := by
  induction h with
  | nil => exact List.Forall₂.nil
  | cons hd _ ih =>
    refine List.Forall₂.cons ⟨hd.1, hd.2.1, hd.2.2.2.1, hins _ (List.mem_cons_self _ _)⟩ ?_
    exact ih (fun b hb => hins b (List.mem_cons_of_mem _ hb))

/-! ## Minted names determine their counter value -/

theorem ToTitle_fixed (U : UnicodeTables) (c : Char)
    (h : c.toNat ≤ 127 ∧ ¬ (97 ≤ c.toNat ∧ c.toNat ≤ 122)) : ToTitle U c = c := by
  unfold ToTitle
  simp [h.1, h.2]

theorem titleMap_fixed (U : UnicodeTables) :
    ∀ (l : List Char) (prev : Char),
      (∀ c ∈ l, c.toNat ≤ 127 ∧ ¬ (97 ≤ c.toNat ∧ c.toNat ≤ 122)) → titleMap U prev l = l := by
  intro l
  induction l with
  | nil => intro _ _; rfl
  | cons c rest ih =>
    intro prev h
    have hc := ToTitle_fixed U c (h c (List.mem_cons_self _ _))
    have hr := ih c (fun x hx => h x (List.mem_cons_of_mem _ hx))
    simp [titleMap, hc, hr]

theorem titleMap_append_fixed (U : UnicodeTables) (l2 : List Char)
    (h : ∀ c ∈ l2, c.toNat ≤ 127 ∧ ¬ (97 ≤ c.toNat ∧ c.toNat ≤ 122)) :
    ∀ (l1 : List Char) (prev : Char), ∃ X, titleMap U prev (l1 ++ l2) = X ++ l2 := by
  intro l1
  induction l1 with
  | nil => intro prev; exact ⟨[], by simp [titleMap_fixed U l2 prev h]⟩
  | cons c rest ih =>
    intro prev
    obtain ⟨X, hX⟩ := ih c
    exact ⟨(if isSeparator U prev then ToTitle U c else c) :: X, by simp [titleMap, hX]⟩

theorem suffix_after_marker {a : Char} :
    ∀ (X Y D1 D2 : List Char), a ∉ D1 → a ∉ D2 → X ++ a :: D1 = Y ++ a :: D2 → D1 = D2 := by
  intro X
  induction X with
  | nil =>
    intro Y D1 D2 h1 h2 h
    cases Y with
    | nil => simpa using h
    | cons y Y =>
      simp only [List.nil_append, List.cons_append, List.cons.injEq] at h
      exact absurd (h.2 ▸ List.mem_append_right _ (List.mem_cons_self _ _)) h1
  | cons x X ih =>
    intro Y D1 D2 h1 h2 h
    cases Y with
    | nil =>
      simp only [List.nil_append, List.cons_append, List.cons.injEq] at h
      exact absurd (h.2 ▸ List.mem_append_right _ (List.mem_cons_self _ _)) h2
    | cons y Y =>
      simp only [List.cons_append, List.cons.injEq] at h
      exact ih Y D1 D2 h1 h2 h.2

theorem digitChar_toNat (x : Nat) (h : x < 10) : (Nat.digitChar x).toNat = 48 + x := by
  interval_cases x <;> rfl

theorem toDigitsCore_spec :
    ∀ (fuel n : Nat) (ds : List Char), n < fuel →
      ∃ pre, Nat.toDigitsCore 10 fuel n ds = pre ++ ds ∧
        (∀ c ∈ pre, 48 ≤ c.toNat ∧ c.toNat ≤ 57) ∧
        pre.foldl (fun acc c => 10 * acc + (c.toNat - 48)) 0 = n := by
  intro fuel
  induction fuel with
  | zero => intro n ds h; omega
  | succ fuel ih =>
    intro n ds h
    have hd := digitChar_toNat (n % 10) (Nat.mod_lt _ (by decide))
    by_cases h0 : n / 10 = 0
    · refine ⟨[Nat.digitChar (n % 10)], by simp [Nat.toDigitsCore, h0], ?_, ?_⟩
      · intro c hc
        simp only [List.mem_singleton] at hc
        subst hc
        omega
      · simp only [List.foldl_cons, List.foldl_nil, hd]
        omega
    · obtain ⟨pre, hpre, hdig, hval⟩ := ih (n / 10) (Nat.digitChar (n % 10) :: ds) (by omega)
      refine ⟨pre ++ [Nat.digitChar (n % 10)], by simp [Nat.toDigitsCore, h0, hpre], ?_, ?_⟩
      · intro c hc
        rcases List.mem_append.mp hc with hc | hc
        · exact hdig c hc
        · simp only [List.mem_singleton] at hc
          subst hc
          omega
      · simp only [List.foldl_append, List.foldl_cons, List.foldl_nil, hval, hd]
        omega

theorem toString_natCast_data (m : Nat) : (toString ((m : Nat) : Int)).data = Nat.toDigits 10 m :=
  rfl

theorem toDigits_spec (m : Nat) :
    (∀ c ∈ Nat.toDigits 10 m, 48 ≤ c.toNat ∧ c.toNat ≤ 57) ∧
      (Nat.toDigits 10 m).foldl (fun acc c => 10 * acc + (c.toNat - 48)) 0 = m := by
  obtain ⟨pre, hpre, hdig, hval⟩ := toDigitsCore_spec (m + 1) m [] (Nat.lt_succ_self m)
  have h : Nat.toDigits 10 m = pre := by
    unfold Nat.toDigits
    rw [hpre, List.append_nil]
  rw [h]
  exact ⟨hdig, hval⟩

theorem toDigits_injective {m1 m2 : Nat} (h : Nat.toDigits 10 m1 = Nat.toDigits 10 m2) :
    m1 = m2 := by
  rw [← (toDigits_spec m1).2, ← (toDigits_spec m2).2, h]

theorem minted_data (U : UnicodeTables) (g a : String) (m : Nat) :
    ∃ X, (Title U (g ++ "_" ++ a ++ "_" ++ toString ((m : Nat) : Int))).data =
      X ++ '_' :: Nat.toDigits 10 m := by
  have hfix : ∀ c ∈ '_' :: Nat.toDigits 10 m,
      c.toNat ≤ 127 ∧ ¬ (97 ≤ c.toNat ∧ c.toNat ≤ 122) := by
    intro c hc
    rcases List.mem_cons.mp hc with rfl | hc
    · decide
    · have := (toDigits_spec m).1 c hc
      omega
  obtain ⟨X, hX⟩ := titleMap_append_fixed U _ hfix (g ++ "_" ++ a).data ' '
  refine ⟨X, ?_⟩
  rw [← hX]
  simp only [Title, String.data_append, toString_natCast_data]
  simp

theorem MintedWith_inj {U : UnicodeTables} {name : String} {m1 m2 : Nat}
    (h1 : MintedWith U name ((m1 : Nat) : Int)) (h2 : MintedWith U name ((m2 : Nat) : Int)) :
    m1 = m2 := by
  obtain ⟨g1, a1, e1⟩ := h1
  obtain ⟨g2, a2, e2⟩ := h2
  obtain ⟨X1, hX1⟩ := minted_data U g1 a1 m1
  obtain ⟨X2, hX2⟩ := minted_data U g2 a2 m2
  rw [← e1] at hX1
  rw [← e2] at hX2
  have hnot : ∀ m : Nat, '_' ∉ Nat.toDigits 10 m := by
    intro m hmem
    have := (toDigits_spec m).1 '_' hmem
    revert this
    decide
  exact toDigits_injective
    (suffix_after_marker X1 X2 _ _ (hnot m1) (hnot m2) (hX1.symm.trans hX2))

theorem advance_zero (k : Nat) (h : (k : Int) < 2 ^ 63) : advance 0 k = (k : Int) := by
  induction k with
  | zero => rfl
  | succ k ih =>
    have hk : (k : Int) < 2 ^ 63 := by push_cast at h; omega
    show wrapInt (advance 0 k + 1) = _
    rw [ih hk]
    push_cast at h ⊢
    exact wrapInt_of_range (by omega) h

theorem forall₂_exists_right {α β : Type} {R : α → β → Prop} {l : List α} {ks : List β}
    (h : List.Forall₂ R l ks) {a : α} (ha : a ∈ l) : ∃ b ∈ ks, R a b := by
  induction h with
  | nil => simp at ha
  | cons hd _ ih =>
    rcases List.mem_cons.mp ha with rfl | ha
    · exact ⟨_, List.mem_cons_self _ _, hd⟩
    · obtain ⟨b, hb, hR⟩ := ih ha
      exact ⟨b, List.mem_cons_of_mem _ hb, hR⟩

theorem nodup_map_of_forall₂ {α β γ : Type} {R : α → β → Prop} {f : α → γ}
    {l : List α} {ks : List β} (h : List.Forall₂ R l ks) (hnd : ks.Nodup)
    (hinj : ∀ a b a' b', R a b → R a' b' → f a = f a' → b = b') :
    (l.map f).Nodup := by
  induction h with
  | nil => exact List.nodup_nil
  | cons hd tl ih =>
    rw [List.nodup_cons] at hnd
    rw [List.map_cons, List.nodup_cons]
    refine ⟨?_, ih hnd.2⟩
    intro hmem
    obtain ⟨a', ha', hfa⟩ := List.mem_map.mp hmem
    obtain ⟨b', hb', hR⟩ := forall₂_exists_right tl ha'
    have := hinj _ _ _ _ hd hR hfa.symm
    exact hnd.1 (this ▸ hb')

theorem aggregateNames_perm (code : List Fragment) :
    (aggregateNames code).Perm (topLevelTypes code ++ nestedTypes code) := by
  induction code with
  | nil => exact List.Perm.refl _
  | cons f rest ih =>
    cases f with
    | prefixTemplate d => simpa [aggregateNames, topLevelTypes, nestedTypes] using ih
    | providerTemplate d => simpa [aggregateNames, topLevelTypes, nestedTypes] using ih
    | typeTemplate d =>
      cases hd : d.InsertID with
      | true =>
        simp only [aggregateNames, topLevelTypes, nestedTypes] at ih
        simp [aggregateNames, topLevelTypes, nestedTypes, hd, ih]
      | false =>
        simp only [aggregateNames, topLevelTypes, nestedTypes] at ih
        simp only [aggregateNames, topLevelTypes, nestedTypes, List.filterMap_cons, hd]
        exact (List.Perm.cons _ ih).trans List.perm_middle.symm

theorem nestedTypes_length_le (code : List Fragment) : (nestedTypes code).length ≤ code.length :=
  List.length_filterMap_le _ _

theorem forall₂_and_right {α β : Type} {R : α → β → Prop} {P : β → Prop}
    {l : List α} {ks : List β} (h : List.Forall₂ R l ks) (hP : ∀ k ∈ ks, P k) :
    List.Forall₂ (fun a k => R a k ∧ P k) l ks := by
  induction h with
  | nil => exact List.Forall₂.nil
  | cons hd _ ih =>
    exact List.Forall₂.cons ⟨hd, hP _ (List.mem_cons_self _ _)⟩
      (ih (fun k hk => hP k (List.mem_cons_of_mem _ hk)))

/-- Nested aggregates minted from counter `0` bear pairwise distinct names as
long as fewer than `2^63` of them are minted. -/
theorem minting_names_nodup {U : UnicodeTables} {y : Int} {ds : List structData}
    (h : Minting U 0 y ds) (hlen : (ds.length : Int) < 2 ^ 63) :
    (ds.map (fun d => d.StructType)).Nodup := by
  obtain ⟨_, _, ks, hnd, hb, hf⟩ := h
  have hf2 := forall₂_and_right hf hb
  refine nodup_map_of_forall₂ hf2 hnd ?_
  rintro d k d' k' ⟨hm, hk⟩ ⟨hm', hk'⟩ hname
  have e1 : advance 0 k = (k : Int) := advance_zero k (by omega)
  have e2 : advance 0 k' = (k' : Int) := advance_zero k' (by omega)
  rw [e1] at hm
  rw [e2, ← hname] at hm'
  exact MintedWith_inj hm hm'

theorem deriveGoType_of_range (goType name : String) (st : GenState)
    (h : -2 ^ 63 ≤ st.saltValue ∧ st.saltValue + 1 < 2 ^ 63) :
    deriveGoType goType name st =
      (goType ++ "_" ++ name ++ "_" ++ toString (st.saltValue + 1),
        { st with saltValue := st.saltValue + 1 }) := by
  have hw : wrapInt (st.saltValue + 1) = st.saltValue + 1 :=
    wrapInt_of_range (by omega) h.2
  simp [deriveGoType, hw]

/-! ## Counting fragments and mints; names of letters, digits and underscores -/

theorem mem_blocks_fragments {blocks : List ResourceBlock} {d : structData} :
    Fragment.typeTemplate d ∈ (blocks.map ResourceBlock.fragments).flatten ↔
      ∃ b ∈ blocks, d ∈ b.nested ∨ d = b.top := by
  simp only [List.mem_flatten, List.mem_map]
  constructor
  · rintro ⟨l, ⟨b, hb, rfl⟩, hd⟩
    refine ⟨b, hb, ?_⟩
    simp only [ResourceBlock.fragments, List.mem_append, List.mem_map, List.mem_cons,
      Fragment.typeTemplate.injEq, List.mem_singleton] at hd
    rcases hd with ⟨d', hd', rfl⟩ | h | h
    · exact Or.inl hd'
    · exact Or.inr h
    · simp at h
  · rintro ⟨b, hb, hd⟩
    refine ⟨_, ⟨b, hb, rfl⟩, ?_⟩
    simp only [ResourceBlock.fragments, List.mem_append, List.mem_map, List.mem_cons,
      Fragment.typeTemplate.injEq]
    rcases hd with hd | hd
    · exact Or.inl ⟨d, hd, rfl⟩
    · exact Or.inr (Or.inl hd)

theorem advance_of_range (x : Int) (m : Nat) (h1 : -2 ^ 63 ≤ x) (h2 : x + (m : Int) < 2 ^ 63) :
    advance x m = x + (m : Int) := by
  induction m with
  | zero => simp [advance]
  | succ m ih =>
    have hm : x + (m : Int) < 2 ^ 63 := by push_cast at h2; omega
    show wrapInt (advance x m + 1) = _
    rw [ih hm]
    push_cast at h2 ⊢
    rw [wrapInt_of_range (by omega) (by omega)]
    omega

theorem blocks_fragments_length (blocks : List ResourceBlock) :
    (blocks.map ResourceBlock.fragments).flatten.length =
      2 * blocks.length + ((blocks.map (fun b => b.nested)).flatten).length := by
  induction blocks with
  | nil => rfl
  | cons b rest ih =>
    simp only [List.map_cons, List.flatten_cons, List.length_append, ih,
      ResourceBlock.fragments, List.length_map, List.length_cons, List.length_nil]
    omega

theorem getGoType_appends (U : UnicodeTables) (fuel : Nat) (g n : String) (s : Schema)
    (st : GenState) (hs : s.supported = true) (hf : s.depth ≤ fuel) :
    ∃ (t : String) (st1 : GenState) (ds : List structData),
      getGoType U fuel g n s st = .ok t st1 ∧
      st1.code = st.code ++ ds.map Fragment.typeTemplate ∧
      (∀ d ∈ ds, d.InsertID = false) ∧
      st1.prefixTemplateData = st.prefixTemplateData ∧
      st1.saltValue = advance st.saltValue ds.length := by
  obtain ⟨t, st1, h⟩ := getGoType_total U fuel s hs hf g n st
  obtain ⟨ds, hp, hc, hsalt, hins, _⟩ := getGoType_nestedRun U fuel g n s st t st1 h
  exact ⟨t, st1, ds, h, hc, hins, hp, hsalt⟩

theorem Generate_counts {U : UnicodeTables} {fuel : Nat} {p : Provider} {ns : String}
    {old st : GenState} {u : Unit} (h : Generate U fuel p ns old = .ok u st) :
    ∃ m : Nat, st.code.length = 1 + 2 * p.ResourcesMap.length + m ∧
      (nestedTypes st.code).length = m ∧ st.saltValue = advance 0 m := by
  obtain ⟨blocks, hcode, _, hmint, hall⟩ := Generate_shape h
  obtain ⟨_, _, h3⟩ := blocks_of_forall₂ hall
  refine ⟨((blocks.map (fun b => b.nested)).flatten).length, ?_, ?_, hmint.1⟩
  · rw [hcode, List.length_cons, blocks_fragments_length, ← hall.length_eq,
      (sortStrings_perm _).length_eq, List.length_map]
    omega
  · have : nestedTypes st.code =
        ((blocks.map (fun b => b.nested)).flatten).map (fun d => d.StructType) := by
      rw [hcode, ← nestedTypes_blocks blocks hmint.2.1 h3]
      simp [nestedTypes]
    rw [this, List.length_map]

theorem minted_raw_data (g a : String) (m : Nat) :
    (g ++ "_" ++ a ++ "_" ++ toString ((m : Nat) : Int)).data =
      (g ++ "_" ++ a).data ++ '_' :: Nat.toDigits 10 m := by
  simp only [String.data_append, toString_natCast_data]
  simp

theorem minted_raw_inj {g a g' a' : String} {k k' : Nat}
    (h : g ++ "_" ++ a ++ "_" ++ toString ((k : Nat) : Int) =
      g' ++ "_" ++ a' ++ "_" ++ toString ((k' : Nat) : Int)) : k = k' := by
  have hd := congrArg String.data h
  rw [minted_raw_data, minted_raw_data] at hd
  have hnot : ∀ m : Nat, '_' ∉ Nat.toDigits 10 m := by
    intro m hmem
    have := (toDigits_spec m).1 '_' hmem
    revert this
    decide
  exact toDigits_injective (suffix_after_marker _ _ _ _ (hnot k) (hnot k') hd)

theorem minting_counters {U : UnicodeTables} {y : Int} {ds : List structData}
    (h : Minting U 0 y ds) (hlen : (ds.length : Int) < 2 ^ 63) :
    ∃ ks : List Nat, ks.Nodup ∧ (∀ k ∈ ks, 1 ≤ k ∧ k ≤ ds.length) ∧
      List.Forall₂ (fun d k => ∃ g a : String,
        d.StructType = Title U (g ++ "_" ++ a ++ "_" ++ toString ((k : Nat) : Int))) ds ks := by
  obtain ⟨_, _, ks, hnd, hb, hf⟩ := h
  refine ⟨ks, hnd, hb, ?_⟩
  refine (forall₂_and_right hf hb).imp ?_
  rintro d k ⟨hm, hk⟩
  have e : advance 0 k = (k : Int) := advance_zero k (by omega)
  rw [e] at hm
  exact hm

theorem generateResource_appends {U : UnicodeTables} {fuel : Nat} {nativeType : String}
    {r : Resource} {st st2 : GenState} {u : Unit}
    (h : generateResource U fuel nativeType r st = .ok u st2) :
    ∃ m : Nat, st2.code.length = st.code.length + m + 2 ∧
      st2.saltValue = advance st.saltValue m := by
  obtain ⟨ds, fields, hcode, _, hmint, _⟩ := generateResource_shape h
  refine ⟨ds.length, ?_, hmint.1⟩
  rw [hcode]
  simp only [List.length_append, List.length_map, List.length_cons, List.length_nil]

theorem char_eq_of_toNat {c : Char} {n : Nat} (h : c.toNat = n) : c = Char.ofNat n := by
  rw [← h, Char.ofNat_toNat]

theorem isSeparator_plain (U : UnicodeTables) {c : Char} (h : plainChar c = true) :
    isSeparator U c = false := by
  simp only [plainChar, decide_eq_true_eq] at h
  unfold isSeparator
  have h127 : c.toNat ≤ 0x7F := by omega
  simp only [h127, if_true]
  by_cases h1 : 48 ≤ c.toNat ∧ c.toNat ≤ 57
  · simp [h1]
  · by_cases h2 : 97 ≤ c.toNat ∧ c.toNat ≤ 122
    · simp [h1, h2]
    · by_cases h3 : 65 ≤ c.toNat ∧ c.toNat ≤ 90
      · simp [h1, h2, h3]
      · have h4 : c.toNat = 95 := by omega
        have : c = '_' := char_eq_of_toNat h4
        simp [h1, h2, h3, this]

theorem ToTitle_toNat (U : UnicodeTables) {c : Char} (h : 97 ≤ c.toNat ∧ c.toNat ≤ 122) :
    (ToTitle U c).toNat = c.toNat - 32 := by
  have h127 : c.toNat ≤ 0x7F := by omega
  simp only [ToTitle, h127, if_true, h, and_self]
  obtain ⟨n, hn⟩ : ∃ n, c.toNat = n := ⟨_, rfl⟩
  rw [hn] at h ⊢
  obtain ⟨h1, h2⟩ := h
  interval_cases n <;> rfl

theorem ToTitle_not_lower (U : UnicodeTables) {c : Char} (h127 : c.toNat ≤ 127)
    (h : ¬ (97 ≤ c.toNat ∧ c.toNat ≤ 122)) : ToTitle U c = c := by
  simp [ToTitle, h127, h]

theorem isSeparator_space (U : UnicodeTables) : isSeparator U ' ' = true := by
  simp [isSeparator]

theorem titleMap_noSep (U : UnicodeTables) :
    ∀ (l : List Char) (prev : Char), isSeparator U prev = false →
      (∀ c ∈ l, isSeparator U c = false) → titleMap U prev l = l := by
  intro l
  induction l with
  | nil => intro _ _ _; rfl
  | cons c rest ih =>
    intro prev hp h
    have hr := ih c (h c (List.mem_cons_self _ _)) (fun x hx => h x (List.mem_cons_of_mem _ hx))
    simp [titleMap, hp, hr]

theorem titleMap_append (U : UnicodeTables) :
    ∀ (l1 l2 : List Char) (prev : Char),
      titleMap U prev (l1 ++ l2) =
        titleMap U prev l1 ++ titleMap U (l1.getLastD prev) l2 := by
  intro l1
  induction l1 with
  | nil => intro l2 prev; rfl
  | cons c rest ih =>
    intro l2 prev
    have e : (c :: rest).getLastD prev = rest.getLastD c := by
      cases rest with
      | nil => rfl
      | cons d rest2 => simp [List.getLastD]
    rw [e, List.cons_append, titleMap, titleMap, ih, List.cons_append]

theorem Title_data (U : UnicodeTables) (s : String) :
    (Title U s).data = titleMap U ' ' s.data := rfl

theorem plainName_iff {s : String} :
    plainName s = true ↔ ∀ c ∈ s.data, plainChar c = true := by
  simp [plainName, List.all_eq_true]

theorem lowerName_iff {s : String} :
    lowerName s = true ↔ ∀ c ∈ s.data, lowerChar c = true := by
  simp [lowerName, List.all_eq_true]

theorem plainChar_of_lowerChar {c : Char} (h : lowerChar c = true) : plainChar c = true := by
  simp only [lowerChar, plainChar, decide_eq_true_eq] at h ⊢
  omega

theorem plainName_of_lowerName {s : String} (h : lowerName s = true) : plainName s = true :=
  plainName_iff.mpr (fun c hc => plainChar_of_lowerChar (lowerName_iff.mp h c hc))

theorem Title_plain (U : UnicodeTables) {s : String} (h : plainName s = true) :
    Title U s = capitalizeFirst U s := by
  have hp := plainName_iff.mp h
  apply String.ext
  rw [Title_data]
  unfold capitalizeFirst
  cases hd : s.data with
  | nil => simp [titleMap, hd]
  | cons c rest =>
    rw [hd] at hp
    have hr := titleMap_noSep U rest c (isSeparator_plain U (hp c (List.mem_cons_self _ _)))
      (fun x hx => isSeparator_plain U (hp x (List.mem_cons_of_mem _ hx)))
    simp [titleMap, isSeparator_space, hr]

theorem ToTitle_plain (U : UnicodeTables) {c : Char} (h : plainChar c = true) :
    plainChar (ToTitle U c) = true ∧ ToTitle U (ToTitle U c) = ToTitle U c := by
  have h0 := h
  simp only [plainChar, decide_eq_true_eq] at h
  by_cases hl : 97 ≤ c.toNat ∧ c.toNat ≤ 122
  · have ht := ToTitle_toNat U hl
    constructor
    · simp only [plainChar, decide_eq_true_eq, ht]
      omega
    · exact ToTitle_not_lower U (by omega) (by omega)
  · have ht : ToTitle U c = c := ToTitle_not_lower U (by omega) hl
    rw [ht, ht]
    exact ⟨h0, rfl⟩

theorem Title_plain_plain (U : UnicodeTables) {s : String} (h : plainName s = true) :
    plainName (Title U s) = true := by
  rw [Title_plain U h]
  have hp := plainName_iff.mp h
  rw [plainName_iff]
  unfold capitalizeFirst
  cases hd : s.data with
  | nil => intro c hc; rw [hd] at hc; simp at hc
  | cons c rest =>
    rw [hd] at hp
    intro x hx
    simp only [List.mem_cons] at hx
    rcases hx with rfl | hx
    · exact (ToTitle_plain U (hp c (List.mem_cons_self _ _))).1
    · exact hp x (List.mem_cons_of_mem _ hx)

theorem Title_idem_plain (U : UnicodeTables) {s : String} (h : plainName s = true) :
    Title U (Title U s) = Title U s := by
  rw [Title_plain U (Title_plain_plain U h), Title_plain U h]
  have hp := plainName_iff.mp h
  apply String.ext
  unfold capitalizeFirst
  cases hd : s.data with
  | nil => simp [hd]
  | cons c rest =>
    rw [hd] at hp
    simp [(ToTitle_plain U (hp c (List.mem_cons_self _ _))).2]

theorem toString_int_fixed (k : Int) :
    ∀ c ∈ (toString k).data, c.toNat ≤ 127 ∧ ¬ (97 ≤ c.toNat ∧ c.toNat ≤ 122) := by
  cases k with
  | ofNat m =>
    intro c hc
    have hc2 : c ∈ Nat.toDigits 10 m := hc
    have := (toDigits_spec m).1 c hc2
    omega
  | negSucc m =>
    intro c hc
    have hc2 : c ∈ '-' :: Nat.toDigits 10 (m + 1) := hc
    rcases List.mem_cons.mp hc2 with rfl | hc3
    · decide
    · have := (toDigits_spec (m + 1)).1 c hc3
      omega

theorem Title_minted_plain (U : UnicodeTables) {x attr : String} (k : Int)
    (hx : plainName x = true) (ha : plainName attr = true) :
    Title U (Title U x ++ "_" ++ attr ++ "_" ++ toString k) =
      Title U x ++ "_" ++ attr ++ "_" ++ toString k := by
  apply String.ext
  rw [Title_data]
  have hsplit : (Title U x ++ "_" ++ attr ++ "_" ++ toString k).data =
      (Title U x).data ++ ('_' :: (attr.data ++ '_' :: (toString k).data)) := by
    simp [String.data_append]
  rw [hsplit, titleMap_append]
  have h1 : titleMap U ' ' (Title U x).data = (Title U x).data := by
    rw [← Title_data, Title_idem_plain U hx]
  have hfix : ∀ c ∈ '_' :: (toString k).data,
      c.toNat ≤ 127 ∧ ¬ (97 ≤ c.toNat ∧ c.toNat ≤ 122) := by
    intro c hc
    rcases List.mem_cons.mp hc with rfl | hc
    · decide
    · exact toString_int_fixed k c hc
  have hus : isSeparator U '_' = false := by simp [isSeparator]
  have h2 : ∀ p, titleMap U p ('_' :: (attr.data ++ '_' :: (toString k).data)) =
      '_' :: (attr.data ++ '_' :: (toString k).data) := by
    intro p
    have hfu : ToTitle U '_' = '_' := ToTitle_fixed U '_' (by decide)
    have ha2 := titleMap_noSep U attr.data '_' hus
      (fun c hc => isSeparator_plain U (plainName_iff.mp ha c hc))
    simp only [titleMap, hfu, ite_self, titleMap_append, ha2,
      titleMap_fixed U _ _ (toString_int_fixed k)]
  rw [h1, h2]

theorem ToTitle_lower_inj (U : UnicodeTables) {c d : Char} (hc : lowerChar c = true)
    (hd : lowerChar d = true) (h : ToTitle U c = ToTitle U d) : c = d := by
  simp only [lowerChar, decide_eq_true_eq] at hc hd
  have hn := congrArg Char.toNat h
  apply charToNat_injective
  by_cases lc : 97 ≤ c.toNat ∧ c.toNat ≤ 122
  · rw [ToTitle_toNat U lc] at hn
    by_cases ld : 97 ≤ d.toNat ∧ d.toNat ≤ 122
    · rw [ToTitle_toNat U ld] at hn
      omega
    · rw [ToTitle_not_lower U (by omega) ld] at hn
      omega
  · rw [ToTitle_not_lower U (by omega) lc] at hn
    by_cases ld : 97 ≤ d.toNat ∧ d.toNat ≤ 122
    · rw [ToTitle_toNat U ld] at hn
      omega
    · rw [ToTitle_not_lower U (by omega) ld] at hn
      exact hn

theorem Title_inj_lower (U : UnicodeTables) {a b : String} (ha : lowerName a = true)
    (hb : lowerName b = true) (h : Title U a = Title U b) : a = b := by
  rw [Title_plain U (plainName_of_lowerName ha), Title_plain U (plainName_of_lowerName hb)] at h
  have hla := lowerName_iff.mp ha
  have hlb := lowerName_iff.mp hb
  have hd := congrArg String.data h
  apply String.ext
  unfold capitalizeFirst at hd
  cases ea : a.data with
  | nil =>
    cases eb : b.data with
    | nil => rfl
    | cons d r2 => simp [ea, eb] at hd
  | cons c r1 =>
    cases eb : b.data with
    | nil => simp [ea, eb] at hd
    | cons d r2 =>
      rw [ea] at hla
      rw [eb] at hlb
      simp only [ea, eb, List.cons.injEq] at hd
      have := ToTitle_lower_inj U (hla c (List.mem_cons_self _ _))
        (hlb d (List.mem_cons_self _ _)) hd.1
      rw [this, hd.2]

theorem Title_append_id (U : UnicodeTables) (nt : String) :
    Title U (nt ++ "_id") = Title U nt ++ "_id" := by
  apply String.ext
  rw [Title_data, String.data_append, String.data_append, titleMap_append, Title_data]
  have hus : isSeparator U '_' = false := by simp [isSeparator]
  have hfu : ToTitle U '_' = '_' := ToTitle_fixed U '_' (by decide)
  have hi : isSeparator U 'i' = false := isSeparator_plain U (by decide)
  have : "_id".data = ['_', 'i', 'd'] := rfl
  rw [this]
  simp [titleMap, hfu, hus, hi]

theorem lowerName_append_id {nt : String} (h : lowerName nt = true) :
    lowerName (nt ++ "_id") = true := by
  rw [lowerName_iff] at h ⊢
  intro c hc
  rw [String.data_append] at hc
  rcases List.mem_append.mp hc with hc | hc
  · exact h c hc
  · have : "_id".data = ['_', 'i', 'd'] := rfl
    rw [this] at hc
    simp only [List.mem_cons, List.mem_singleton, List.not_mem_nil, or_false] at hc
    rcases hc with rfl | rfl | rfl <;> decide

theorem aggregateNames_concat (code : List Fragment) (d : structData) :
    d.StructType ∈ aggregateNames (code ++ [Fragment.typeTemplate d]) := by
  simp [aggregateNames, List.filterMap_append]

theorem getGoType_nested_shape (U : UnicodeTables) (fuel : Nat) (parent attr : String)
    (s : Schema) (r : Resource) (st : GenState)
    (hk : s.Type_ = .TypeList ∨ s.Type_ = .TypeSet) (he : s.Elem = .resource r)
    (hr : r.supported = true) (hf : r.depth ≤ fuel) :
    ∃ (st1 : GenState) (ds : List structData) (fields : List structField),
      getGoType U (fuel + 1) parent attr s st =
        .ok ("[]" ++ (deriveGoType parent attr st).1) st1 ∧
      st1.code = st.code ++ ds.map Fragment.typeTemplate ++
        [Fragment.typeTemplate
          { StructType := Title U (deriveGoType parent attr st).1,
            StructFields := fields, InsertID := false }] := by
  obtain ⟨pi, st1, hgen⟩ := generateResourceType_total U fuel
    (deriveGoType parent attr st).1 false (deriveGoType parent attr st).2 hr hf
  obtain ⟨ds, fields, stm, hrun, hst1, _, _⟩ := generateResourceType_shape hgen
  obtain ⟨_, hcode, _⟩ := hrun
  refine ⟨st1, ds, fields, ?_, ?_⟩
  · have hcase : nestedResourceCase U (getGoType U fuel) parent attr r st =
        .ok ("[]" ++ (deriveGoType parent attr st).1) st1 := by
      unfold nestedResourceCase
      simp only [generateResourceType] at hgen
      simp only [hgen]
    cases s with
    | mk ty req fn e =>
      simp only [Schema.Type_, Schema.Elem] at hk he
      subst he
      rcases hk with rfl | rfl <;> simp [getGoType, Schema.Type_, Schema.Elem, hcase]
  · rw [hst1]
    show stm.code ++ _ = _
    rw [hcode]
    rfl

/-! ## Unsupported schemas panic -/

theorem supportedAttrs_false {m : List (String × Schema)} (h : supportedAttrs m = false) :
    ∃ name c, (name, c) ∈ m ∧ c.supported = false := by
  induction m with
  | nil => simp [supportedAttrs] at h
  | cons e rest ih =>
    obtain ⟨k, w⟩ := e
    simp only [supportedAttrs, Bool.and_eq_false_iff] at h
    rcases h with h | h
    · exact ⟨k, w, List.mem_cons_self _ _, h⟩
    · obtain ⟨name, c, hmem, hc⟩ := ih h
      exact ⟨name, c, List.mem_cons_of_mem _ hmem, hc⟩

theorem wellFormed_of_mem {m : List (String × Schema)} (h : wellFormedAttrs m = true)
    {name : String} {s : Schema} (hmem : (name, s) ∈ m) : s.wellFormed = true := by
  induction m with
  | nil => simp at hmem
  | cons e rest ih =>
    obtain ⟨k, w⟩ := e
    simp only [wellFormedAttrs, Bool.and_eq_true] at h
    simp only [List.mem_cons, Prod.mk.injEq] at hmem
    rcases hmem with ⟨_, h2⟩ | hmem
    · subst h2; exact h.1
    · exact ih h.2 hmem

theorem supportedAttrs_mem_false {m : List (String × Schema)} {name : String} {c : Schema}
    (hmem : (name, c) ∈ m) (hc : c.supported = false) : supportedAttrs m = false := by
  induction m with
  | nil => simp at hmem
  | cons e rest ih =>
    obtain ⟨k, w⟩ := e
    simp only [supportedAttrs, Bool.and_eq_false_iff]
    simp only [List.mem_cons, Prod.mk.injEq] at hmem
    rcases hmem with ⟨_, h2⟩ | hmem
    · subst h2; exact Or.inl hc
    · exact Or.inr (ih hmem)

theorem unsupported_of_reaches {s a : Schema} (ha : Reaches s a)
    (hoff : a.offending = true) : s.supported = false := by
  induction ha with
  | self s =>
    cases s with
    | mk t req fn e =>
      cases t <;> cases e <;>
        simp_all [Schema.offending, Schema.supported, ElemVal.supported, Schema.Type_,
          Schema.Elem]
  | elem ty req fn e a hk _ ih2 =>
    rcases hk with hk | hk <;> subst hk <;>
      simp only [Schema.supported, ElemVal.supported] <;> exact ih2 hoff
  | attr ty req fn m name c a hk hmem _ ih2 =>
    rcases hk with hk | hk <;> subst hk <;>
      simp only [Schema.supported, ElemVal.supported, Resource.supported] <;>
      exact supportedAttrs_mem_false hmem (ih2 hoff)

theorem reaches_of_unsupported :
    ∀ (n : Nat) (s : Schema), s.depth ≤ n → s.wellFormed = true → s.supported = false →
      ∃ a, Reaches s a ∧ a.offending = true := by
  intro n
  induction n with
  | zero =>
    intro s hd
    cases s with
    | mk t req fn e => simp [Schema.depth] at hd
  | succ n ih =>
    intro s hd hwf hs
    cases s with
    | mk t req fn e =>
      simp only [Schema.depth, Nat.add_le_add_iff_right] at hd
      simp only [Schema.wellFormed] at hwf
      cases t <;> simp only [Schema.supported, Bool.true_eq_false] at hs
      case TypeInvalid => exact ⟨_, Reaches.self _, rfl⟩
      case typeObject => exact ⟨_, Reaches.self _, rfl⟩
      all_goals
        (cases e with
         | nil => exact ⟨_, Reaches.self _, rfl⟩
         | other => exact ⟨_, Reaches.self _, rfl⟩
         | nilSchema => simp [ElemVal.wellFormed] at hwf
         | nilResource => simp [ElemVal.wellFormed] at hwf
         | schema s2 =>
           simp only [ElemVal.supported] at hs
           simp only [ElemVal.depth] at hd
           simp only [ElemVal.wellFormed] at hwf
           obtain ⟨a, ha, hoff⟩ := ih s2 hd hwf hs
           exact ⟨a, Reaches.elem _ req fn s2 a (by simp) ha, hoff⟩
         | resource r =>
           cases r with
           | mk m =>
             simp only [ElemVal.supported, Resource.supported] at hs
             simp only [ElemVal.depth, Resource.depth] at hd
             simp only [ElemVal.wellFormed, Resource.wellFormed, Bool.and_eq_true,
               decide_eq_true_eq] at hwf
             obtain ⟨name, c, hmem, hc⟩ := supportedAttrs_false hs
             obtain ⟨a, ha, hoff⟩ := ih c (le_trans (depth_le_of_mem hmem) hd)
               (wellFormed_of_mem hwf.2 hmem) hc
             exact ⟨a, Reaches.attr _ req fn m name c a (by simp) hmem ha, hoff⟩)

theorem unsupported_iff_reaches (s : Schema) (hwf : s.wellFormed = true) :
    s.supported = false ↔ ∃ a, Reaches s a ∧ a.offending = true :=
  ⟨reaches_of_unsupported s.depth s le_rfl hwf,
    fun ⟨_, ha, hoff⟩ => unsupported_of_reaches ha hoff⟩


theorem getGoTypeWithPtrUsing_panic {get : TypeMapper} {g n : String} {s : Schema}
    {st : GenState} {p : Panic} (h : get g n s st = .panic p) :
    getGoTypeWithPtrUsing get g n s st = .panic p := by
  simp only [getGoTypeWithPtrUsing, h]

theorem structFieldsLoop_panic (U : UnicodeTables) (get : TypeMapper) (structType : String)
    (m : List (String × Schema)) :
    ∀ (names : List String),
      (∀ name ∈ names, ∃ s, m.lookup name = some s ∧
        ((∀ st, ∃ t st1, get structType name s st = .ok t st1) ∨
         (∀ st, ∃ p, get structType name s st = .panic p ∧ p.unsupportedSchema = true))) →
      (∃ name ∈ names, ∃ s, m.lookup name = some s ∧
        ∀ st, ∃ p, get structType name s st = .panic p ∧ p.unsupportedSchema = true) →
      ∀ (acc : List structField) (st : GenState),
        ∃ p, structFieldsLoop U get structType m names acc st = .panic p ∧
          p.unsupportedSchema = true := by
  intro names
  induction names with
  | nil => rintro _ ⟨name, hmem, _⟩; simp at hmem
  | cons name rest ih =>
    rintro hall ⟨bad, hbad, sb, hlb, hpb⟩ acc st
    obtain ⟨s, hs, hget⟩ := hall name (List.mem_cons_self _ _)
    have hpanic : (∀ st, ∃ p, get structType name s st = .panic p ∧ p.unsupportedSchema = true) →
        ∃ p, structFieldsLoop U get structType m (name :: rest) acc st = .panic p ∧
          p.unsupportedSchema = true := by
      intro hp
      obtain ⟨p, hp1, hp2⟩ := hp st
      refine ⟨p, ?_, hp2⟩
      simp only [structFieldsLoop, hs, getGoTypeWithPtrUsing_panic hp1]
    rcases hget with hok | hp
    · rcases List.mem_cons.mp hbad with hb | hb
      · subst hb
        rw [hs] at hlb
        cases hlb
        exact hpanic hpb
      · obtain ⟨t, st2, ht⟩ := hok st
        obtain ⟨p, hp1, hp2⟩ := ih (fun n hn => hall n (List.mem_cons_of_mem _ hn))
          ⟨bad, hb, sb, hlb, hpb⟩
          (acc ++ [⟨Title U name, if !s.Required then "*" ++ t else t⟩]) st2
        refine ⟨p, ?_, hp2⟩
        simp only [structFieldsLoop, hs, getGoTypeWithPtrUsing_ok ht]
        exact hp1
    · exact hpanic hp

theorem generateResourceTypeUsing_panic (U : UnicodeTables) (get : TypeMapper)
    (nativeType : String) (r : Resource) (insertID : Bool) (st : GenState)
    (hnd : (r.Schema.map Prod.fst).Nodup)
    (hget : ∀ name s, (name, s) ∈ r.Schema →
      ((∀ st, ∃ t st1, get (Title U nativeType) name s st = .ok t st1) ∨
       (∀ st, ∃ p, get (Title U nativeType) name s st = .panic p ∧
          p.unsupportedSchema = true)))
    (hbad : ∃ name s, (name, s) ∈ r.Schema ∧
      ∀ st, ∃ p, get (Title U nativeType) name s st = .panic p ∧ p.unsupportedSchema = true) :
    ∃ p, generateResourceTypeUsing U get nativeType r insertID st = .panic p ∧
      p.unsupportedSchema = true := by
  unfold generateResourceTypeUsing
  have hc := classifyLoop_eq r.Schema (sortStrings (r.Schema.map Prod.fst)) [] []
    (fun n hn => mem_sortStrings.mp hn)
  simp only [hc, List.nil_append]
  obtain ⟨bad, sb, hmemb, hpb⟩ := hbad
  obtain ⟨p, hp1, hp2⟩ := structFieldsLoop_panic U get (Title U nativeType) r.Schema
    (sortStrings (r.Schema.map Prod.fst))
    (fun name hn => by
      obtain ⟨s, hs, hmem⟩ := lookup_of_mem_keys r.Schema name (mem_sortStrings.mp hn)
      exact ⟨s, hs, hget name s hmem⟩)
    ⟨bad, mem_sortStrings.mpr (List.mem_map.mpr ⟨(bad, sb), hmemb, rfl⟩), sb,
      lookup_eq_of_mem_nodup r.Schema bad sb hnd hmemb, hpb⟩ [] st
  simp only [hp1]
  exact ⟨p, rfl, hp2⟩

theorem getGoType_panic (U : UnicodeTables) :
    ∀ (fuel : Nat) (s : Schema), s.wellFormed = true → s.supported = false → s.depth ≤ fuel →
      ∀ (g n : String) (st : GenState),
        ∃ p, getGoType U fuel g n s st = .panic p ∧ p.unsupportedSchema = true := by
  intro fuel
  induction fuel with
  | zero =>
    intro s _ _ hd
    cases s with
    | mk t req fn e => simp [Schema.depth] at hd
  | succ fuel ih =>
    intro s hwf hs hd g n st
    cases s with
    | mk t req fn e =>
      simp only [Schema.depth, Nat.add_le_add_iff_right] at hd
      simp only [Schema.wellFormed] at hwf
      cases t <;> simp only [Schema.supported, Bool.true_eq_false] at hs
      case TypeInvalid => exact ⟨.unknownSchemaType, rfl, rfl⟩
      case typeObject => exact ⟨.unknownSchemaType, rfl, rfl⟩
      all_goals
        (cases e with
         | nil => exact ⟨_, rfl, rfl⟩
         | other => exact ⟨_, rfl, rfl⟩
         | nilSchema => simp [ElemVal.wellFormed] at hwf
         | nilResource => simp [ElemVal.wellFormed] at hwf
         | schema s2 =>
           simp only [ElemVal.supported] at hs
           simp only [ElemVal.depth] at hd
           simp only [ElemVal.wellFormed] at hwf
           obtain ⟨p, hp1, hp2⟩ := ih s2 hwf hs hd g n st
           refine ⟨p, ?_, hp2⟩
           simp [getGoType, Schema.Type_, Schema.Elem, elemSchemaCase, hp1]
         | resource r =>
           cases r with
           | mk m =>
             simp only [ElemVal.supported, Resource.supported] at hs
             simp only [ElemVal.depth, Resource.depth] at hd
             simp only [ElemVal.wellFormed, Resource.wellFormed, Bool.and_eq_true,
               decide_eq_true_eq] at hwf
             obtain ⟨bad, sb, hmemb, hsb⟩ := supportedAttrs_false hs
             obtain ⟨p, hp1, hp2⟩ := generateResourceTypeUsing_panic U (getGoType U fuel)
               (deriveGoType g n st).1 (Resource.mk m) false (deriveGoType g n st).2 hwf.1
               (fun name s hmem => by
                 cases hsup : s.supported with
                 | true =>
                   exact Or.inl (fun st => getGoType_total U fuel s hsup
                     (le_trans (depth_le_of_mem hmem) hd) _ name st)
                 | false =>
                   exact Or.inr (fun st => ih s (wellFormed_of_mem hwf.2 hmem) hsup
                     (le_trans (depth_le_of_mem hmem) hd) _ name st))
               ⟨bad, sb, hmemb, fun st => ih sb (wellFormed_of_mem hwf.2 hmemb) hsb
                 (le_trans (depth_le_of_mem hmemb) hd) _ bad st⟩
             refine ⟨p, ?_, hp2⟩
             simp [getGoType, Schema.Type_, Schema.Elem, nestedResourceCase, hp1])

theorem generateResource_panic (U : UnicodeTables) (fuel : Nat) (nativeType : String)
    {r : Resource} (st : GenState) (hwf : r.wellFormed = true) (hs : r.supported = false)
    (hf : r.depth ≤ fuel) :
    ∃ p, generateResource U fuel nativeType r st = .panic p ∧ p.unsupportedSchema = true := by
  cases r with
  | mk m =>
    simp only [Resource.supported] at hs
    simp only [Resource.depth] at hf
    simp only [Resource.wellFormed, Bool.and_eq_true, decide_eq_true_eq] at hwf
    obtain ⟨bad, sb, hmemb, hsb⟩ := supportedAttrs_false hs
    obtain ⟨p, hp1, hp2⟩ := generateResourceTypeUsing_panic U (getGoType U fuel)
      nativeType (Resource.mk m) true st hwf.1
      (fun name s hmem => by
        cases hsup : s.supported with
        | true =>
          exact Or.inl (fun st => getGoType_total U fuel s hsup
            (le_trans (depth_le_of_mem hmem) hf) _ name st)
        | false =>
          exact Or.inr (fun st => getGoType_panic U fuel s (wellFormed_of_mem hwf.2 hmem) hsup
            (le_trans (depth_le_of_mem hmem) hf) _ name st))
      ⟨bad, sb, hmemb, fun st => getGoType_panic U fuel sb (wellFormed_of_mem hwf.2 hmemb) hsb
        (le_trans (depth_le_of_mem hmemb) hf) _ bad st⟩
    refine ⟨p, ?_, hp2⟩
    simp only [generateResource, generateResourceType, hp1]

theorem resourcesLoop_panic (U : UnicodeTables) (fuel : Nat) (m : List (String × Resource)) :
    ∀ (names : List String),
      (∀ nt ∈ names, ∃ r, m.lookup nt = some r ∧ r.wellFormed = true ∧ r.depth ≤ fuel) →
      (∃ nt ∈ names, ∃ r, m.lookup nt = some r ∧ r.supported = false) →
      ∀ st, ∃ p, resourcesLoop U fuel m names st = .panic p ∧ p.unsupportedSchema = true := by
  intro names
  induction names with
  | nil => rintro _ ⟨nt, hmem, _⟩; simp at hmem
  | cons nt rest ih =>
    rintro hall ⟨bad, hbad, rb, hlb, hsb⟩ st
    obtain ⟨r, hl, hwf, hf⟩ := hall nt (List.mem_cons_self _ _)
    cases hsup : r.supported with
    | false =>
      obtain ⟨p, hp1, hp2⟩ := generateResource_panic U fuel nt st hwf hsup hf
      refine ⟨p, ?_, hp2⟩
      simp only [resourcesLoop, hl, hp1]
    | true =>
      obtain ⟨st2, h2⟩ := generateResource_total U fuel nt st hsup hf
      rcases List.mem_cons.mp hbad with hb | hb
      · subst hb
        rw [hl] at hlb
        cases hlb
        rw [hsup] at hsb
        cases hsb
      · obtain ⟨p, hp1, hp2⟩ := ih (fun n hn => hall n (List.mem_cons_of_mem _ hn))
          ⟨bad, hb, rb, hlb, hsb⟩ st2
        refine ⟨p, ?_, hp2⟩
        simp only [resourcesLoop, hl, h2]
        exact hp1

theorem provider_wellFormed_of_mem {p : Provider} (h : p.wellFormed = true)
    {nt : String} {r : Resource} (hmem : (nt, r) ∈ p.ResourcesMap) : r.wellFormed = true := by
  simp only [Provider.wellFormed, Bool.and_eq_true, List.all_eq_true] at h
  exact h.2 (nt, r) hmem

theorem provider_unsupported {p : Provider} (h : p.supported = false) :
    ∃ nt r, (nt, r) ∈ p.ResourcesMap ∧ r.supported = false := by
  unfold Provider.supported at h
  rw [List.all_eq_false] at h
  obtain ⟨⟨nt, r⟩, hmem, hr⟩ := h
  exact ⟨nt, r, hmem, by simpa using hr⟩

theorem Generate_panic (U : UnicodeTables) (fuel : Nat) (p : Provider) (ns : String)
    (old : GenState) (hwf : p.wellFormed = true) (hs : p.supported = false)
    (hf : p.depth ≤ fuel) :
    ∃ e, Generate U fuel p ns old = .panic e ∧ e.unsupportedSchema = true := by
  obtain ⟨bad, rb, hmemb, hsb⟩ := provider_unsupported hs
  have hnd : (p.ResourcesMap.map Prod.fst).Nodup := by
    simp only [Provider.wellFormed, Bool.and_eq_true, decide_eq_true_eq] at hwf
    exact hwf.1
  obtain ⟨e, h1, h2⟩ := resourcesLoop_panic U fuel p.ResourcesMap
    (sortStrings (p.ResourcesMap.map Prod.fst))
    (fun nt hn => by
      obtain ⟨r, hl, hmem⟩ := lookup_of_mem_keys p.ResourcesMap nt (mem_sortStrings.mp hn)
      exact ⟨r, hl, provider_wellFormed_of_mem hwf hmem,
        le_trans (provider_depth_of_mem hmem) hf⟩)
    ⟨bad, mem_sortStrings.mpr (List.mem_map.mpr ⟨(bad, rb), hmemb, rfl⟩), rb,
      lookup_eq_of_mem_nodup p.ResourcesMap bad rb hnd hmemb, hsb⟩
    { saltValue := 0, prefixTemplateData := { Namespace := ns, StructTypes := [] },
      code := [] }
  refine ⟨e, ?_, h2⟩
  unfold Generate
  simp only [h1]


theorem resource_unsupported_iff_reaches (r : Resource) (hwf : r.wellFormed = true) :
    r.supported = false ↔ ∃ a, r.reaches a ∧ a.offending = true := by
  cases r with
  | mk m =>
    simp only [Resource.wellFormed, Bool.and_eq_true, decide_eq_true_eq] at hwf
    simp only [Resource.supported, Resource.reaches, Resource.Schema]
    constructor
    · intro h
      obtain ⟨name, c, hmem, hc⟩ := supportedAttrs_false h
      obtain ⟨a, ha, hoff⟩ :=
        (unsupported_iff_reaches c (wellFormed_of_mem hwf.2 hmem)).mp hc
      exact ⟨a, ⟨name, c, hmem, ha⟩, hoff⟩
    · rintro ⟨a, ⟨name, c, hmem, ha⟩, hoff⟩
      exact supportedAttrs_mem_false hmem (unsupported_of_reaches ha hoff)

theorem provider_unsupported_iff_reaches (p : Provider) (hwf : p.wellFormed = true) :
    p.supported = false ↔ ∃ a, p.reaches a ∧ a.offending = true := by
  constructor
  · intro h
    obtain ⟨nt, r, hmem, hr⟩ := provider_unsupported h
    obtain ⟨a, ha, hoff⟩ :=
      (resource_unsupported_iff_reaches r (provider_wellFormed_of_mem hwf hmem)).mp hr
    exact ⟨a, ⟨nt, r, hmem, ha⟩, hoff⟩
  · rintro ⟨a, ⟨nt, r, hmem, ha⟩, hoff⟩
    have hr := (resource_unsupported_iff_reaches r
      (provider_wellFormed_of_mem hwf hmem)).mpr ⟨a, ha, hoff⟩
    cases hp : p.supported with
    | false => rfl
    | true => rw [provider_supported_of_mem hp hmem] at hr; cases hr

theorem result_dichotomy {α : Type} {x : Result α} {b : Bool} {Q : Prop}
    (hq : b = false ↔ Q)
    (hok : b = true → ∃ a st, x = .ok a st)
    (hpanic : b = false → ∃ e, x = .panic e ∧ e.unsupportedSchema = true) :
    ((∃ e, x = .panic e ∧ e.unsupportedSchema = true) ↔ Q) ∧
    ((∃ a st, x = .ok a st) ↔ ¬ Q) := by
  cases hb : b with
  | true =>
    obtain ⟨a, st, hx⟩ := hok hb
    have hnq : ¬ Q := fun q => by rw [hq.mpr q] at hb; cases hb
    refine ⟨⟨?_, fun q => absurd q hnq⟩, ⟨fun _ => hnq, fun _ => ⟨a, st, hx⟩⟩⟩
    rintro ⟨e, he, _⟩
    rw [hx] at he
    cases he
  | false =>
    obtain ⟨e, hx, he⟩ := hpanic hb
    have q : Q := hq.mp hb
    refine ⟨⟨fun _ => q, fun _ => ⟨e, hx, he⟩⟩, ⟨?_, fun hnq => absurd q hnq⟩⟩
    rintro ⟨a, st, h⟩
    rw [hx] at h
    cases h

/-! ## Independence of the enumeration order at every depth -/

theorem SameSchema_flags {s s2 : Schema} (h : SameSchema s s2) :
    s.Required = s2.Required ∧ s.ForceNew = s2.ForceNew := by
  cases h with
  | mk t req fn e e2 he => exact ⟨rfl, rfl⟩

theorem lookup_pair {α β : Type} {m : List (String × α)} {m2 : List (String × β)}
    (hperm : (m2.map Prod.fst).Perm (m.map Prod.fst)) {name : String}
    (hn : name ∈ m.map Prod.fst) :
    ∃ s s2, m.lookup name = some s ∧ m2.lookup name = some s2 := by
  obtain ⟨s, hs, _⟩ := lookup_of_mem_keys m name hn
  obtain ⟨s2, hs2, _⟩ := lookup_of_mem_keys m2 name (hperm.mem_iff.mpr hn)
  exact ⟨s, s2, hs, hs2⟩

theorem classifyLoop_rel (m m2 : List (String × Schema)) :
    ∀ (names : List String),
      (∀ name ∈ names, ∃ s s2, m.lookup name = some s ∧ m2.lookup name = some s2 ∧
        s.Required = s2.Required ∧ s.ForceNew = s2.ForceNew) →
      ∀ (p i : List String), classifyLoop m names p i = classifyLoop m2 names p i := by
  intro names
  induction names with
  | nil => intro _ p i; rfl
  | cons name rest ih =>
    intro hall p i
    obtain ⟨s, s2, hs, hs2, hr, hf⟩ := hall name (List.mem_cons_self _ _)
    simp only [classifyLoop, hs, hs2, hr, hf]
    exact ih (fun n hn => hall n (List.mem_cons_of_mem _ hn)) _ _

theorem structFieldsLoop_rel (U : UnicodeTables) (get : TypeMapper) (structType : String)
    (m m2 : List (String × Schema)) :
    ∀ (names : List String),
      (∀ name ∈ names, ∃ s s2, m.lookup name = some s ∧ m2.lookup name = some s2 ∧
        s.Required = s2.Required ∧ ∀ st, get structType name s st = get structType name s2 st) →
      ∀ (acc : List structField) (st : GenState),
        structFieldsLoop U get structType m names acc st =
          structFieldsLoop U get structType m2 names acc st := by
  intro names
  induction names with
  | nil => intro _ acc st; rfl
  | cons name rest ih =>
    intro hall acc st
    obtain ⟨s, s2, hs, hs2, hr, hget⟩ := hall name (List.mem_cons_self _ _)
    have ih2 := ih (fun n hn => hall n (List.mem_cons_of_mem _ hn))
    simp only [structFieldsLoop, hs, hs2, getGoTypeWithPtrUsing, hget st, hr, ih2]

theorem generateResourceTypeUsing_same (U : UnicodeTables) (get : TypeMapper)
    {m m2 : List (String × Schema)}
    (hperm : (m2.map Prod.fst).Perm (m.map Prod.fst))
    (hval : ∀ name s s2, m.lookup name = some s → m2.lookup name = some s2 →
      SameSchema s s2 ∧ ∀ g st, get g name s st = get g name s2 st)
    (nativeType : String) (insertID : Bool) (st : GenState) :
    generateResourceTypeUsing U get nativeType (.mk m) insertID st =
      generateResourceTypeUsing U get nativeType (.mk m2) insertID st := by
  have hsort : sortStrings (m2.map Prod.fst) = sortStrings (m.map Prod.fst) :=
    sortStrings_eq_of_perm hperm
  have hc := classifyLoop_rel m m2 (sortStrings (m.map Prod.fst))
    (fun name hn => by
      obtain ⟨s, s2, hs, hs2⟩ := lookup_pair hperm (mem_sortStrings.mp hn)
      have hf := SameSchema_flags (hval name s s2 hs hs2).1
      exact ⟨s, s2, hs, hs2, hf.1, hf.2⟩)
  have hl := structFieldsLoop_rel U get (Title U nativeType) m m2
    (sortStrings (m.map Prod.fst))
    (fun name hn => by
      obtain ⟨s, s2, hs, hs2⟩ := lookup_pair hperm (mem_sortStrings.mp hn)
      have h := hval name s s2 hs hs2
      exact ⟨s, s2, hs, hs2, (SameSchema_flags h.1).1, fun st => h.2 _ st⟩)
  simp only [generateResourceTypeUsing, Resource.Schema, hsort, hc, hl]

theorem getGoType_same (U : UnicodeTables) :
    ∀ (fuel : Nat) (s s2 : Schema), SameSchema s s2 →
      ∀ (g n : String) (st : GenState),
        getGoType U fuel g n s st = getGoType U fuel g n s2 st := by
  intro fuel
  induction fuel with
  | zero => intro s s2 _ g n st; rfl
  | succ fuel ih =>
    intro s s2 h g n st
    cases h with
    | mk t req fn e e2 he =>
      cases he with
      | nil => rfl
      | other => rfl
      | nilSchema => rfl
      | nilResource => rfl
      | schema a a2 ha =>
        cases t <;> simp [getGoType, Schema.Type_, Schema.Elem, elemSchemaCase, ih a a2 ha g n st]
      | resource r r2 hr =>
        cases hr with
        | mk m m2 hnd hperm hval =>
          have hg := generateResourceTypeUsing_same U (getGoType U fuel) hperm
            (fun name a a2 ha ha2 =>
              ⟨hval name a a2 ha ha2, fun g st => ih a a2 (hval name a a2 ha ha2) g name st⟩)
          cases t <;> simp [getGoType, Schema.Type_, Schema.Elem, nestedResourceCase, hg]

theorem generateResource_same (U : UnicodeTables) (fuel : Nat) {r r2 : Resource}
    (h : SameResource r r2) (nativeType : String) (st : GenState) :
    generateResource U fuel nativeType r st = generateResource U fuel nativeType r2 st := by
  cases h with
  | mk m m2 hnd hperm hval =>
    have hg := generateResourceTypeUsing_same U (getGoType U fuel) hperm
      (fun name a a2 ha ha2 =>
        ⟨hval name a a2 ha ha2,
          fun g st => getGoType_same U fuel a a2 (hval name a a2 ha ha2) g name st⟩)
    simp only [generateResource, generateResourceType, hg]

theorem resourcesLoop_rel (U : UnicodeTables) (fuel : Nat) (m m2 : List (String × Resource)) :
    ∀ (names : List String),
      (∀ nt ∈ names, ∃ r r2, m.lookup nt = some r ∧ m2.lookup nt = some r2 ∧
        SameResource r r2) →
      ∀ st, resourcesLoop U fuel m names st = resourcesLoop U fuel m2 names st := by
  intro names
  induction names with
  | nil => intro _ st; rfl
  | cons nt rest ih =>
    intro hall st
    obtain ⟨r, r2, hr, hr2, hsame⟩ := hall nt (List.mem_cons_self _ _)
    have ih2 := ih (fun n hn => hall n (List.mem_cons_of_mem _ hn))
    simp only [resourcesLoop, hr, hr2, generateResource_same U fuel hsame, ih2]

theorem Generate_same (U : UnicodeTables) (fuel : Nat) {p p2 : Provider}
    (h : SameProvider p p2) (ns : String) (old old2 : GenState) :
    Generate U fuel p ns old = Generate U fuel p2 ns old2 := by
  obtain ⟨hnd, hperm, hval⟩ := h
  have hsort : sortStrings (p2.ResourcesMap.map Prod.fst) =
      sortStrings (p.ResourcesMap.map Prod.fst) := sortStrings_eq_of_perm hperm
  have hl := resourcesLoop_rel U fuel p.ResourcesMap p2.ResourcesMap
    (sortStrings (p.ResourcesMap.map Prod.fst))
    (fun nt hn => by
      obtain ⟨r, r2, hr, hr2⟩ := lookup_pair hperm (mem_sortStrings.mp hn)
      exact ⟨r, r2, hr, hr2, hval nt r r2 hr hr2⟩)
  simp only [Generate, hsort, hl]

theorem SameResource_of_lookup {m m2 : List (String × Schema)}
    (hnd : (m.map Prod.fst).Nodup) (hperm : (m2.map Prod.fst).Perm (m.map Prod.fst))
    (h : ∀ e ∈ m, ∃ s2, m2.lookup e.1 = some s2 ∧ SameSchema e.2 s2) :
    SameResource (.mk m) (.mk m2) := by
  refine SameResource.mk m m2 hnd hperm ?_
  intro name s s2 hs hs2
  obtain ⟨s3, h3, hsame⟩ := h (name, s) (mem_of_lookup_eq_some m name s hs)
  rw [hs2] at h3
  cases h3
  exact hsame

theorem SameProvider_of_lookup {p p2 : Provider}
    (hnd : (p.ResourcesMap.map Prod.fst).Nodup)
    (hperm : (p2.ResourcesMap.map Prod.fst).Perm (p.ResourcesMap.map Prod.fst))
    (h : ∀ e ∈ p.ResourcesMap, ∃ r2, p2.ResourcesMap.lookup e.1 = some r2 ∧
      SameResource e.2 r2) :
    SameProvider p p2 := by
  refine ⟨hnd, hperm, ?_⟩
  intro nt r r2 hr hr2
  obtain ⟨r3, h3, hsame⟩ := h (nt, r) (mem_of_lookup_eq_some p.ResourcesMap nt r hr)
  rw [hr2] at h3
  cases h3
  exact hsame

theorem SameSchema_leaf (t : ValueType) (req fn : Bool) :
    SameSchema (.mk t req fn .nil) (.mk t req fn .nil) :=
  SameSchema.mk t req fn .nil .nil SameElem.nil

theorem shopProvider_same : SameProvider shopProvider shopProviderReordered := by
  refine SameProvider_of_lookup (by decide) (by decide) ?_
  intro e he
  simp only [shopProvider, List.mem_cons, List.mem_singleton, List.not_mem_nil, or_false] at he
  rcases he with rfl | rfl
  · refine ⟨_, rfl, SameResource_of_lookup (by decide) (by decide) ?_⟩
    intro a ha
    simp only [List.mem_cons, List.mem_singleton, List.not_mem_nil, or_false] at ha
    rcases ha with rfl | rfl
    · exact ⟨_, rfl, SameSchema_leaf _ _ _⟩
    · refine ⟨_, rfl, SameSchema.mk _ _ _ _ _ (SameElem.resource _ _
        (SameResource_of_lookup (by decide) (by decide) ?_))⟩
      intro b hb
      simp only [List.mem_cons, List.mem_singleton, List.not_mem_nil, or_false] at hb
      rcases hb with rfl | rfl
      · exact ⟨_, rfl, SameSchema_leaf _ _ _⟩
      · exact ⟨_, rfl, SameSchema_leaf _ _ _⟩
  · refine ⟨_, rfl, SameResource_of_lookup (by decide) (by decide) ?_⟩
    intro a ha
    simp only [List.mem_cons, List.mem_singleton, List.not_mem_nil, or_false] at ha
    subst ha
    exact ⟨_, rfl, SameSchema_leaf _ _ _⟩

/-! ## The emission order of the nested aggregates -/

theorem structFieldsLoop_names {U : UnicodeTables} {get : TypeMapper} {f : NameLister}
    {structType : String} {m : List (String × Schema)}
    (hget : ∀ g n s st t st1, get g n s st = .ok t st1 →
      nestedTypes st1.code = nestedTypes st.code ++ (f g n s st.saltValue).1 ∧
      st1.saltValue = (f g n s st.saltValue).2) :
    ∀ (names : List String) (acc : List structField) (st : GenState)
      (fields : List structField) (st1 : GenState),
      structFieldsLoop U get structType m names acc st = .ok fields st1 →
      nestedTypes st1.code =
        nestedTypes st.code ++ (postOrderLoop f structType m names st.saltValue).1 ∧
      st1.saltValue = (postOrderLoop f structType m names st.saltValue).2 := by
  intro names
  induction names with
  | nil =>
    intro acc st fields st1 h
    simp only [structFieldsLoop, Result.ok.injEq] at h
    rw [← h.2]
    simp [postOrderLoop]
  | cons name rest ih =>
    intro acc st fields st1 h
    unfold structFieldsLoop at h
    split at h
    · simp at h
    · next s hl =>
      split at h
      · next t st2 hres =>
        obtain ⟨t0, h0, _⟩ := getGoTypeWithPtrUsing_ok_inv hres
        obtain ⟨hn, hc⟩ := hget _ _ _ _ _ _ h0
        obtain ⟨hn2, hc2⟩ := ih _ _ _ _ h
        simp only [postOrderLoop, hl]
        rw [hn2, hn, hc2, hc, List.append_assoc]
        exact ⟨rfl, rfl⟩
      · simp at h
      · simp at h

theorem getGoType_names (U : UnicodeTables) :
    ∀ (fuel : Nat) (g n : String) (s : Schema) (st : GenState) (t : String) (st1 : GenState),
      getGoType U fuel g n s st = .ok t st1 →
      nestedTypes st1.code =
        nestedTypes st.code ++ (postOrderNames U fuel g n s st.saltValue).1 ∧
      st1.saltValue = (postOrderNames U fuel g n s st.saltValue).2 := by
  intro fuel
  induction fuel with
  | zero => intro g n s st t st1 h; simp [getGoType_zero] at h
  | succ fuel ih =>
    intro g n s st t st1 h
    rcases getGoType_succ_ok_inv h with ⟨hst, hk⟩ | ⟨hk, e, hel, he⟩ | ⟨hk, r, hel, hr⟩
    · subst hst
      rcases hk with ⟨hk, _⟩ | ⟨hk, _⟩ | ⟨hk, _⟩ | ⟨hk, _⟩ | ⟨hk, _⟩ <;>
        simp [postOrderNames, hk]
    · obtain ⟨t0, h0, _⟩ := elemSchemaCase_ok_inv he
      have := ih _ _ _ _ _ _ h0
      rcases hk with hk | hk <;> simpa [postOrderNames, hk, hel, postOrderElem] using this
    · obtain ⟨_, pi, hgen⟩ := nestedResourceCase_ok_inv hr
      obtain ⟨fields, stm, hloop, hst1, _⟩ := generateResourceTypeUsing_ok_inv hgen
      obtain ⟨hn, hc⟩ := structFieldsLoop_names (U := U) ih _ _ _ _ _ hloop
      have hn1 : nestedTypes st1.code = nestedTypes stm.code ++
          [Title U (deriveGoType g n st).1] := by
        rw [hst1]
        simp [nestedTypes]
      have hc1 : st1.saltValue = stm.saltValue := by rw [hst1]
      rw [hn1, hc1, hn, hc]
      rcases hk with hk | hk <;>
        simp [postOrderNames, hk, hel, postOrderElem, deriveGoType]


theorem generateResource_names {U : UnicodeTables} {fuel : Nat} {nativeType : String}
    {r : Resource} {st st2 : GenState} {u : Unit}
    (h : generateResource U fuel nativeType r st = .ok u st2) :
    nestedTypes st2.code = nestedTypes st.code ++
        (postOrderLoop (postOrderNames U fuel) (Title U nativeType) r.Schema
          (sortStrings (r.Schema.map Prod.fst)) st.saltValue).1 ∧
      st2.saltValue =
        (postOrderLoop (postOrderNames U fuel) (Title U nativeType) r.Schema
          (sortStrings (r.Schema.map Prod.fst)) st.saltValue).2 := by
  unfold generateResource at h
  split at h
  · next prov imm st1 hgen =>
    obtain ⟨fields, stm, hloop, hst1, _⟩ := generateResourceTypeUsing_ok_inv hgen
    obtain ⟨hn, hc⟩ := structFieldsLoop_names (U := U) (getGoType_names U fuel) _ _ _ _ _ hloop
    simp only [Result.ok.injEq, true_and] at h
    rw [← h, hst1]
    refine ⟨?_, hc⟩
    show nestedTypes ((stm.code ++ _) ++ _) = _
    rw [nestedTypes_append, nestedTypes_append, hn]
    simp [nestedTypes]
  · simp at h
  · simp at h

theorem resourcesLoop_postOrder (U : UnicodeTables) (fuel : Nat)
    (m : List (String × Resource)) :
    ∀ (names : List String) (st st1 : GenState) (u : Unit),
      resourcesLoop U fuel m names st = .ok u st1 →
      ∃ blocks : List ResourceBlock,
        st1.code = st.code ++ (blocks.map ResourceBlock.fragments).flatten ∧
        List.Forall₂ (BlockFor U m) names blocks ∧
        (∀ b ∈ blocks, ∀ d ∈ b.nested, d.InsertID = false) ∧
        blocks.map (fun b => b.nested.map (fun d => d.StructType)) =
          (postOrderRun U fuel m names st.saltValue).1 ∧
        st1.saltValue = (postOrderRun U fuel m names st.saltValue).2 := by
  intro names
  induction names with
  | nil =>
    intro st st1 u h
    simp only [resourcesLoop, Result.ok.injEq] at h
    obtain ⟨_, h⟩ := h
    subst h
    exact ⟨[], by simp, List.Forall₂.nil, by simp, rfl, rfl⟩
  | cons nt rest ih =>
    intro st st1 u h
    unfold resourcesLoop at h
    split at h
    · simp at h
    · next r hl =>
      split at h
      · next u2 st2 hres =>
        obtain ⟨ds, fields, hcode, _, hmint, hall⟩ := generateResource_shape hres
        obtain ⟨hn, hc⟩ := generateResource_names hres
        obtain ⟨blocks, hcode1, hall1, hins1, hnames1, hc1⟩ := ih _ _ _ h
        have hds : ds.map (fun d => d.StructType) =
            (postOrderLoop (postOrderNames U fuel) (Title U nt) r.Schema
              (sortStrings (r.Schema.map Prod.fst)) st.saltValue).1 := by
          rw [hcode, nestedTypes_append, nestedTypes_append,
            nestedTypes_nested ds hmint.2.1, List.append_assoc] at hn
          have hn2 := List.append_cancel_left hn
          simpa [nestedTypes] using hn2
        refine ⟨⟨ds, { StructType := Title U nt, StructFields := fields, InsertID := true },
            { StructType := Title U nt, NativeType := nt,
              ProvidedAttributes :=
                (sortStrings (r.Schema.map Prod.fst)).filter
                  (fun n => !attrRequired r.Schema n),
              ImmutableAttributes :=
                (sortStrings (r.Schema.map Prod.fst)).filter
                  (fun n => attrForceNew r.Schema n) }⟩ :: blocks, ?_, ?_, ?_, ?_, ?_⟩
        · rw [hcode1, hcode]
          simp [ResourceBlock.fragments]
        · refine List.Forall₂.cons ?_ hall1
          exact ⟨rfl, rfl, rfl, rfl, r, hl, rfl, rfl, fieldNames_of_forall₂ hall⟩
        · intro b hb d hd
          rcases List.mem_cons.mp hb with rfl | hb
          · exact hmint.2.1 d hd
          · exact hins1 b hb d hd
        · simp only [List.map_cons, postOrderRun, hl]
          rw [hds, hnames1, hc]
        · simp only [postOrderRun, hl]
          rw [hc1, hc]
      · simp at h
      · simp at h

theorem Generate_postOrder {U : UnicodeTables} {fuel : Nat} {p : Provider} {ns : String}
    {old st : GenState} {u : Unit} (h : Generate U fuel p ns old = .ok u st) :
    ∃ blocks : List ResourceBlock,
      st.code = Fragment.prefixTemplate st.prefixTemplateData ::
        (blocks.map ResourceBlock.fragments).flatten ∧
      List.Forall₂ (BlockFor U p.ResourcesMap)
        (sortStrings (p.ResourcesMap.map Prod.fst)) blocks ∧
      (∀ b ∈ blocks, ∀ d ∈ b.nested, d.InsertID = false) ∧
      blocks.map (fun b => b.nested.map (fun d => d.StructType)) =
        (postOrderRun U fuel p.ResourcesMap (sortStrings (p.ResourcesMap.map Prod.fst)) 0).1 ∧
      st.saltValue =
        (postOrderRun U fuel p.ResourcesMap (sortStrings (p.ResourcesMap.map Prod.fst)) 0).2 := by
  simp only [Generate] at h
  split at h
  · next u1 st1 hloop =>
    obtain ⟨blocks, hcode, hall, hins, hnames, hc⟩ :=
      resourcesLoop_postOrder U fuel _ _ _ _ _ hloop
    simp only [Result.ok.injEq, true_and] at h
    simp only [List.nil_append] at hcode
    refine ⟨blocks, ?_, hall, hins, hnames, ?_⟩
    · rw [← h]
      simp only [generatePrefix, hcode]
    · rw [← h]
      exact hc
  · simp at h
  · simp at h

/-! ## Minted names end in a counter -/

theorem endsInCounter_of_data {s : String} {X D : List Char}
    (h : s.data = X ++ '_' :: D) (hne : D ≠ []) (hd : ∀ c ∈ D, isDigitChar c = true) :
    endsInCounter s = true := by
  have hr : s.data.reverse = D.reverse ++ ('_' :: X.reverse) := by
    rw [h]
    simp
  have hd2 : ∀ c ∈ D.reverse, isDigitChar c = true := fun c hc => hd c (List.mem_reverse.mp hc)
  have hu : isDigitChar '_' = false := by decide
  unfold endsInCounter
  rw [hr, List.takeWhile_append_of_pos hd2, List.dropWhile_append_of_pos hd2]
  simp [List.takeWhile, List.dropWhile, hu, hne]

theorem toDigits_ne_nil (m : Nat) (hm : 1 ≤ m) : Nat.toDigits 10 m ≠ [] := by
  intro h
  have := (toDigits_spec m).2
  rw [h] at this
  simp at this
  omega

theorem minted_endsInCounter (U : UnicodeTables) (g a : String) (m : Nat) (hm : 1 ≤ m) :
    endsInCounter (Title U (g ++ "_" ++ a ++ "_" ++ toString ((m : Nat) : Int))) = true := by
  obtain ⟨X, hX⟩ := minted_data U g a m
  refine endsInCounter_of_data hX (toDigits_ne_nil m hm) ?_
  intro c hc
  have := (toDigits_spec m).1 c hc
  simp [isDigitChar, this.1, this.2]

theorem minting_endsInCounter {U : UnicodeTables} {y : Int} {ds : List structData}
    (h : Minting U 0 y ds) (hlen : (ds.length : Int) < 2 ^ 63) :
    ∀ d ∈ ds, endsInCounter d.StructType = true := by
  obtain ⟨ks, _, hb, hf⟩ := minting_counters h hlen
  have hf2 := forall₂_and_right hf hb
  intro d hd
  obtain ⟨k, _, ⟨g, a, hname⟩, hk⟩ := forall₂_exists_right hf2 hd
  rw [hname]
  exact minted_endsInCounter U g a k hk.1

/-! ## The claims -/

/-- C2. A schema of kind Bool, Int, Float, String or Map is mapped to the fixed type
expression of its kind, whatever the parent name, the attribute name, the flags
and the `Elem` value, and the generation state (counter, emission list, prefix
data) is returned unchanged; a non-required Map yields `*map[string]string`
through `getGoTypeWithPtr`. -/
theorem getGoType_primitive_map (U : UnicodeTables) (fuel : Nat) (goType name : String)
    (req fn : Bool) (e : ElemVal) (st : GenState) :
    getGoType U (fuel + 1) goType name (.mk .TypeBool req fn e) st = .ok "bool" st ∧
    getGoType U (fuel + 1) goType name (.mk .TypeInt req fn e) st = .ok "int" st ∧
    getGoType U (fuel + 1) goType name (.mk .TypeFloat req fn e) st = .ok "float64" st ∧
    getGoType U (fuel + 1) goType name (.mk .TypeString req fn e) st = .ok "string" st ∧
    getGoType U (fuel + 1) goType name (.mk .TypeMap req fn e) st
      = .ok "map[string]string" st ∧
    getGoTypeWithPtr U (fuel + 1) goType name (.mk .TypeMap false fn e) st
      = .ok "*map[string]string" st :=
  ⟨rfl, rfl, rfl, rfl, rfl, rfl⟩

/-- C3. On a supported schema (with fuel for its depth) `getGoType` returns a type
expression `t` that does not begin with `*`, and `getGoTypeWithPtr` returns
`"*" ++ t` when the schema is not required and `t` itself when it is required;
so the expression returned by `getGoTypeWithPtr`, which is the type of the
field, begins with `*` exactly when the attribute is not required. -/
theorem getGoTypeWithPtr_optional_iff (U : UnicodeTables) (fuel : Nat) (goType name : String)
    (s : Schema) (st : GenState) (hs : s.supported = true) (hf : s.depth ≤ fuel) :
    ∃ t st1, getGoType U fuel goType name s st = .ok t st1 ∧
      t.data.head? ≠ some '*' ∧
      (s.Required = false →
        getGoTypeWithPtr U fuel goType name s st = .ok ("*" ++ t) st1) ∧
      (s.Required = true → getGoTypeWithPtr U fuel goType name s st = .ok t st1) ∧
      ∃ t', getGoTypeWithPtr U fuel goType name s st = .ok t' st1 ∧
        (t'.data.head? = some '*' ↔ s.Required = false) := by
  obtain ⟨t, st1, h⟩ := getGoType_total U fuel s hs hf goType name st
  have hne := getGoType_head_ne_star h
  have hptr := getGoTypeWithPtrUsing_ok h
  refine ⟨t, st1, h, hne, ?_, ?_, ?_⟩
  · intro hr
    simpa [getGoTypeWithPtr, hr] using hptr
  · intro hr
    simpa [getGoTypeWithPtr, hr] using hptr
  · cases hr : s.Required with
    | false =>
      refine ⟨"*" ++ t, by simpa [getGoTypeWithPtr, hr] using hptr, ?_⟩
      simp [head_star]
    | true =>
      refine ⟨t, by simpa [getGoTypeWithPtr, hr] using hptr, ?_⟩
      simp [hne]

/-- Witness of C3 on the optional List attribute of Scenario C. -/
theorem getGoTypeWithPtr_optional_iff_witness :
    ∃ t st1, getGoType asciiTables 2 "Thing" "items" itemsSchema (initState "N") = .ok t st1 ∧
      t.data.head? ≠ some '*' ∧
      (itemsSchema.Required = false →
        getGoTypeWithPtr asciiTables 2 "Thing" "items" itemsSchema (initState "N")
          = .ok ("*" ++ t) st1) ∧
      (itemsSchema.Required = true →
        getGoTypeWithPtr asciiTables 2 "Thing" "items" itemsSchema (initState "N")
          = .ok t st1) ∧
      ∃ t', getGoTypeWithPtr asciiTables 2 "Thing" "items" itemsSchema (initState "N")
          = .ok t' st1 ∧
        (t'.data.head? = some '*' ↔ itemsSchema.Required = false) :=
  getGoTypeWithPtr_optional_iff asciiTables 2 "Thing" "items" itemsSchema (initState "N")
    (by decide) (by decide)

/-- C4. For a List or Set whose `Elem` is a supported attribute schema, `getGoType`
returns `"[]"` followed by the type expression `t` of the element, which carries
no optional marker; the result is the same whether the element is required or
not, and `getGoTypeWithPtr` wraps the whole expression according to the
`Required` flag of the outer attribute alone. -/
theorem getGoType_sequence_of_schema (U : UnicodeTables) (fuel : Nat) (goType name : String)
    (ty : ValueType) (fn : Bool) (ety : ValueType) (ereq efn : Bool) (eel : ElemVal)
    (st : GenState) (hk : ty = .TypeList ∨ ty = .TypeSet)
    (hs : (Schema.mk ety ereq efn eel).supported = true)
    (hf : (Schema.mk ety ereq efn eel).depth ≤ fuel) :
    ∃ t st1,
      getGoType U fuel goType name (.mk ety ereq efn eel) st = .ok t st1 ∧
      t.data.head? ≠ some '*' ∧
      (∀ req, getGoType U (fuel + 1) goType name
          (.mk ty req fn (.schema (.mk ety true efn eel))) st = .ok ("[]" ++ t) st1) ∧
      (∀ req, getGoType U (fuel + 1) goType name
          (.mk ty req fn (.schema (.mk ety false efn eel))) st = .ok ("[]" ++ t) st1) ∧
      getGoTypeWithPtr U (fuel + 1) goType name
          (.mk ty true fn (.schema (.mk ety ereq efn eel))) st = .ok ("[]" ++ t) st1 ∧
      getGoTypeWithPtr U (fuel + 1) goType name
          (.mk ty false fn (.schema (.mk ety ereq efn eel))) st
            = .ok ("*" ++ ("[]" ++ t)) st1 := by
  obtain ⟨t, st1, h⟩ := getGoType_total U fuel _ hs hf goType name st
  have ht : getGoType U fuel goType name (.mk ety true efn eel) st = .ok t st1 := by
    rw [getGoType_flags_irrelevant U fuel goType name ety true efn ereq efn eel st]
    exact h
  have hfl : getGoType U fuel goType name (.mk ety false efn eel) st = .ok t st1 := by
    rw [getGoType_flags_irrelevant U fuel goType name ety false efn ereq efn eel st]
    exact h
  refine ⟨t, st1, h, getGoType_head_ne_star h, ?_, ?_, ?_, ?_⟩ <;>
    rcases hk with rfl | rfl <;>
    simp [getGoType, getGoTypeWithPtr, getGoTypeWithPtrUsing, Schema.Type_, Schema.Elem,
      Schema.Required, elemSchemaCase, h, ht, hfl]

/-- Witness of C4: a List of required strings. -/
theorem getGoType_sequence_of_schema_witness :
    ∃ t st1,
      getGoType asciiTables 1 "Thing" "names" (.mk .TypeString true false .nil)
        (initState "N") = .ok t st1 ∧
      t.data.head? ≠ some '*' ∧
      (∀ req, getGoType asciiTables 2 "Thing" "names"
          (.mk .TypeList req false (.schema (.mk .TypeString true false .nil)))
          (initState "N") = .ok ("[]" ++ t) st1) ∧
      (∀ req, getGoType asciiTables 2 "Thing" "names"
          (.mk .TypeList req false (.schema (.mk .TypeString false false .nil)))
          (initState "N") = .ok ("[]" ++ t) st1) ∧
      getGoTypeWithPtr asciiTables 2 "Thing" "names"
          (.mk .TypeList true false (.schema (.mk .TypeString true false .nil)))
          (initState "N") = .ok ("[]" ++ t) st1 ∧
      getGoTypeWithPtr asciiTables 2 "Thing" "names"
          (.mk .TypeList false false (.schema (.mk .TypeString true false .nil)))
          (initState "N") = .ok ("*" ++ ("[]" ++ t)) st1 :=
  getGoType_sequence_of_schema asciiTables 1 "Thing" "names" .TypeList false .TypeString
    true false .nil (initState "N") (Or.inl rfl) (by decide) (by decide)

/-- C10, counterexample. With the counter at the largest `int`, the increment wraps
around: the minted name ends in the rendering of `-2^63`, not of `n + 1`, and
the counter is `-2^63`, not `n + 1`. -/
theorem deriveGoType_wraps_at_max :
    deriveGoType "Thing" "items" maxCounterState =
        ("Thing_items_-9223372036854775808",
          { maxCounterState with saltValue := -9223372036854775808 }) ∧
      (deriveGoType "Thing" "items" maxCounterState).1 ≠
        "Thing" ++ "_" ++ "items" ++ "_" ++ toString (maxCounterState.saltValue + 1) ∧
      (deriveGoType "Thing" "items" maxCounterState).2.saltValue ≠
        maxCounterState.saltValue + 1 := by
  decide

/-- C10, amended. For every parent name, attribute name and counter value `n`
with `n + 1` still an `int` (`n < 2^63 - 1`), `deriveGoType` returns
`parent_attr_` followed by the decimal rendering of `n + 1` and sets the
counter to `n + 1`, changing no other state; from the counter value `0` of a
fresh run the minted name ends in `_1`. -/
theorem deriveGoType_mints (goType name : String) (st : GenState)
    (h : -2 ^ 63 ≤ st.saltValue ∧ st.saltValue + 1 < 2 ^ 63) :
    deriveGoType goType name st =
        (goType ++ "_" ++ name ++ "_" ++ toString (st.saltValue + 1),
          { st with saltValue := st.saltValue + 1 }) ∧
      (st.saltValue = 0 →
        (deriveGoType goType name st).1 = goType ++ "_" ++ name ++ "_" ++ "1") := by
  have hd := deriveGoType_of_range goType name st h
  refine ⟨hd, ?_⟩
  intro h0
  rw [hd, h0]
  rfl

/-- Witness of C10 (amended) at the start of a run. -/
theorem deriveGoType_mints_witness :
    deriveGoType "Thing" "items" (initState "N") =
        ("Thing" ++ "_" ++ "items" ++ "_" ++ toString ((initState "N").saltValue + 1),
          { initState "N" with saltValue := (initState "N").saltValue + 1 }) ∧
      ((initState "N").saltValue = 0 →
        (deriveGoType "Thing" "items" (initState "N")).1
          = "Thing" ++ "_" ++ "items" ++ "_" ++ "1") :=
  deriveGoType_mints "Thing" "items" (initState "N") (by decide)

/-- C1, counterexample. With the counter at the largest `int` the call on the
List-of-resource attribute of Scenario C returns `"[]"` followed by a name that
ends in the rendering of `-2^63`, which is not `parent_attr_(n+1)`. -/
theorem getGoType_nested_resource_wraps :
    getGoType asciiTables 2 "Thing" "items" itemsSchema maxCounterState =
        .ok "[]Thing_items_-9223372036854775808"
          { saltValue := -9223372036854775808,
            prefixTemplateData := { Namespace := "N", StructTypes := [] },
            code := [Fragment.typeTemplate
              { StructType := "Thing_items_-9223372036854775808",
                StructFields := [⟨"Id", "string"⟩, ⟨"Price", "*float64"⟩],
                InsertID := false }] } ∧
      "[]Thing_items_-9223372036854775808" ≠
        "[]" ++ ("Thing" ++ "_" ++ "items" ++ "_" ++
          toString (maxCounterState.saltValue + 1)) := by
  decide

/-- C1, amended. For a schema of kind List or Set whose `Elem` is a supported nested
resource `r`, and a counter value `n` with `n + 1` still an `int`, `getGoType`
returns `"[]"` followed by the minted name `parent_attr_(n+1)`; the emission
list is extended by the aggregate definitions `ds` of the resources nested in
`r` (none with an identity field) and then by the aggregate definition of `r`,
which has one field per attribute of `r` and `InsertID = false`, so that the
template writes no identity field. -/
theorem getGoType_nested_resource (U : UnicodeTables) (fuel : Nat) (parent attr : String)
    (s : Schema) (r : Resource) (st : GenState)
    (hk : s.Type_ = .TypeList ∨ s.Type_ = .TypeSet) (he : s.Elem = .resource r)
    (hr : r.supported = true) (hf : r.depth ≤ fuel)
    (hn : -2 ^ 63 ≤ st.saltValue ∧ st.saltValue + 1 < 2 ^ 63) :
    ∃ (st1 : GenState) (ds : List structData) (fields : List structField),
      getGoType U (fuel + 1) parent attr s st =
        .ok ("[]" ++ (parent ++ "_" ++ attr ++ "_" ++ toString (st.saltValue + 1))) st1 ∧
      st1.code = st.code ++ ds.map Fragment.typeTemplate ++
        [Fragment.typeTemplate
          { StructType := Title U (parent ++ "_" ++ attr ++ "_" ++ toString (st.saltValue + 1)),
            StructFields := fields, InsertID := false }] ∧
      (∀ d ∈ ds, d.InsertID = false) ∧
      fields.map (fun f => f.FieldName) =
        (sortStrings (r.Schema.map Prod.fst)).map (Title U) ∧
      typeTemplateFields
          { StructType := Title U (parent ++ "_" ++ attr ++ "_" ++ toString (st.saltValue + 1)),
            StructFields := fields, InsertID := false } = fields := by
  have hd := deriveGoType_of_range parent attr st hn
  obtain ⟨pi, st1, hgen⟩ := generateResourceType_total U fuel
    (parent ++ "_" ++ attr ++ "_" ++ toString (st.saltValue + 1)) false
    { st with saltValue := st.saltValue + 1 } hr hf
  obtain ⟨ds, fields, stm, hrun, hst1, hall, _⟩ := generateResourceType_shape hgen
  obtain ⟨_, hcode, _, hins, _⟩ := hrun
  refine ⟨st1, ds, fields, ?_, ?_, hins, fieldNames_of_forall₂ hall, ?_⟩
  · have hcase : nestedResourceCase U (getGoType U fuel) parent attr r st =
        .ok ("[]" ++ (parent ++ "_" ++ attr ++ "_" ++ toString (st.saltValue + 1))) st1 := by
      unfold nestedResourceCase
      rw [hd]
      simp only [generateResourceType] at hgen
      simp only [hgen]
    cases s with
    | mk ty req fn e =>
      simp only [Schema.Type_, Schema.Elem] at hk he
      subst he
      rcases hk with rfl | rfl <;> simp [getGoType, Schema.Type_, Schema.Elem, hcase]
  · rw [hst1]
    show stm.code ++ _ = _
    rw [hcode]
  · simp [typeTemplateFields]

/-- Witness of C1 (amended), Scenario C: from a fresh state the attribute `items`
of `thing` gets the type `[]Thing_items_1`, the resource `thing` gets the field
`Items` of type `*[]Thing_items_1`, and the aggregate `Thing_items_1` with the
fields `Id string` and `Price *float64` is emitted with `InsertID = false`. -/
theorem getGoType_nested_resource_witness :
    (∃ (st1 : GenState) (ds : List structData) (fields : List structField),
      getGoType asciiTables 2 "Thing" "items" itemsSchema (initState "N") =
        .ok ("[]" ++ ("Thing" ++ "_" ++ "items" ++ "_" ++
          toString ((initState "N").saltValue + 1))) st1 ∧
      st1.code = (initState "N").code ++ ds.map Fragment.typeTemplate ++
        [Fragment.typeTemplate
          { StructType := Title asciiTables ("Thing" ++ "_" ++ "items" ++ "_" ++
              toString ((initState "N").saltValue + 1)),
            StructFields := fields, InsertID := false }] ∧
      (∀ d ∈ ds, d.InsertID = false) ∧
      fields.map (fun f => f.FieldName) =
        (sortStrings (itemResource.Schema.map Prod.fst)).map (Title asciiTables) ∧
      typeTemplateFields
          { StructType := Title asciiTables ("Thing" ++ "_" ++ "items" ++ "_" ++
              toString ((initState "N").saltValue + 1)),
            StructFields := fields, InsertID := false } = fields) ∧
    generateResource asciiTables 2 "thing" thingResource (initState "N") =
      .ok ()
        { saltValue := 1,
          prefixTemplateData := { Namespace := "N", StructTypes := ["Thing"] },
          code :=
            [Fragment.typeTemplate
              { StructType := "Thing_items_1",
                StructFields := [⟨"Id", "string"⟩, ⟨"Price", "*float64"⟩],
                InsertID := false },
             Fragment.typeTemplate
              { StructType := "Thing",
                StructFields := [⟨"Items", "*[]Thing_items_1"⟩],
                InsertID := true },
             Fragment.providerTemplate
              { StructType := "Thing", NativeType := "thing",
                ProvidedAttributes := ["items"], ImmutableAttributes := [] }] } :=
  ⟨getGoType_nested_resource asciiTables 1 "Thing" "items" itemsSchema itemResource
      (initState "N") (Or.inl rfl) rfl (by decide) (by decide) (by decide),
    by decide⟩

/-- C5. For a supported resource schema `m` (a map: no duplicate keys), the call
`generateResourceType` appends last an aggregate whose fields correspond one
to one, in order, to the attribute names sorted increasingly: field `i` is
named after the `i`-th sorted name and typed by `getGoTypeWithPtr` on the
attribute of that name. The sorted names are a rearrangement of the keys, so
there is exactly one field per attribute, and any other enumeration order
`m'` of the same map gives the same result. -/
theorem generateResourceType_fields_sorted (U : UnicodeTables) (fuel : Nat)
    (nativeType : String) (insertID : Bool) (st : GenState) (m m' : List (String × Schema))
    (hnd : (m.map Prod.fst).Nodup) (hperm : m'.Perm m)
    (hs : (Resource.mk m).supported = true) (hf : (Resource.mk m).depth ≤ fuel) :
    ∃ (pi : List String × List String) (st1 : GenState) (earlier : List Fragment)
      (fields : List structField),
      generateResourceType U fuel nativeType (.mk m) insertID st = .ok pi st1 ∧
      generateResourceType U fuel nativeType (.mk m') insertID st = .ok pi st1 ∧
      st1.code = earlier ++
        [Fragment.typeTemplate
          { StructType := Title U nativeType, StructFields := fields,
            InsertID := insertID }] ∧
      fields.length = m.length ∧
      (sortStrings (m.map Prod.fst)).Sorted stringLE ∧
      (sortStrings (m.map Prod.fst)).Nodup ∧
      (sortStrings (m.map Prod.fst)).Perm (m.map Prod.fst) ∧
      List.Forall₂ (fun name f => f.FieldName = Title U name ∧
          ∃ s sa sb, (name, s) ∈ m ∧
            getGoTypeWithPtr U fuel (Title U nativeType) name s sa = .ok f.FieldType sb)
        (sortStrings (m.map Prod.fst)) fields := by
  obtain ⟨pi, st1, hgen⟩ := generateResourceType_total U fuel
    nativeType insertID st hs hf
  obtain ⟨ds, fields, stm, _, hst1, hall, _⟩ := generateResourceType_shape hgen
  have hall2 : List.Forall₂ (fun name f => f.FieldName = Title U name ∧
          ∃ s sa sb, (name, s) ∈ m ∧
            getGoTypeWithPtr U fuel (Title U nativeType) name s sa = .ok f.FieldType sb)
        (sortStrings (m.map Prod.fst)) fields := by
    refine hall.imp ?_
    rintro name f ⟨h1, s, sa, sb, hl, hg⟩
    exact ⟨h1, s, sa, sb, mem_of_lookup_eq_some _ _ _ hl, hg⟩
  refine ⟨pi, st1, stm.code, fields, hgen, ?_, ?_, ?_, sortStrings_sorted _,
    sortStrings_nodup hnd, sortStrings_perm _, hall2⟩
  · unfold generateResourceType
    rw [generateResourceTypeUsing_perm hnd hperm]
    exact hgen
  · rw [hst1]
  · rw [← hall.length_eq, (sortStrings_perm _).length_eq, List.length_map]
    rfl

/-- Witness of C5, Scenario B: `widget`, enumerated as tags, name, size or as
size, tags, name, yields the fields `Name string`, `Size *int`,
`Tags *map[string]string` in that order. -/
theorem generateResourceType_fields_sorted_witness :
    (∃ (pi : List String × List String) (st1 : GenState) (earlier : List Fragment)
      (fields : List structField),
      generateResourceType asciiTables 1 "widget"
        (.mk [("tags", .mk .TypeMap false false .nil),
              ("name", .mk .TypeString true false .nil),
              ("size", .mk .TypeInt false false .nil)]) true (initState "N") = .ok pi st1 ∧
      generateResourceType asciiTables 1 "widget"
        (.mk [("size", .mk .TypeInt false false .nil),
              ("tags", .mk .TypeMap false false .nil),
              ("name", .mk .TypeString true false .nil)]) true (initState "N") = .ok pi st1 ∧
      st1.code = earlier ++
        [Fragment.typeTemplate
          { StructType := Title asciiTables "widget", StructFields := fields,
            InsertID := true }] ∧
      fields.length = 3) ∧
    generateResourceType asciiTables 1 "widget" widgetResource true (initState "N") =
      .ok (["size", "tags"], [])
        { saltValue := 0,
          prefixTemplateData := { Namespace := "N", StructTypes := [] },
          code :=
            [Fragment.typeTemplate
              { StructType := "Widget",
                StructFields :=
                  [⟨"Name", "string"⟩, ⟨"Size", "*int"⟩, ⟨"Tags", "*map[string]string"⟩],
                InsertID := true }] } := by
  refine ⟨?_, by decide⟩
  obtain ⟨pi, st1, earlier, fields, h1, h2, h3, h4, _⟩ :=
    generateResourceType_fields_sorted asciiTables 1 "widget" true (initState "N")
      [("tags", .mk .TypeMap false false .nil),
       ("name", .mk .TypeString true false .nil),
       ("size", .mk .TypeInt false false .nil)]
      [("size", .mk .TypeInt false false .nil),
       ("tags", .mk .TypeMap false false .nil),
       ("name", .mk .TypeString true false .nil)]
      (by decide)
      (@List.perm_append_comm _ [("size", Schema.mk .TypeInt false false .nil)] _)
      (by decide) (by decide)
  exact ⟨pi, st1, earlier, fields, h1, h2, h3, h4⟩

/-- C6. For a supported resource schema (a map: no duplicate keys), the second
list returned by `generateResourceType`, which `generateResource` passes
unchanged to `rtb.ImmutableAttributes` in the handler block it appends last,
is sorted increasingly, has no repetition, and contains a name exactly when
it is the name of an attribute of this resource whose `ForceNew` is true; the
attributes of nested resources play no part. -/
theorem generateResource_immutable (U : UnicodeTables) (fuel : Nat) (nativeType : String)
    (r : Resource) (insertID : Bool) (st : GenState)
    (hnd : (r.Schema.map Prod.fst).Nodup)
    (hs : r.supported = true) (hf : r.depth ≤ fuel) :
    ∃ (prov imm : List String) (st1 st2 : GenState) (earlier : List Fragment)
      (d : providerData),
      generateResourceType U fuel nativeType r insertID st = .ok (prov, imm) st1 ∧
      generateResource U fuel nativeType r st = .ok () st2 ∧
      st2.code = earlier ++ [Fragment.providerTemplate d] ∧
      rtbImmutableAttributes d = imm ∧
      imm.Sorted stringLE ∧ imm.Nodup ∧
      ∀ name, name ∈ imm ↔ ∃ s, (name, s) ∈ r.Schema ∧ s.ForceNew = true := by
  obtain ⟨pi, st1, hgen⟩ := generateResourceType_total U fuel
    nativeType insertID st hs hf
  obtain ⟨_, _, _, _, _, _, hpi⟩ := generateResourceType_shape hgen
  obtain ⟨st2, hres⟩ := generateResource_total U fuel nativeType st hs hf
  obtain ⟨ds, fields, hcode, _, _, _⟩ := generateResource_shape hres
  subst hpi
  refine ⟨_, _, st1, st2,
      (st.code ++ ds.map Fragment.typeTemplate ++
        [Fragment.typeTemplate
          { StructType := Title U nativeType, StructFields := fields, InsertID := true }]),
      ({ StructType := Title U nativeType, NativeType := nativeType,
         ProvidedAttributes :=
           (sortStrings (r.Schema.map Prod.fst)).filter (fun n => !attrRequired r.Schema n),
         ImmutableAttributes :=
           (sortStrings (r.Schema.map Prod.fst)).filter (fun n => attrForceNew r.Schema n) } :
        providerData),
      hgen, hres, ?_, rfl, ?_, ?_, ?_⟩
  · rw [hcode]
    simp
  · exact (sortStrings_sorted _).filter _
  · exact (sortStrings_nodup hnd).filter _
  · exact mem_filter_forceNew hnd

/-- Witness of C6, Scenario C: the nested resource of `thing`, taken on its own,
has the immutable list `price`; the list of `thing` itself is empty although
its nested resource has a `ForceNew` attribute. -/
theorem generateResource_immutable_witness :
    (∃ (prov imm : List String) (st1 st2 : GenState) (earlier : List Fragment)
      (d : providerData),
      generateResourceType asciiTables 1 "item" itemResource false (initState "N")
        = .ok (prov, imm) st1 ∧
      generateResource asciiTables 1 "item" itemResource (initState "N") = .ok () st2 ∧
      st2.code = earlier ++ [Fragment.providerTemplate d] ∧
      rtbImmutableAttributes d = imm ∧
      imm.Sorted stringLE ∧ imm.Nodup ∧
      ∀ name, name ∈ imm ↔ ∃ s, (name, s) ∈ itemResource.Schema ∧ s.ForceNew = true) ∧
    generateResourceType asciiTables 1 "item" itemResource false (initState "N") =
      .ok (["price"], ["price"])
        { saltValue := 0,
          prefixTemplateData := { Namespace := "N", StructTypes := [] },
          code :=
            [Fragment.typeTemplate
              { StructType := "Item",
                StructFields := [⟨"Id", "string"⟩, ⟨"Price", "*float64"⟩],
                InsertID := false }] } ∧
    generateResourceType asciiTables 2 "thing" thingResource true (initState "N") =
      .ok (["items"], [])
        { saltValue := 1,
          prefixTemplateData := { Namespace := "N", StructTypes := [] },
          code :=
            [Fragment.typeTemplate
              { StructType := "Thing_items_1",
                StructFields := [⟨"Id", "string"⟩, ⟨"Price", "*float64"⟩],
                InsertID := false },
             Fragment.typeTemplate
              { StructType := "Thing",
                StructFields := [⟨"Items", "*[]Thing_items_1"⟩],
                InsertID := true }] } :=
  ⟨generateResource_immutable asciiTables 1 "item" itemResource false (initState "N")
      (by decide) (by decide) (by decide),
    by decide, by decide⟩

/-- C7. For a supported top-level resource with native name `t` (its schema a map:
no duplicate keys), the arguments of `rtb.ProvidedAttributes` in the handler
block that `generateResource` appends last are `t ++ "_id"` followed by a
sorted, repetition-free list that contains a name exactly when it is the name
of an attribute of this resource whose `Required` is false; an attribute that
is `ForceNew` and not required is in the provided and in the immutable list. -/
theorem generateResource_provided (U : UnicodeTables) (fuel : Nat) (t : String)
    (r : Resource) (st : GenState) (hnd : (r.Schema.map Prod.fst).Nodup)
    (hs : r.supported = true) (hf : r.depth ≤ fuel) :
    ∃ (st2 : GenState) (earlier : List Fragment) (d : providerData) (rest : List String),
      generateResource U fuel t r st = .ok () st2 ∧
      st2.code = earlier ++ [Fragment.providerTemplate d] ∧
      rtbProvidedAttributes d = (t ++ "_id") :: rest ∧
      rest.Sorted stringLE ∧ rest.Nodup ∧
      (∀ name, name ∈ rest ↔ ∃ s, (name, s) ∈ r.Schema ∧ s.Required = false) ∧
      (∀ name, name ∈ rtbProvidedAttributes d ↔
        name = t ++ "_id" ∨ ∃ s, (name, s) ∈ r.Schema ∧ s.Required = false) ∧
      (∀ name s, (name, s) ∈ r.Schema → s.ForceNew = true → s.Required = false →
        name ∈ rtbProvidedAttributes d ∧ name ∈ rtbImmutableAttributes d) := by
  obtain ⟨st2, hres⟩ := generateResource_total U fuel t st hs hf
  obtain ⟨ds, fields, hcode, _, _, _⟩ := generateResource_shape hres
  refine ⟨st2,
      (st.code ++ ds.map Fragment.typeTemplate ++
        [Fragment.typeTemplate
          { StructType := Title U t, StructFields := fields, InsertID := true }]),
      ({ StructType := Title U t, NativeType := t,
         ProvidedAttributes :=
           (sortStrings (r.Schema.map Prod.fst)).filter (fun n => !attrRequired r.Schema n),
         ImmutableAttributes :=
           (sortStrings (r.Schema.map Prod.fst)).filter (fun n => attrForceNew r.Schema n) } :
        providerData),
      _, hres, ?_, rfl, ?_, ?_, mem_filter_notRequired hnd, ?_, ?_⟩
  · rw [hcode]
    simp
  · exact (sortStrings_sorted _).filter _
  · exact (sortStrings_nodup hnd).filter _
  · intro name
    simp only [rtbProvidedAttributes, List.mem_cons]
    rw [mem_filter_notRequired hnd]
  · intro name s hmem hfn hreq
    constructor
    · simp only [rtbProvidedAttributes, List.mem_cons]
      exact Or.inr ((mem_filter_notRequired hnd name).mpr ⟨s, hmem, hreq⟩)
    · exact (mem_filter_forceNew hnd name).mpr ⟨s, hmem, hfn⟩

/-- Witness of C7: the resource `{id: String required, price: Float optional
forceNew}` under the native name `item` has the provided list `item_id`,
`price` and the immutable list `price`. -/
theorem generateResource_provided_witness :
    (∃ (st2 : GenState) (earlier : List Fragment) (d : providerData) (rest : List String),
      generateResource asciiTables 1 "item" itemResource (initState "N") = .ok () st2 ∧
      st2.code = earlier ++ [Fragment.providerTemplate d] ∧
      rtbProvidedAttributes d = ("item" ++ "_id") :: rest ∧
      rest.Sorted stringLE ∧ rest.Nodup ∧
      (∀ name, name ∈ rest ↔ ∃ s, (name, s) ∈ itemResource.Schema ∧ s.Required = false) ∧
      (∀ name, name ∈ rtbProvidedAttributes d ↔
        name = "item" ++ "_id" ∨ ∃ s, (name, s) ∈ itemResource.Schema ∧ s.Required = false) ∧
      (∀ name s, (name, s) ∈ itemResource.Schema → s.ForceNew = true → s.Required = false →
        name ∈ rtbProvidedAttributes d ∧ name ∈ rtbImmutableAttributes d)) ∧
    (generateResource asciiTables 1 "item" itemResource (initState "N") =
      .ok ()
        { saltValue := 0,
          prefixTemplateData := { Namespace := "N", StructTypes := ["Item"] },
          code :=
            [Fragment.typeTemplate
              { StructType := "Item",
                StructFields := [⟨"Id", "string"⟩, ⟨"Price", "*float64"⟩],
                InsertID := true },
             Fragment.providerTemplate
              { StructType := "Item", NativeType := "item",
                ProvidedAttributes := ["price"], ImmutableAttributes := ["price"] }] }) ∧
    rtbProvidedAttributes
        { StructType := "Item", NativeType := "item",
          ProvidedAttributes := ["price"], ImmutableAttributes := ["price"] }
      = ["item_id", "price"] :=
  ⟨generateResource_provided asciiTables 1 "item" itemResource (initState "N")
      (by decide) (by decide) (by decide),
    by decide, by decide⟩

/-- C8. After `Generate` on a supported provider, the names recorded for the prefix
are the capitalised native names taken in increasing order of the native
names, one per resource; behind the prefix fragment the emission list
consists of one block per resource in that same order, so the aggregate
definitions that carry the identity field, and likewise the handler blocks,
follow each other in increasing order of the native names. -/
theorem Generate_resource_order (U : UnicodeTables) (fuel : Nat) (p : Provider) (ns : String)
    (old : GenState) (hs : p.supported = true) (hf : p.depth ≤ fuel) :
    ∃ (st : GenState) (blocks : List ResourceBlock),
      Generate U fuel p ns old = .ok () st ∧
      st.prefixTemplateData.StructTypes =
        (sortStrings (p.ResourcesMap.map Prod.fst)).map (Title U) ∧
      topLevelTypes st.code = (sortStrings (p.ResourcesMap.map Prod.fst)).map (Title U) ∧
      handlerTypes st.code = sortStrings (p.ResourcesMap.map Prod.fst) ∧
      st.code = Fragment.prefixTemplate st.prefixTemplateData ::
        (blocks.map ResourceBlock.fragments).flatten ∧
      List.Forall₂ (fun nt b => b.top.StructType = Title U nt ∧ b.top.InsertID = true ∧
          b.handler.NativeType = nt ∧ ∀ d ∈ b.nested, d.InsertID = false)
        (sortStrings (p.ResourcesMap.map Prod.fst)) blocks ∧
      (sortStrings (p.ResourcesMap.map Prod.fst)).Sorted stringLE ∧
      (sortStrings (p.ResourcesMap.map Prod.fst)).Perm (p.ResourcesMap.map Prod.fst) := by
  obtain ⟨st, hgen⟩ := Generate_total U fuel p ns old hs hf
  obtain ⟨blocks, hcode, hpre, ⟨_, hins, _⟩, hall⟩ := Generate_shape hgen
  obtain ⟨h1, h2, h3⟩ := blocks_of_forall₂ hall
  refine ⟨st, blocks, hgen, by rw [hpre], ?_, ?_, by rw [hpre]; exact hcode, ?_,
    sortStrings_sorted _, sortStrings_perm _⟩
  · rw [hcode, ← h1, ← topLevelTypes_blocks blocks hins h3]
    simp [topLevelTypes]
  · rw [hcode]
    conv => rhs; rw [← h2]
    rw [← handlerTypes_blocks blocks]
    simp [handlerTypes]
  · refine blocks_forall₂_order hall ?_
    intro b hb d hd
    exact hins d (List.mem_flatten.mpr ⟨b.nested, List.mem_map.mpr ⟨b, hb, rfl⟩, hd⟩)

/-- Witness of C8, Scenario D: with the map enumerated as beta, alpha, and whatever
state an earlier run left, the aggregate and the handler block of `alpha` come
before those of `beta`. -/
theorem Generate_resource_order_witness :
    (∃ (st : GenState) (blocks : List ResourceBlock),
      Generate asciiTables 1 alphaBetaProvider "N" maxCounterState = .ok () st ∧
      st.prefixTemplateData.StructTypes =
        (sortStrings (alphaBetaProvider.ResourcesMap.map Prod.fst)).map (Title asciiTables) ∧
      topLevelTypes st.code =
        (sortStrings (alphaBetaProvider.ResourcesMap.map Prod.fst)).map (Title asciiTables) ∧
      handlerTypes st.code = sortStrings (alphaBetaProvider.ResourcesMap.map Prod.fst) ∧
      st.code = Fragment.prefixTemplate st.prefixTemplateData ::
        (blocks.map ResourceBlock.fragments).flatten ∧
      List.Forall₂ (fun nt b => b.top.StructType = Title asciiTables nt ∧
          b.top.InsertID = true ∧ b.handler.NativeType = nt ∧
          ∀ d ∈ b.nested, d.InsertID = false)
        (sortStrings (alphaBetaProvider.ResourcesMap.map Prod.fst)) blocks ∧
      (sortStrings (alphaBetaProvider.ResourcesMap.map Prod.fst)).Sorted stringLE ∧
      (sortStrings (alphaBetaProvider.ResourcesMap.map Prod.fst)).Perm
        (alphaBetaProvider.ResourcesMap.map Prod.fst)) ∧
    Generate asciiTables 1 alphaBetaProvider "N" maxCounterState =
      .ok ()
        { saltValue := 0,
          prefixTemplateData := { Namespace := "N", StructTypes := ["Alpha", "Beta"] },
          code :=
            [Fragment.prefixTemplate { Namespace := "N", StructTypes := ["Alpha", "Beta"] },
             Fragment.typeTemplate
              { StructType := "Alpha", StructFields := [⟨"Name", "string"⟩],
                InsertID := true },
             Fragment.providerTemplate
              { StructType := "Alpha", NativeType := "alpha",
                ProvidedAttributes := [], ImmutableAttributes := [] },
             Fragment.typeTemplate
              { StructType := "Beta", StructFields := [⟨"Name", "string"⟩],
                InsertID := true },
             Fragment.providerTemplate
              { StructType := "Beta", NativeType := "beta",
                ProvidedAttributes := [], ImmutableAttributes := [] }] } :=
  ⟨Generate_resource_order asciiTables 1 alphaBetaProvider "N" maxCounterState
      (by decide) (by decide),
    by decide⟩

/-- C9, counterexample. The provider with the resources `a` (attribute `b`: a list
of nested resources) and `a_b_1` has unique attribute names in every schema,
yet the run emits two aggregate definitions named `A_b_1`: the nested
aggregate minted for `b` and the top-level aggregate of `a_b_1`. -/
theorem Generate_names_collide :
    Generate asciiTables 2 collisionProvider "N" (initState "N") = .ok () collisionOutput ∧
      aggregateNames collisionOutput.code = ["A_b_1", "A", "A_b_1"] ∧
      ¬ (aggregateNames collisionOutput.code).Nodup := by
  decide

/-- C9, amended. In a `Generate` run on a supported provider (the emission list a
Go slice, so of fewer than `2^63` fragments), the names of the nested
aggregate definitions are pairwise distinct and each ends in an underscore
followed by decimal digits. If the capitalised native names of the provider
are pairwise distinct and none of them ends in an underscore followed by
decimal digits, the names of all aggregate definitions of the run are
pairwise distinct. -/
theorem Generate_names_distinct (U : UnicodeTables) (fuel : Nat) (p : Provider) (ns : String)
    (old : GenState) (hs : p.supported = true) (hf : p.depth ≤ fuel) :
    ∃ st, Generate U fuel p ns old = .ok () st ∧
      topLevelTypes st.code = (sortStrings (p.ResourcesMap.map Prod.fst)).map (Title U) ∧
      ((st.code.length : Int) < 2 ^ 63 →
        (nestedTypes st.code).Nodup ∧ ∀ x ∈ nestedTypes st.code, endsInCounter x = true) ∧
      ((st.code.length : Int) < 2 ^ 63 →
        ((p.ResourcesMap.map Prod.fst).map (Title U)).Nodup →
        (∀ nt ∈ p.ResourcesMap.map Prod.fst, endsInCounter (Title U nt) = false) →
        (aggregateNames st.code).Nodup) := by
  obtain ⟨st, hgen⟩ := Generate_total U fuel p ns old hs hf
  obtain ⟨blocks, hcode, _, hmint, hall⟩ := Generate_shape hgen
  obtain ⟨h1, _, h3⟩ := blocks_of_forall₂ hall
  have hins := hmint.2.1
  have htop : topLevelTypes st.code =
      (sortStrings (p.ResourcesMap.map Prod.fst)).map (Title U) := by
    rw [hcode, ← h1, ← topLevelTypes_blocks blocks hins h3]
    simp [topLevelTypes]
  have hnest : nestedTypes st.code =
      ((blocks.map (fun b => b.nested)).flatten).map (fun d => d.StructType) := by
    rw [hcode, ← nestedTypes_blocks blocks hins h3]
    simp [nestedTypes]
  have hlen2 : (st.code.length : Int) < 2 ^ 63 →
      (((blocks.map (fun b => b.nested)).flatten).length : Int) < 2 ^ 63 := by
    intro hlen
    have hle := nestedTypes_length_le st.code
    rw [hnest, List.length_map] at hle
    omega
  have hnd : (st.code.length : Int) < 2 ^ 63 → (nestedTypes st.code).Nodup := by
    intro hlen
    rw [hnest]
    exact minting_names_nodup hmint (hlen2 hlen)
  have hform : (st.code.length : Int) < 2 ^ 63 →
      ∀ x ∈ nestedTypes st.code, endsInCounter x = true := by
    intro hlen x hx
    rw [hnest] at hx
    obtain ⟨d, hd, rfl⟩ := List.mem_map.mp hx
    exact minting_endsInCounter hmint (hlen2 hlen) d hd
  refine ⟨st, hgen, htop, fun hlen => ⟨hnd hlen, hform hlen⟩, ?_⟩
  intro hlen htopnd hplain
  rw [(aggregateNames_perm st.code).nodup_iff, List.nodup_append, htop]
  refine ⟨((sortStrings_perm _).map (Title U)).nodup_iff.mpr htopnd, hnd hlen, ?_⟩
  intro x hx hx2
  obtain ⟨nt, hnt, rfl⟩ := List.mem_map.mp hx
  have h1 := hplain nt (mem_sortStrings.mp hnt)
  rw [hform hlen _ hx2] at h1
  cases h1

/-- Witness of C9 (amended): the run on the resources `net` and `thing` emits the
nested aggregates `Net_rules_1_ports_2`, `Net_rules_1`, `Thing_items_3` and
the top-level aggregates `Net`, `Thing`, five different names. -/
theorem Generate_names_distinct_witness :
    (∃ st, Generate asciiTables 3 netThingProvider "N" (initState "N") = .ok () st ∧
      topLevelTypes st.code =
        (sortStrings (netThingProvider.ResourcesMap.map Prod.fst)).map (Title asciiTables) ∧
      ((st.code.length : Int) < 2 ^ 63 →
        (nestedTypes st.code).Nodup ∧ ∀ x ∈ nestedTypes st.code, endsInCounter x = true) ∧
      ((st.code.length : Int) < 2 ^ 63 →
        ((netThingProvider.ResourcesMap.map Prod.fst).map (Title asciiTables)).Nodup →
        (∀ nt ∈ netThingProvider.ResourcesMap.map Prod.fst,
          endsInCounter (Title asciiTables nt) = false) →
        (aggregateNames st.code).Nodup)) ∧
    ((netThingProvider.ResourcesMap.map Prod.fst).map (Title asciiTables)).Nodup ∧
    (∀ nt ∈ netThingProvider.ResourcesMap.map Prod.fst,
      endsInCounter (Title asciiTables nt) = false) ∧
    (∃ st, Generate asciiTables 3 netThingProvider "N" (initState "N") = .ok () st ∧
      aggregateNames st.code =
        ["Net_rules_1_ports_2", "Net_rules_1", "Net", "Thing_items_3", "Thing"] ∧
      (st.code.length : Int) < 2 ^ 63) ∧
    endsInCounter "A_b_1" = true :=
  ⟨Generate_names_distinct asciiTables 3 netThingProvider "N" (initState "N")
      (by decide) (by decide),
    by decide, by decide, ⟨_, rfl, by decide, by decide⟩, by decide⟩

/-- C11. Short of `int` overflow, every `deriveGoType` call sets the counter to its
successor, and no successful `getGoType` or `generateResource` call, for any
state it starts from, leaves the counter lower than it found it. A `Generate`
run on a supported provider (emission list below `2^63` fragments) starts from
counter 0 and ends with the counter equal to the number of nested aggregates
emitted; these bear pairwise different counter values between 1 and the final
counter. Names minted with different counter values are different strings,
whatever the parent and attribute names. -/
theorem Generate_counter_increases (U : UnicodeTables) (fuel : Nat) (p : Provider)
    (ns : String) (old : GenState) (hs : p.supported = true) (hf : p.depth ≤ fuel) :
    (∀ (g n : String) (st : GenState), -2 ^ 63 ≤ st.saltValue → st.saltValue + 1 < 2 ^ 63 →
      (deriveGoType g n st).2.saltValue = st.saltValue + 1 ∧
      st.saltValue < (deriveGoType g n st).2.saltValue) ∧
    (∀ (fuel1 : Nat) (g n : String) (s : Schema) (st : GenState) (t : String)
      (st1 : GenState), getGoType U fuel1 g n s st = .ok t st1 →
      -2 ^ 63 ≤ st.saltValue →
      st.saltValue + ((st1.code.length - st.code.length : Nat) : Int) < 2 ^ 63 →
      st.saltValue ≤ st1.saltValue) ∧
    (∀ (fuel1 : Nat) (nt : String) (r : Resource) (st st1 : GenState),
      generateResource U fuel1 nt r st = .ok () st1 →
      -2 ^ 63 ≤ st.saltValue →
      st.saltValue + ((st1.code.length - st.code.length : Nat) : Int) < 2 ^ 63 →
      st.saltValue ≤ st1.saltValue) ∧
    (∃ out, Generate U fuel p ns old = .ok () out ∧
      ((out.code.length : Int) < 2 ^ 63 →
        0 ≤ out.saltValue ∧
        out.saltValue = ((nestedTypes out.code).length : Int) ∧
        ∃ ks : List Nat, ks.Nodup ∧ (∀ k ∈ ks, 1 ≤ k ∧ (k : Int) ≤ out.saltValue) ∧
          List.Forall₂ (fun name k => ∃ g a : String,
            name = Title U (g ++ "_" ++ a ++ "_" ++ toString ((k : Nat) : Int)))
            (nestedTypes out.code) ks)) ∧
    (∀ (g a g1 a1 : String) (k k1 : Nat), k ≠ k1 →
      g ++ "_" ++ a ++ "_" ++ toString ((k : Nat) : Int) ≠
        g1 ++ "_" ++ a1 ++ "_" ++ toString ((k1 : Nat) : Int)) := by
  refine ⟨?_, ?_, ?_, ?_, ?_⟩
  · intro g n st h1 h2
    have hd := deriveGoType_of_range g n st ⟨h1, h2⟩
    rw [hd]
    exact ⟨rfl, by show st.saltValue < st.saltValue + 1; omega⟩
  · intro fuel1 g n s st t st1 h h1 h2
    obtain ⟨ds, _, hc, hsalt, _⟩ := getGoType_nestedRun U fuel1 g n s st t st1 h
    have hl : st1.code.length - st.code.length = ds.length := by
      rw [hc]
      simp
    rw [hl] at h2
    rw [hsalt, advance_of_range _ _ h1 h2]
    omega
  · intro fuel1 nt r st st1 h h1 h2
    obtain ⟨m, hlen, hsalt⟩ := generateResource_appends h
    have hl : st1.code.length - st.code.length = m + 2 := by omega
    rw [hl] at h2
    push_cast at h2
    rw [hsalt, advance_of_range _ _ h1 (by omega)]
    omega
  · obtain ⟨out, hgen⟩ := Generate_total U fuel p ns old hs hf
    refine ⟨out, hgen, ?_⟩
    intro hb
    obtain ⟨blocks, hcode, _, hmint, hall⟩ := Generate_shape hgen
    obtain ⟨_, _, h3⟩ := blocks_of_forall₂ hall
    have hnest : nestedTypes out.code =
        ((blocks.map (fun b => b.nested)).flatten).map (fun d => d.StructType) := by
      rw [hcode, ← nestedTypes_blocks blocks hmint.2.1 h3]
      simp [nestedTypes]
    have hle := nestedTypes_length_le out.code
    rw [hnest, List.length_map] at hle
    have hlen : (((blocks.map (fun b => b.nested)).flatten).length : Int) < 2 ^ 63 := by omega
    have hsalt : out.saltValue = (((blocks.map (fun b => b.nested)).flatten).length : Int) := by
      rw [hmint.1]
      exact advance_zero _ hlen
    obtain ⟨ks, hnd, hbd, hfa⟩ := minting_counters hmint hlen
    refine ⟨by rw [hsalt]; omega, by rw [hsalt, hnest, List.length_map], ks, hnd, ?_, ?_⟩
    · intro k hk
      have := hbd k hk
      rw [hsalt]
      omega
    · rw [hnest, List.forall₂_map_left_iff]
      exact hfa
  · intro g a g1 a1 k k1 hne heq
    exact hne (minted_raw_inj heq)

/-- Witness of C11: the run on `net` mints twice and ends with the counter at 2. -/
theorem Generate_counter_increases_witness :
    ((∀ (g n : String) (st : GenState), -2 ^ 63 ≤ st.saltValue → st.saltValue + 1 < 2 ^ 63 →
      (deriveGoType g n st).2.saltValue = st.saltValue + 1 ∧
      st.saltValue < (deriveGoType g n st).2.saltValue) ∧
    (∀ (fuel1 : Nat) (g n : String) (s : Schema) (st : GenState) (t : String)
      (st1 : GenState), getGoType asciiTables fuel1 g n s st = .ok t st1 →
      -2 ^ 63 ≤ st.saltValue →
      st.saltValue + ((st1.code.length - st.code.length : Nat) : Int) < 2 ^ 63 →
      st.saltValue ≤ st1.saltValue) ∧
    (∀ (fuel1 : Nat) (nt : String) (r : Resource) (st st1 : GenState),
      generateResource asciiTables fuel1 nt r st = .ok () st1 →
      -2 ^ 63 ≤ st.saltValue →
      st.saltValue + ((st1.code.length - st.code.length : Nat) : Int) < 2 ^ 63 →
      st.saltValue ≤ st1.saltValue) ∧
    (∃ out, Generate asciiTables 3 netProvider "N" (initState "N") = .ok () out ∧
      ((out.code.length : Int) < 2 ^ 63 →
        0 ≤ out.saltValue ∧
        out.saltValue = ((nestedTypes out.code).length : Int) ∧
        ∃ ks : List Nat, ks.Nodup ∧ (∀ k ∈ ks, 1 ≤ k ∧ (k : Int) ≤ out.saltValue) ∧
          List.Forall₂ (fun name k => ∃ g a : String,
            name = Title asciiTables (g ++ "_" ++ a ++ "_" ++ toString ((k : Nat) : Int)))
            (nestedTypes out.code) ks)) ∧
    (∀ (g a g1 a1 : String) (k k1 : Nat), k ≠ k1 →
      g ++ "_" ++ a ++ "_" ++ toString ((k : Nat) : Int) ≠
        g1 ++ "_" ++ a1 ++ "_" ++ toString ((k1 : Nat) : Int))) ∧
    Generate asciiTables 3 netProvider "N" (initState "N") = .ok () netOutput ∧
    netOutput.saltValue = 2 ∧
    nestedTypes netOutput.code = ["Net_rules_1_ports_2", "Net_rules_1"] :=
  ⟨Generate_counter_increases asciiTables 3 netProvider "N" (initState "N")
      (by decide) (by decide),
    by decide, by decide, by decide⟩

/-- C12. In a `Generate` run on a supported provider the emission list is the
prefix followed by one block per resource; in each block the aggregate of the
resource has `InsertID = true` and every nested aggregate, whatever its
depth, has `InsertID = false`. So an emitted aggregate definition has
`InsertID = true` exactly when it is the top-level aggregate of a resource,
and the template writes the identity field `StructType_id *string` for
exactly these. -/
theorem Generate_identity_iff (U : UnicodeTables) (fuel : Nat) (p : Provider) (ns : String)
    (old : GenState) (hs : p.supported = true) (hf : p.depth ≤ fuel) :
    ∃ (st : GenState) (blocks : List ResourceBlock),
      Generate U fuel p ns old = .ok () st ∧
      st.code = Fragment.prefixTemplate st.prefixTemplateData ::
        (blocks.map ResourceBlock.fragments).flatten ∧
      List.Forall₂ (fun nt b => b.top.StructType = Title U nt ∧ b.top.InsertID = true ∧
          b.handler.NativeType = nt ∧ ∀ d ∈ b.nested, d.InsertID = false)
        (sortStrings (p.ResourcesMap.map Prod.fst)) blocks ∧
      (∀ d, Fragment.typeTemplate d ∈ st.code →
        (d.InsertID = true ↔ ∃ b ∈ blocks, d = b.top)) ∧
      (∀ d, Fragment.typeTemplate d ∈ st.code →
        (d.InsertID = false ↔ ∃ b ∈ blocks, d ∈ b.nested)) ∧
      (∀ d, Fragment.typeTemplate d ∈ st.code →
        typeTemplateFields d =
          if d.InsertID then ⟨d.StructType ++ "_id", "*string"⟩ :: d.StructFields
          else d.StructFields) := by
  obtain ⟨st, hgen⟩ := Generate_total U fuel p ns old hs hf
  obtain ⟨blocks, hcode, hpre, ⟨_, hins, _⟩, hall⟩ := Generate_shape hgen
  obtain ⟨_, _, h3⟩ := blocks_of_forall₂ hall
  have hins2 : ∀ b ∈ blocks, ∀ d ∈ b.nested, d.InsertID = false := by
    intro b hb d hd
    exact hins d (List.mem_flatten.mpr ⟨b.nested, List.mem_map.mpr ⟨b, hb, rfl⟩, hd⟩)
  have hmem : ∀ d, Fragment.typeTemplate d ∈ st.code →
      ∃ b ∈ blocks, d ∈ b.nested ∨ d = b.top := by
    intro d hd
    rw [hcode] at hd
    rcases List.mem_cons.mp hd with h | h
    · simp at h
    · exact mem_blocks_fragments.mp h
  refine ⟨st, blocks, hgen, by rw [hpre]; exact hcode, blocks_forall₂_order hall hins2,
    ?_, ?_, ?_⟩
  · intro d hd
    obtain ⟨b, hb, hor⟩ := hmem d hd
    constructor
    · intro hi
      rcases hor with h | h
      · rw [hins2 b hb d h] at hi
        simp at hi
      · exact ⟨b, hb, h⟩
    · rintro ⟨b', hb', rfl⟩
      exact h3 b' hb'
  · intro d hd
    obtain ⟨b, hb, hor⟩ := hmem d hd
    constructor
    · intro hi
      rcases hor with h | h
      · exact ⟨b, hb, h⟩
      · rw [h, h3 b hb] at hi
        simp at hi
    · rintro ⟨b', hb', h⟩
      exact hins2 b' hb' d h
  · intro d _
    cases hd : d.InsertID <;> simp [typeTemplateFields, hd]

/-- Witness of C12: in the run on `net`, whose nested resource has a nested
resource of its own, only the aggregate `Net` has `InsertID = true`. -/
theorem Generate_identity_iff_witness :
    (∃ (st : GenState) (blocks : List ResourceBlock),
      Generate asciiTables 3 netProvider "N" (initState "N") = .ok () st ∧
      st.code = Fragment.prefixTemplate st.prefixTemplateData ::
        (blocks.map ResourceBlock.fragments).flatten ∧
      List.Forall₂ (fun nt b => b.top.StructType = Title asciiTables nt ∧
          b.top.InsertID = true ∧
          b.handler.NativeType = nt ∧ ∀ d ∈ b.nested, d.InsertID = false)
        (sortStrings (netProvider.ResourcesMap.map Prod.fst)) blocks ∧
      (∀ d, Fragment.typeTemplate d ∈ st.code →
        (d.InsertID = true ↔ ∃ b ∈ blocks, d = b.top)) ∧
      (∀ d, Fragment.typeTemplate d ∈ st.code →
        (d.InsertID = false ↔ ∃ b ∈ blocks, d ∈ b.nested)) ∧
      (∀ d, Fragment.typeTemplate d ∈ st.code →
        typeTemplateFields d =
          if d.InsertID then ⟨d.StructType ++ "_id", "*string"⟩ :: d.StructFields
          else d.StructFields)) ∧
    Generate asciiTables 3 netProvider "N" (initState "N") = .ok () netOutput ∧
    topLevelTypes netOutput.code = ["Net"] ∧
    nestedTypes netOutput.code = ["Net_rules_1_ports_2", "Net_rules_1"] :=
  ⟨Generate_identity_iff asciiTables 3 netProvider "N" (initState "N")
      (by decide) (by decide),
    by decide, by decide, by decide⟩

/-- C13. The result of `Generate`, emission list included, does not depend on the
generation state left by an earlier run, and it is the same for two
enumerations of one provider, that is when the resource map and the attribute
maps at every depth are listed in another order. On a supported provider, with
fuel for its depth, both runs return the same final state, so the same
emission list with the same nested aggregate names. -/
theorem Generate_deterministic (U : UnicodeTables) (fuel : Nat) (p p2 : Provider)
    (ns : String) (old old2 : GenState) (h : SameProvider p p2) :
    Generate U fuel p ns old = Generate U fuel p ns old2 ∧
    Generate U fuel p ns old = Generate U fuel p2 ns old2 ∧
    (p.supported = true → p.depth ≤ fuel →
      ∃ st, Generate U fuel p ns old = .ok () st ∧ Generate U fuel p2 ns old2 = .ok () st ∧
        st.prefixTemplateData.Namespace = ns) := by
  have hsame := Generate_same U fuel h ns old old2
  refine ⟨rfl, hsame, ?_⟩
  intro hs hf
  obtain ⟨st, hgen⟩ := Generate_total U fuel p ns old hs hf
  obtain ⟨blocks, _, hpre, _, _⟩ := Generate_shape hgen
  refine ⟨st, hgen, ?_, ?_⟩
  · rw [← hsame]; exact hgen
  · rw [hpre]

/-- Witness of C13: a provider with a nested resource and the same provider with
every map enumerated in another order, run from different earlier states. -/
theorem Generate_deterministic_witness :
    SameProvider shopProvider shopProviderReordered ∧
    (Generate asciiTables 2 shopProvider "N" (initState "N") =
        Generate asciiTables 2 shopProvider "N" maxCounterState ∧
     Generate asciiTables 2 shopProvider "N" (initState "N") =
        Generate asciiTables 2 shopProviderReordered "N" maxCounterState ∧
     (shopProvider.supported = true → shopProvider.depth ≤ 2 →
      ∃ st, Generate asciiTables 2 shopProvider "N" (initState "N") = .ok () st ∧
        Generate asciiTables 2 shopProviderReordered "N" maxCounterState = .ok () st ∧
        st.prefixTemplateData.Namespace = "N")) ∧
    shopProvider.supported = true ∧ shopProvider.depth ≤ 2 ∧
    (∃ st, Generate asciiTables 2 shopProviderReordered "N" maxCounterState = .ok () st ∧
      nestedTypes st.code = ["Thing_items_1"] ∧ topLevelTypes st.code = ["Alpha", "Thing"]) :=
  ⟨shopProvider_same,
    Generate_deterministic asciiTables 2 shopProvider shopProviderReordered "N"
      (initState "N") maxCounterState shopProvider_same,
    by decide, by decide, ⟨_, rfl, by decide, by decide⟩⟩

/-- C14, counterexample. A List whose `Elem` is the nil `*schema.Resource` and a Set
whose `Elem` is the nil `*schema.Schema`: the type switch takes the pointer
case, so no attribute of the traversal has an `Elem` of another type or a kind
outside the seven; yet `getGoType` returns no type expression, it dies of a
nil dereference, which is none of its unsupported-schema errors. -/
theorem getGoType_nil_elem_dereference :
    getGoType asciiTables 2 "Thing" "items" nilResourceSchema (initState "N") =
        .panic .nilDereference ∧
      getGoType asciiTables 2 "Thing" "names" nilSchemaSchema (initState "N") =
        .panic .nilDereference ∧
      Panic.unsupportedSchema .nilDereference = false ∧
      (∀ a, Reaches nilResourceSchema a → a.offending = false) ∧
      (∀ a, Reaches nilSchemaSchema a → a.offending = false) ∧
      (¬ ∃ t st1, getGoType asciiTables 2 "Thing" "items" nilResourceSchema (initState "N") =
        .ok t st1) := by
  refine ⟨rfl, rfl, rfl, ?_, ?_, ?_⟩
  · intro a h
    cases h
    rfl
  · intro a h
    cases h
    rfl
  · rintro ⟨t, st1, h⟩
    cases h

/-- C14, amended. On a well-formed schema tree (no `Elem` is a nil `*schema.Schema`
or `*schema.Resource`, no map has duplicate keys), with fuel for its depth,
`getGoType` panics with one of its three unsupported-schema errors exactly
when some attribute schema of the traversal is a List or Set whose `Elem` is
neither an attribute schema nor a nested resource (a nil `Elem` included) or
has a kind outside Bool, Int, Float, String, Map, List, Set; and it returns a
type expression exactly when there is no such attribute. The same holds of
`generateResource` on a resource. `Generate` panics with one of these errors
exactly when the provider has such an attribute; when it has none, the loop
of `Generate` over the resources runs to its end. -/
theorem getGoType_fails_iff_unsupported (U : UnicodeTables) (fuel : Nat) (g n : String)
    (s : Schema) (nt : String) (r : Resource) (p : Provider) (ns : String)
    (st old : GenState)
    (hs : s.wellFormed = true) (hsf : s.depth ≤ fuel)
    (hr : r.wellFormed = true) (hrf : r.depth ≤ fuel)
    (hp : p.wellFormed = true) (hpf : p.depth ≤ fuel) :
    (((∃ e, getGoType U fuel g n s st = .panic e ∧ e.unsupportedSchema = true) ↔
        ∃ a, Reaches s a ∧ a.offending = true) ∧
     ((∃ t st1, getGoType U fuel g n s st = .ok t st1) ↔
        ¬ ∃ a, Reaches s a ∧ a.offending = true)) ∧
    (((∃ e, generateResource U fuel nt r st = .panic e ∧ e.unsupportedSchema = true) ↔
        ∃ a, r.reaches a ∧ a.offending = true) ∧
     ((∃ u st1, generateResource U fuel nt r st = .ok u st1) ↔
        ¬ ∃ a, r.reaches a ∧ a.offending = true)) ∧
    ((∃ e, Generate U fuel p ns old = .panic e ∧ e.unsupportedSchema = true) ↔
        ∃ a, p.reaches a ∧ a.offending = true) ∧
    ((¬ ∃ a, p.reaches a ∧ a.offending = true) →
      ∃ st1, resourcesLoop U fuel p.ResourcesMap (sortStrings (p.ResourcesMap.map Prod.fst))
        { saltValue := 0, prefixTemplateData := { Namespace := ns, StructTypes := [] },
          code := [] } = .ok () st1) := by
  have hgen := result_dichotomy (provider_unsupported_iff_reaches p hp)
      (fun h => by
        obtain ⟨st1, h1⟩ := Generate_total U fuel p ns old h hpf
        exact ⟨(), st1, h1⟩)
      (fun h => Generate_panic U fuel p ns old hp h hpf)
  refine ⟨result_dichotomy (unsupported_iff_reaches s hs)
      (fun h => getGoType_total U fuel s h hsf g n st)
      (fun h => getGoType_panic U fuel s hs h hsf g n st),
    result_dichotomy (resource_unsupported_iff_reaches r hr)
      (fun h => ?_)
      (fun h => generateResource_panic U fuel nt st hr h hrf),
    hgen.1, ?_⟩
  · obtain ⟨st1, h1⟩ := generateResource_total U fuel nt st h hrf
    exact ⟨(), st1, h1⟩
  · intro hno
    have hsup : p.supported = true := by
      cases hb : p.supported with
      | true => rfl
      | false => exact absurd ((provider_unsupported_iff_reaches p hp).mp hb) hno
    exact resourcesLoop_total U fuel p.ResourcesMap
      (sortStrings (p.ResourcesMap.map Prod.fst))
      (fun nt2 hn => by
        obtain ⟨r2, hl, hmem⟩ := lookup_of_mem_keys p.ResourcesMap nt2 (mem_sortStrings.mp hn)
        exact ⟨r2, hl, provider_supported_of_mem hsup hmem,
          le_trans (provider_depth_of_mem hmem) hpf⟩) _

/-- Witness of C14 (amended): Scenario E. The List attribute with an element of
another type panics with the List error; the provider with the resources
`widget` and `odd`, the latter with a Set without `Elem` inside a nested
resource, panics with the Set error; `widget` alone is generated. -/
theorem getGoType_fails_iff_unsupported_witness :
    ((((∃ e, getGoType asciiTables 2 "Odd" "bad" oddListSchema (initState "N") = .panic e ∧
          e.unsupportedSchema = true) ↔
        ∃ a, Reaches oddListSchema a ∧ a.offending = true) ∧
     ((∃ t st1, getGoType asciiTables 2 "Odd" "bad" oddListSchema (initState "N") =
          .ok t st1) ↔
        ¬ ∃ a, Reaches oddListSchema a ∧ a.offending = true)) ∧
    (((∃ e, generateResource asciiTables 2 "widget" widgetResource (initState "N") =
          .panic e ∧ e.unsupportedSchema = true) ↔
        ∃ a, widgetResource.reaches a ∧ a.offending = true) ∧
     ((∃ u st1, generateResource asciiTables 2 "widget" widgetResource (initState "N") =
          .ok u st1) ↔
        ¬ ∃ a, widgetResource.reaches a ∧ a.offending = true)) ∧
    ((∃ e, Generate asciiTables 2 oddProvider "N" (initState "N") = .panic e ∧
          e.unsupportedSchema = true) ↔
        ∃ a, oddProvider.reaches a ∧ a.offending = true) ∧
    ((¬ ∃ a, oddProvider.reaches a ∧ a.offending = true) →
      ∃ st1, resourcesLoop asciiTables 2 oddProvider.ResourcesMap
        (sortStrings (oddProvider.ResourcesMap.map Prod.fst))
        { saltValue := 0, prefixTemplateData := { Namespace := "N", StructTypes := [] },
          code := [] } = .ok () st1)) ∧
    getGoType asciiTables 2 "Odd" "bad" oddListSchema (initState "N") =
      .panic .unsupportedTypeList ∧
    Generate asciiTables 2 oddProvider "N" (initState "N") = .panic .unsupportedTypeSet ∧
    oddProvider.reaches (.mk .TypeSet true false .nil) ∧
    (∃ st1, generateResource asciiTables 2 "widget" widgetResource (initState "N") =
      .ok () st1) :=
  ⟨getGoType_fails_iff_unsupported asciiTables 2 "Odd" "bad" oddListSchema "widget"
      widgetResource oddProvider "N" (initState "N") (initState "N")
      (by decide) (by decide) (by decide) (by decide) (by decide) (by decide),
    by decide, by decide,
    ⟨"odd", oddResource, by simp [oddProvider],
      "items", _, List.mem_cons_self _ _,
      Reaches.attr _ _ _ _ "x" _ _ (Or.inl rfl) (List.mem_cons_self _ _) (Reaches.self _)⟩,
    ⟨_, rfl⟩⟩

/-- C15, counterexample. In the run on `thing` (Scenario C) the fragment right behind
the prefix is the nested aggregate `Thing_items_1`, and the top-level aggregate
`Thing` comes after it; in the run on `net` the aggregate minted second,
`Net_rules_1_ports_2`, is emitted before the one minted first, `Net_rules_1`. -/
theorem Generate_nested_before_top :
    Generate asciiTables 2 thingProvider "N" (initState "N") = .ok () thingOutput ∧
      thingOutput.code.get? 1 = some (Fragment.typeTemplate
        { StructType := "Thing_items_1",
          StructFields := [⟨"Id", "string"⟩, ⟨"Price", "*float64"⟩],
          InsertID := false }) ∧
      thingOutput.code.get? 2 = some (Fragment.typeTemplate
        { StructType := "Thing",
          StructFields := [⟨"Items", "*[]Thing_items_1"⟩],
          InsertID := true }) ∧
      Generate asciiTables 3 netProvider "N" (initState "N") = .ok () netOutput ∧
      aggregateNames netOutput.code = ["Net_rules_1_ports_2", "Net_rules_1", "Net"] := by
  decide

/-- C15, amended. After `Generate` on a supported provider the fragments that follow
the prefix are, for each resource in increasing order of the native names:
first the nested aggregate definitions produced during its traversal, then
the top-level aggregate definition of the resource (with identity field),
then its registration-and-handler block. The nested definitions of each
resource are emitted in post-order of the schema tree (`postOrderRun`): the
definition of a nested resource, named with the counter value minted when the
traversal reaches it, follows the definitions of the resources nested in its
attributes, which are numbered after it; the nested resources of different
attributes follow each other in the sorted order of the attribute names. -/
theorem Generate_fragment_order (U : UnicodeTables) (fuel : Nat) (p : Provider) (ns : String)
    (old : GenState) (hs : p.supported = true) (hf : p.depth ≤ fuel) :
    ∃ (out : GenState) (blocks : List ResourceBlock),
      Generate U fuel p ns old = .ok () out ∧
      out.code = Fragment.prefixTemplate out.prefixTemplateData ::
        (blocks.map (fun b => b.nested.map Fragment.typeTemplate ++
          [Fragment.typeTemplate b.top, Fragment.providerTemplate b.handler])).flatten ∧
      List.Forall₂ (fun nt b => b.top.StructType = Title U nt ∧ b.top.InsertID = true ∧
          b.handler.NativeType = nt ∧ ∀ d ∈ b.nested, d.InsertID = false)
        (sortStrings (p.ResourcesMap.map Prod.fst)) blocks ∧
      (sortStrings (p.ResourcesMap.map Prod.fst)).Sorted stringLE ∧
      blocks.map (fun b => b.nested.map (fun d => d.StructType)) =
        (postOrderRun U fuel p.ResourcesMap
          (sortStrings (p.ResourcesMap.map Prod.fst)) 0).1 ∧
      out.saltValue =
        (postOrderRun U fuel p.ResourcesMap
          (sortStrings (p.ResourcesMap.map Prod.fst)) 0).2 := by
  obtain ⟨out, hgen⟩ := Generate_total U fuel p ns old hs hf
  obtain ⟨blocks, hcode, hall, hins, hnames, hc⟩ := Generate_postOrder hgen
  exact ⟨out, blocks, hgen, hcode, blocks_forall₂_order hall hins,
    sortStrings_sorted _, hnames, hc⟩

/-- Witness of C15 (amended): the run on the resources `net` and `thing`. The
aggregate of `ports`, nested in `rules` and minted second, precedes the
aggregate of `rules`, minted first; the aggregate of `items` in `thing` is
minted third. -/
theorem Generate_fragment_order_witness :
    (∃ (out : GenState) (blocks : List ResourceBlock),
      Generate asciiTables 3 netThingProvider "N" (initState "N") = .ok () out ∧
      out.code = Fragment.prefixTemplate out.prefixTemplateData ::
        (blocks.map (fun b => b.nested.map Fragment.typeTemplate ++
          [Fragment.typeTemplate b.top, Fragment.providerTemplate b.handler])).flatten ∧
      List.Forall₂ (fun nt b => b.top.StructType = Title asciiTables nt ∧
          b.top.InsertID = true ∧
          b.handler.NativeType = nt ∧ ∀ d ∈ b.nested, d.InsertID = false)
        (sortStrings (netThingProvider.ResourcesMap.map Prod.fst)) blocks ∧
      (sortStrings (netThingProvider.ResourcesMap.map Prod.fst)).Sorted stringLE ∧
      blocks.map (fun b => b.nested.map (fun d => d.StructType)) =
        (postOrderRun asciiTables 3 netThingProvider.ResourcesMap
          (sortStrings (netThingProvider.ResourcesMap.map Prod.fst)) 0).1 ∧
      out.saltValue =
        (postOrderRun asciiTables 3 netThingProvider.ResourcesMap
          (sortStrings (netThingProvider.ResourcesMap.map Prod.fst)) 0).2) ∧
    sortStrings (netThingProvider.ResourcesMap.map Prod.fst) = ["net", "thing"] ∧
    postOrderRun asciiTables 3 netThingProvider.ResourcesMap
        (sortStrings (netThingProvider.ResourcesMap.map Prod.fst)) 0 =
      ([["Net_rules_1_ports_2", "Net_rules_1"], ["Thing_items_3"]], 3) :=
  ⟨Generate_fragment_order asciiTables 3 netThingProvider "N" (initState "N")
      (by decide) (by decide),
    by decide, by decide⟩

/-- C16, counterexample. For the resource `my-res` with the attribute `foo-bar` the
emitted aggregate is named `My-Res` and its field `Foo-Bar`: `strings.Title`
capitalises the letter after the dash too, whereas capitalising the first
letter alone gives `My-res` and `Foo-bar`. -/
theorem Title_capitalizes_every_word :
    generateResourceType asciiTables 1 "my-res" dashResource true (initState "N") =
        .ok ([], [])
          { saltValue := 0,
            prefixTemplateData := { Namespace := "N", StructTypes := [] },
            code := [Fragment.typeTemplate
              { StructType := "My-Res", StructFields := [⟨"Foo-Bar", "string"⟩],
                InsertID := true }] } ∧
      capitalizeFirst asciiTables "foo-bar" = "Foo-bar" ∧
      capitalizeFirst asciiTables "my-res" = "My-res" ∧
      "Foo-Bar" ≠ capitalizeFirst asciiTables "foo-bar" ∧
      "My-Res" ≠ capitalizeFirst asciiTables "my-res" := by
  decide

/-- C16, amended. `generateResourceType` names the aggregate `strings.Title` of the
native name and each field `strings.Title` of its attribute name; for a name
made of ASCII letters, digits and underscores (no separator for
`strings.Title`) that is the name with its first letter capitalised and every
other character unchanged. -/
theorem Title_capitalizes_plain_names (U : UnicodeTables) (fuel : Nat) (nativeType : String)
    (r : Resource) (insertID : Bool) (st : GenState)
    (hs : r.supported = true) (hf : r.depth ≤ fuel) :
    ∃ (pi : List String × List String) (st1 : GenState) (earlier : List Fragment)
      (fields : List structField),
      generateResourceType U fuel nativeType r insertID st = .ok pi st1 ∧
      st1.code = earlier ++
        [Fragment.typeTemplate
          { StructType := Title U nativeType, StructFields := fields,
            InsertID := insertID }] ∧
      fields.map (fun f => f.FieldName) =
        (sortStrings (r.Schema.map Prod.fst)).map (Title U) ∧
      (plainName nativeType = true → Title U nativeType = capitalizeFirst U nativeType) ∧
      (∀ name ∈ r.Schema.map Prod.fst, plainName name = true →
        Title U name = capitalizeFirst U name) := by
  obtain ⟨pi, st1, hgen⟩ := generateResourceType_total U fuel nativeType insertID st hs hf
  obtain ⟨ds, fields, stm, _, hst1, hall, _⟩ := generateResourceType_shape hgen
  refine ⟨pi, st1, stm.code, fields, hgen, by rw [hst1], fieldNames_of_forall₂ hall,
    fun h => Title_plain U h, fun name _ h => Title_plain U h⟩

/-- Witness of C16 (amended), Scenario B: `widget` with `name`, `size`, `tags`
gives `Widget` with `Name`, `Size`, `Tags`. -/
theorem Title_capitalizes_plain_names_witness :
    (∃ (pi : List String × List String) (st1 : GenState) (earlier : List Fragment)
      (fields : List structField),
      generateResourceType asciiTables 1 "widget" widgetResource true (initState "N")
        = .ok pi st1 ∧
      st1.code = earlier ++
        [Fragment.typeTemplate
          { StructType := Title asciiTables "widget", StructFields := fields,
            InsertID := true }] ∧
      fields.map (fun f => f.FieldName) =
        (sortStrings (widgetResource.Schema.map Prod.fst)).map (Title asciiTables) ∧
      (plainName "widget" = true →
        Title asciiTables "widget" = capitalizeFirst asciiTables "widget") ∧
      (∀ name ∈ widgetResource.Schema.map Prod.fst, plainName name = true →
        Title asciiTables name = capitalizeFirst asciiTables name)) ∧
    plainName "widget" = true ∧
    capitalizeFirst asciiTables "widget" = "Widget" ∧
    (sortStrings (widgetResource.Schema.map Prod.fst)).map (capitalizeFirst asciiTables) =
      ["Name", "Size", "Tags"] :=
  ⟨Title_capitalizes_plain_names asciiTables 1 "widget" widgetResource true (initState "N")
      (by decide) (by decide),
    by decide, by decide, by decide⟩

/-- C17. `generatePrefix` puts exactly one fragment, the header rendered from the
prefix data (namespace and recorded top-level aggregate names), in front of
the emission list, whose earlier fragments follow unchanged and in order, and
touches nothing else; the state `Generate` returns is `generatePrefix` applied
to the state its loop over the resources ends in. For the provider without
resources the emission list after `Generate` is that header alone, with no
registration and no aggregate definition. -/
theorem generatePrefix_prepends (U : UnicodeTables) (fuel : Nat) (p : Provider)
    (ns : String) (old st : GenState) :
    (generatePrefix st).code = Fragment.prefixTemplate st.prefixTemplateData :: st.code ∧
    (generatePrefix st).code.length = st.code.length + 1 ∧
    (generatePrefix st).code.tail = st.code ∧
    (generatePrefix st).saltValue = st.saltValue ∧
    (generatePrefix st).prefixTemplateData = st.prefixTemplateData ∧
    (∀ out, Generate U fuel p ns old = .ok () out →
      ∃ st1, resourcesLoop U fuel p.ResourcesMap (sortStrings (p.ResourcesMap.map Prod.fst))
          { saltValue := 0, prefixTemplateData := { Namespace := ns, StructTypes := [] },
            code := [] } = .ok () st1 ∧
        out = generatePrefix st1) ∧
    Generate U fuel emptyProvider ns old =
      .ok () { saltValue := 0, prefixTemplateData := { Namespace := ns, StructTypes := [] },
               code := [Fragment.prefixTemplate { Namespace := ns, StructTypes := [] }] } ∧
    initializeRegistrations { Namespace := ns, StructTypes := [] } = [] ∧
    aggregateNames [Fragment.prefixTemplate { Namespace := ns, StructTypes := [] }] = [] := by
  refine ⟨rfl, by simp [generatePrefix], rfl, rfl, rfl, ?_, rfl, rfl, rfl⟩
  intro out h
  simp only [Generate] at h
  split at h
  · next u st1 hloop =>
    simp only [Result.ok.injEq, true_and] at h
    exact ⟨st1, hloop, h.symm⟩
  · simp at h
  · simp at h

/-- C18, counterexample. For the attribute `my-items` of `Thing` the field type
refers to `Thing_my-items_1`, while the nested aggregate is emitted under the
name `Thing_my-Items_1`: no emitted definition bears the referenced name. -/
theorem nested_reference_dangles :
    getGoType asciiTables 2 "Thing" "my-items" itemsSchema (initState "N") =
        .ok "[]Thing_my-items_1"
          { saltValue := 1,
            prefixTemplateData := { Namespace := "N", StructTypes := [] },
            code := [Fragment.typeTemplate
              { StructType := "Thing_my-Items_1",
                StructFields := [⟨"Id", "string"⟩, ⟨"Price", "*float64"⟩],
                InsertID := false }] } ∧
      "Thing_my-items_1" ∉ aggregateNames [Fragment.typeTemplate
              { StructType := "Thing_my-Items_1",
                StructFields := [⟨"Id", "string"⟩, ⟨"Price", "*float64"⟩],
                InsertID := false }] := by
  decide

/-- C18, amended. For a nested-resource attribute whose name `attr` is made of ASCII
letters, digits and underscores, inside an aggregate named `strings.Title` of
such a name `x`, the name referenced in the field type (`"[]"` followed by the
name minted by `deriveGoType`) is the name under which the nested aggregate
definition is appended to the emission list: applying `strings.Title` to the
minted name leaves it unchanged. -/
theorem nested_reference_resolves (U : UnicodeTables) (fuel : Nat) (x attr : String)
    (s : Schema) (r : Resource) (st : GenState)
    (hx : plainName x = true) (ha : plainName attr = true)
    (hk : s.Type_ = .TypeList ∨ s.Type_ = .TypeSet) (he : s.Elem = .resource r)
    (hr : r.supported = true) (hf : r.depth ≤ fuel) :
    ∃ (st1 : GenState) (ds : List structData) (fields : List structField)
      (referenced : String),
      referenced = (deriveGoType (Title U x) attr st).1 ∧
      getGoType U (fuel + 1) (Title U x) attr s st = .ok ("[]" ++ referenced) st1 ∧
      st1.code = st.code ++ ds.map Fragment.typeTemplate ++
        [Fragment.typeTemplate
          { StructType := referenced, StructFields := fields, InsertID := false }] ∧
      referenced ∈ aggregateNames st1.code ∧
      Title U referenced = referenced := by
  obtain ⟨st1, ds, fields, hget, hcode⟩ :=
    getGoType_nested_shape U fuel (Title U x) attr s r st hk he hr hf
  have ht : Title U (deriveGoType (Title U x) attr st).1 =
      (deriveGoType (Title U x) attr st).1 :=
    Title_minted_plain U (wrapInt (st.saltValue + 1)) hx ha
  rw [ht] at hcode
  refine ⟨st1, ds, fields, _, rfl, hget, hcode, ?_, ht⟩
  rw [hcode]
  exact aggregateNames_concat _ _

/-- Witness of C18 (amended), Scenario C: the field type of `items` refers to
`Thing_items_1`, the name of the emitted nested aggregate. -/
theorem nested_reference_resolves_witness :
    (∃ (st1 : GenState) (ds : List structData) (fields : List structField)
      (referenced : String),
      referenced = (deriveGoType (Title asciiTables "thing") "items" (initState "N")).1 ∧
      getGoType asciiTables 2 (Title asciiTables "thing") "items" itemsSchema (initState "N")
        = .ok ("[]" ++ referenced) st1 ∧
      st1.code = (initState "N").code ++ ds.map Fragment.typeTemplate ++
        [Fragment.typeTemplate
          { StructType := referenced, StructFields := fields, InsertID := false }] ∧
      referenced ∈ aggregateNames st1.code ∧
      Title asciiTables referenced = referenced) ∧
    (deriveGoType (Title asciiTables "thing") "items" (initState "N")).1 = "Thing_items_1" :=
  ⟨nested_reference_resolves asciiTables 1 "thing" "items" itemsSchema itemResource
      (initState "N") (by decide) (by decide) (Or.inl rfl) rfl (by decide) (by decide),
    by decide⟩

/-- C19, counterexample. The resource `a` with the attribute `a_id` gets the field
`A_id`, the name of the identity field that the template writes for the
top-level aggregate `A`; the resource with the attributes `foo` and `Foo` gets
two fields named `Foo`. -/
theorem field_names_collide :
    generateResourceType asciiTables 1 "a" idClashResource true (initState "N") =
        .ok (["a_id"], [])
          { saltValue := 0,
            prefixTemplateData := { Namespace := "N", StructTypes := [] },
            code := [Fragment.typeTemplate
              { StructType := "A", StructFields := [⟨"A_id", "*string"⟩],
                InsertID := true }] } ∧
      (typeTemplateFields
          { StructType := "A", StructFields := [⟨"A_id", "*string"⟩],
            InsertID := true }).map (fun f => f.FieldName) = ["A_id", "A_id"] ∧
      generateResourceType asciiTables 1 "b" caseClashResource false (initState "N") =
        .ok ([], [])
          { saltValue := 0,
            prefixTemplateData := { Namespace := "N", StructTypes := [] },
            code := [Fragment.typeTemplate
              { StructType := "B",
                StructFields := [⟨"Foo", "int"⟩, ⟨"Foo", "string"⟩],
                InsertID := false }] } ∧
      ¬ (["Foo", "Foo"] : List String).Nodup ∧ ¬ (["A_id", "A_id"] : List String).Nodup := by
  decide

/-- C19, amended. For a supported resource whose attribute names are unique and made
of lower-case ASCII letters, digits and underscores, the field names of the
emitted aggregate are pairwise distinct; a field is named like the identity
field `StructType_id` only if it derives from the attribute named
`nativeType_id`, so for a native name of the same form and a resource without
such an attribute all fields the template writes, the identity field
included, have pairwise distinct names. -/
theorem field_names_distinct (U : UnicodeTables) (fuel : Nat) (nativeType : String)
    (r : Resource) (insertID : Bool) (st : GenState)
    (hnd : (r.Schema.map Prod.fst).Nodup)
    (hlow : ∀ name ∈ r.Schema.map Prod.fst, lowerName name = true)
    (hs : r.supported = true) (hf : r.depth ≤ fuel) :
    ∃ (pi : List String × List String) (st1 : GenState) (earlier : List Fragment)
      (fields : List structField),
      generateResourceType U fuel nativeType r insertID st = .ok pi st1 ∧
      st1.code = earlier ++
        [Fragment.typeTemplate
          { StructType := Title U nativeType, StructFields := fields,
            InsertID := insertID }] ∧
      (fields.map (fun f => f.FieldName)).Nodup ∧
      (lowerName nativeType = true → ∀ f ∈ fields,
        f.FieldName = Title U nativeType ++ "_id" →
          (nativeType ++ "_id") ∈ r.Schema.map Prod.fst) ∧
      (lowerName nativeType = true → (nativeType ++ "_id") ∉ r.Schema.map Prod.fst →
        ((typeTemplateFields
          { StructType := Title U nativeType, StructFields := fields,
            InsertID := insertID }).map (fun f => f.FieldName)).Nodup) := by
  obtain ⟨pi, st1, hgen⟩ := generateResourceType_total U fuel nativeType insertID st hs hf
  obtain ⟨ds, fields, stm, _, hst1, hall, _⟩ := generateResourceType_shape hgen
  have hnames := fieldNames_of_forall₂ hall
  have hlow2 : ∀ name ∈ sortStrings (r.Schema.map Prod.fst), lowerName name = true :=
    fun name hn => hlow name (mem_sortStrings.mp hn)
  have hnodup : (fields.map (fun f => f.FieldName)).Nodup := by
    rw [hnames]
    refine List.Nodup.map_on ?_ (sortStrings_nodup hnd)
    intro a ha b hb hab
    exact Title_inj_lower U (hlow2 a ha) (hlow2 b hb) hab
  have hid : lowerName nativeType = true → ∀ f ∈ fields,
      f.FieldName = Title U nativeType ++ "_id" →
        (nativeType ++ "_id") ∈ r.Schema.map Prod.fst := by
    intro hnt f hfm hfn
    have hmem : f.FieldName ∈ fields.map (fun f => f.FieldName) :=
      List.mem_map.mpr ⟨f, hfm, rfl⟩
    rw [hnames] at hmem
    obtain ⟨name, hname, hT⟩ := List.mem_map.mp hmem
    rw [hfn, ← Title_append_id] at hT
    have := Title_inj_lower U (hlow2 name hname) (lowerName_append_id hnt) hT
    rw [← this]
    exact mem_sortStrings.mp hname
  refine ⟨pi, st1, stm.code, fields, hgen, by rw [hst1], hnodup, hid, ?_⟩
  intro hnt hno
  cases insertID with
  | false => simpa [typeTemplateFields] using hnodup
  | true =>
    simp only [typeTemplateFields, if_true, List.singleton_append, List.map_cons,
      List.nodup_cons]
    refine ⟨?_, hnodup⟩
    intro hmem
    obtain ⟨f, hfm, hfn⟩ := List.mem_map.mp hmem
    exact hno (hid hnt f hfm hfn)

/-- Witness of C19 (amended), Scenario B: the top-level aggregate `Widget` has the
fields `Widget_id`, `Name`, `Size`, `Tags`. -/
theorem field_names_distinct_witness :
    (∃ (pi : List String × List String) (st1 : GenState) (earlier : List Fragment)
      (fields : List structField),
      generateResourceType asciiTables 1 "widget" widgetResource true (initState "N")
        = .ok pi st1 ∧
      st1.code = earlier ++
        [Fragment.typeTemplate
          { StructType := Title asciiTables "widget", StructFields := fields,
            InsertID := true }] ∧
      (fields.map (fun f => f.FieldName)).Nodup ∧
      (lowerName "widget" = true → ∀ f ∈ fields,
        f.FieldName = Title asciiTables "widget" ++ "_id" →
          ("widget" ++ "_id") ∈ widgetResource.Schema.map Prod.fst) ∧
      (lowerName "widget" = true →
        ("widget" ++ "_id") ∉ widgetResource.Schema.map Prod.fst →
        ((typeTemplateFields
          { StructType := Title asciiTables "widget", StructFields := fields,
            InsertID := true }).map (fun f => f.FieldName)).Nodup)) ∧
    lowerName "widget" = true ∧
    ("widget" ++ "_id") ∉ widgetResource.Schema.map Prod.fst ∧
    (typeTemplateFields
        { StructType := "Widget",
          StructFields :=
            [⟨"Name", "string"⟩, ⟨"Size", "*int"⟩, ⟨"Tags", "*map[string]string"⟩],
          InsertID := true }).map (fun f => f.FieldName) =
      ["Widget_id", "Name", "Size", "Tags"] :=
  ⟨field_names_distinct asciiTables 1 "widget" widgetResource true (initState "N")
      (by decide) (by decide) (by decide) (by decide),
    by decide, by decide, by decide⟩

/-- C20. Every successful `getGoType` call leaves the fragments already in the
emission list in place and appends only nested aggregate definitions, exactly
as many as the times it increments the counter (`advance`), one per minted
name: each definition bears the name minted at its own one of these
increments. Short of `int` overflow the counter thus grows by the number of
appended fragments. On a supported schema, with fuel for its depth, the call
is successful. After `Generate` on a supported provider with `k` resources
the emission list (a Go slice, so of fewer than `2^63` fragments) holds
`1 + 2k + saltValue` fragments. -/
theorem getGoType_fragments_per_mint (U : UnicodeTables) (fuel : Nat) (g n : String)
    (s : Schema) (st : GenState) (p : Provider) (ns : String) (old : GenState)
    (hs : s.supported = true) (hf : s.depth ≤ fuel)
    (hps : p.supported = true) (hpf : p.depth ≤ fuel) :
    (∀ (fuel1 : Nat) (g1 n1 : String) (s1 : Schema) (st0 : GenState) (t : String)
      (st1 : GenState), getGoType U fuel1 g1 n1 s1 st0 = .ok t st1 →
      ∃ ds : List structData,
        st1.code = st0.code ++ ds.map Fragment.typeTemplate ∧
        (∀ d ∈ ds, d.InsertID = false) ∧
        st1.saltValue = advance st0.saltValue ds.length ∧
        (-2 ^ 63 ≤ st0.saltValue → st0.saltValue + (ds.length : Int) < 2 ^ 63 →
          st1.saltValue = st0.saltValue + (ds.length : Int)) ∧
        ∃ ks : List Nat, ks.length = ds.length ∧ ks.Nodup ∧
          (∀ k ∈ ks, 1 ≤ k ∧ k ≤ ds.length) ∧
          List.Forall₂ (fun d k => MintedWith U d.StructType (advance st0.saltValue k))
            ds ks) ∧
    (∃ t st1, getGoType U fuel g n s st = .ok t st1) ∧
    (∃ out, Generate U fuel p ns old = .ok () out ∧
      ((out.code.length : Int) < 2 ^ 63 →
        (out.code.length : Int) = 1 + 2 * (p.ResourcesMap.length : Int) + out.saltValue)) := by
  refine ⟨?_, getGoType_total U fuel s hs hf g n st, ?_⟩
  · intro fuel1 g1 n1 s1 st0 t st1 h
    obtain ⟨ds, _, hc, hsalt, hins, ks, hnd, hb, hfa⟩ :=
      getGoType_nestedRun U fuel1 g1 n1 s1 st0 t st1 h
    refine ⟨ds, hc, hins, hsalt, ?_, ks, hfa.length_eq.symm, hnd, hb, hfa⟩
    intro h1 h2
    rw [hsalt, advance_of_range _ _ h1 h2]
  · obtain ⟨out, hgen⟩ := Generate_total U fuel p ns old hps hpf
    obtain ⟨m, hlen, _, hsalt⟩ := Generate_counts hgen
    refine ⟨out, hgen, ?_⟩
    intro hb
    have hm : advance 0 m = (m : Int) := advance_zero m (by omega)
    rw [hsalt, hm, hlen]
    push_cast
    ring

/-- Witness of C20. With the counter at the largest `int`, the call on a Set of
nested resources appends one fragment and increments the counter once (to
`-2^63`); the run on `thing` (Scenario C) ends with `1 + 2 * 1 + 1`
fragments and the counter at 1. -/
theorem getGoType_fragments_per_mint_witness :
    ((∀ (fuel1 : Nat) (g1 n1 : String) (s1 : Schema) (st0 : GenState) (t : String)
      (st1 : GenState), getGoType asciiTables fuel1 g1 n1 s1 st0 = .ok t st1 →
      ∃ ds : List structData,
        st1.code = st0.code ++ ds.map Fragment.typeTemplate ∧
        (∀ d ∈ ds, d.InsertID = false) ∧
        st1.saltValue = advance st0.saltValue ds.length ∧
        (-2 ^ 63 ≤ st0.saltValue → st0.saltValue + (ds.length : Int) < 2 ^ 63 →
          st1.saltValue = st0.saltValue + (ds.length : Int)) ∧
        ∃ ks : List Nat, ks.length = ds.length ∧ ks.Nodup ∧
          (∀ k ∈ ks, 1 ≤ k ∧ k ≤ ds.length) ∧
          List.Forall₂
            (fun d k => MintedWith asciiTables d.StructType (advance st0.saltValue k))
            ds ks) ∧
    (∃ t st1, getGoType asciiTables 2 "Thing" "items" itemsSetSchema maxCounterState =
      .ok t st1) ∧
    (∃ out, Generate asciiTables 2 thingProvider "N" (initState "N") = .ok () out ∧
      ((out.code.length : Int) < 2 ^ 63 →
        (out.code.length : Int) =
          1 + 2 * (thingProvider.ResourcesMap.length : Int) + out.saltValue))) ∧
    getGoType asciiTables 2 "Thing" "items" itemsSetSchema maxCounterState =
        .ok "[]Thing_items_-9223372036854775808"
          { saltValue := advance maxCounterState.saltValue 1,
            prefixTemplateData := { Namespace := "N", StructTypes := [] },
            code := maxCounterState.code ++ [Fragment.typeTemplate
              { StructType := "Thing_items_-9223372036854775808",
                StructFields := [⟨"Id", "string"⟩, ⟨"Price", "*float64"⟩],
                InsertID := false }] } ∧
    Generate asciiTables 2 thingProvider "N" (initState "N") = .ok () thingOutput ∧
    thingOutput.code.length = 1 + 2 * 1 + 1 ∧ thingOutput.saltValue = 1 :=
  ⟨getGoType_fragments_per_mint asciiTables 2 "Thing" "items" itemsSetSchema maxCounterState
      thingProvider "N" (initState "N") (by decide) (by decide) (by decide) (by decide),
    by decide, by decide, by decide, by decide⟩

end Bridge
